import Mathlib

/-!
# visit-platform: the bot fleet registry, its reconciliation loop and its workers

A shallow embedding of `bot/main.go`.  Go strings are Lean `String`s (valid
UTF-8 texts), `len(s)` is `String.utf8ByteSize`, `uint` identifiers are
natural numbers, a Go `map` is an association list read through `mapGet`,
and a `*BotInstance` is a record carrying the address `ptr` it was
allocated at.  Calls into the Telegram gateway are answered by an explicit
`Gateway` argument; every call returns the new registry, what the Go call
returned (or that it panicked) and the trace of its side effects.  A
reconciliation cycle takes the fetched visit cards and, for the card at
position `i`, the gateway answers `gw i`.  A worker is a state (its cursor)
stepped by the events its `select` can receive; Go's `int` is an integer
whose one addition wraps at 64 bits.  Of the API, the handler
`UpdateProfile` (`api/handlers/user.go`) acts on the user table as a list of
rows, and the pattern of `isValidBotTokenFormat`
(`api/handlers/visit_card.go`) is a regular expression over characters.
-/

namespace VisitPlatform

/-! ## Go maps -/

/-- Lookup `m[k]` of a Go map: the bound value, or `none` when `k` is absent. -/
def mapGet {κ ν : Type} [DecidableEq κ] : List (κ × ν) → κ → Option ν
  | [], _ => none
  | (k', v) :: rest, k => if k' = k then some v else mapGet rest k

/-- The builtin `delete(m, k)`. -/
def mapDelete {κ ν : Type} [DecidableEq κ] : List (κ × ν) → κ → List (κ × ν)
  | [], _ => []
  | (k', v) :: rest, k => if k' = k then mapDelete rest k else (k', v) :: mapDelete rest k

/-- The assignment `m[k] = v`. -/
def mapSet {κ ν : Type} [DecidableEq κ] (m : List (κ × ν)) (k : κ) (v : ν) : List (κ × ν) :=
  (k, v) :: mapDelete m k

/-- The keys visited by `for k := range m`. -/
def mapKeys {κ ν : Type} (m : List (κ × ν)) : List κ :=
  m.map Prod.fst

/-! ## Data model -/

/-- A running bot instance (`BotInstance`).  `ptr` is the address of the
object: two instances are the same object exactly when they are equal. -/
structure BotInstance where
  ptr : Nat
  visitCardID : Nat
  token : String
  deriving DecidableEq, Repr

/-- The registry (`BotManager`): the two maps, and the number of
`BotInstance` objects allocated so far (the next fresh address). -/
structure BotManager where
  botsByCard : List (Nat × BotInstance)
  botsByToken : List (String × BotInstance)
  allocated : Nat
  deriving DecidableEq, Repr

/-- How a Go call ended: it returned `nil`, returned an error with the given
text, or panicked (which, as nothing recovers, ends the process). -/
inductive Ret where
  | ok
  | err (msg : String)
  | panicked
  deriving DecidableEq, Repr

/-- Side effects of a call on the outside world, in the order they happen.
`callStartBot` and `callStopBot` record the registry calls the
reconciliation loop makes, with what `StartBot` returned. -/
inductive Effect where
  | newBotAPI (token : String)
  | getMe (token : String)
  | deleteWebhook (token : String)
  | sleep (seconds : Nat)
  | stopWorker (ptr : Nat)
  | spawnWorker (ptr : Nat)
  | storeUpdate (id : Nat) (tokenValid : Bool) (tokenErrorMessage : String)
  | callStartBot (token : String) (visitCardID : Nat) (result : Ret)
  | callStopBot (token : String)
  deriving DecidableEq, Repr

/-- The result of a registry call. -/
structure Call where
  bm : BotManager
  ret : Ret
  trace : List Effect
  deriving DecidableEq, Repr

/-- The answers of the Telegram gateway to the calls one `StartBot` can make:
the error text of `tgbotapi.NewBotAPI` and of `bot.GetMe`, `none` for success. -/
structure Gateway where
  newBotAPI : Option String
  getMe : Option String
  deriving DecidableEq, Repr

/-- The slice expression `s[:10]` is in range. -/
def sliceOK (s : String) : Bool :=
  decide (10 ≤ s.utf8ByteSize)

/-- The function `NewBotManager`: both maps empty. -/
def NewBotManager : BotManager :=
  { botsByCard := [], botsByToken := [], allocated := 0 }

/-- The method `stopBotUnlocked`: stop the worker, remove it from both maps,
then log the token prefix. -/
def stopBotUnlocked (bm : BotManager) (token : String) : Call :=
  match mapGet bm.botsByToken token with
  | some inst =>
    let bm' : BotManager :=
      { bm with botsByCard := mapDelete bm.botsByCard inst.visitCardID,
                botsByToken := mapDelete bm.botsByToken token }
    if sliceOK token then ⟨bm', Ret.ok, [Effect.stopWorker inst.ptr]⟩
    else ⟨bm', Ret.panicked, [Effect.stopWorker inst.ptr]⟩
  | none => ⟨bm, Ret.ok, []⟩

/-- The method `StopBot`. -/
def StopBot (bm : BotManager) (token : String) : Call :=
  stopBotUnlocked bm token

/-- The method `StopBotByCard`. -/
def StopBotByCard (bm : BotManager) (visitCardID : Nat) : Call :=
  match mapGet bm.botsByCard visitCardID with
  | some inst =>
    let bm' : BotManager :=
      { bm with botsByCard := mapDelete bm.botsByCard visitCardID,
                botsByToken := mapDelete bm.botsByToken inst.token }
    if sliceOK inst.token then ⟨bm', Ret.ok, [Effect.stopWorker inst.ptr]⟩
    else ⟨bm', Ret.panicked, [Effect.stopWorker inst.ptr]⟩
  | none => ⟨bm, Ret.ok, []⟩

/-- The text of the error `StartBot` returns for a token bound elsewhere. -/
def conflictError : String := "token already in use by another visit card"

/-- The part of `StartBot` after the visit-card check (lines 107-216): the
token conflict check, the construction and authentication of the bot, the
start of the worker and the insertion into both maps.  `pre` is the trace
of what happened before. -/
def startBotCreate (bm : BotManager) (token : String) (visitCardID : Nat)
    (gw : Gateway) (pre : List Effect) : Call :=
  match mapGet bm.botsByToken token with
  | some _ =>
    if sliceOK token then ⟨bm, Ret.err conflictError, pre⟩
    else ⟨bm, Ret.panicked, pre⟩
  | none =>
    match gw.newBotAPI with
    | some e => ⟨bm, Ret.err e, pre ++ [Effect.newBotAPI token]⟩
    | none =>
      match gw.getMe with
      | some e => ⟨bm, Ret.err e, pre ++ [Effect.newBotAPI token, Effect.getMe token]⟩
      | none =>
        let inst : BotInstance :=
          { ptr := bm.allocated, visitCardID := visitCardID, token := token }
        let bm' : BotManager :=
          { botsByCard := mapSet bm.botsByCard visitCardID inst,
            botsByToken := mapSet bm.botsByToken token inst,
            allocated := bm.allocated + 1 }
        let tr := pre ++ [Effect.newBotAPI token, Effect.getMe token,
          Effect.deleteWebhook token, Effect.spawnWorker inst.ptr]
        if sliceOK token then ⟨bm', Ret.ok, tr⟩ else ⟨bm', Ret.panicked, tr⟩

/-- The method `StartBot`. -/
def StartBot (bm : BotManager) (token : String) (visitCardID : Nat) (gw : Gateway) : Call :=
  match mapGet bm.botsByCard visitCardID with
  | some existingInstance =>
    if existingInstance.token ≠ token then
      if sliceOK existingInstance.token && sliceOK token then
        let stopped := stopBotUnlocked bm existingInstance.token
        match stopped.ret with
        | Ret.ok =>
          startBotCreate stopped.bm token visitCardID gw (stopped.trace ++ [Effect.sleep 1])
        | _ => stopped
      else ⟨bm, Ret.panicked, []⟩
    else
      if sliceOK token then ⟨bm, Ret.ok, []⟩ else ⟨bm, Ret.panicked, []⟩
  | none => startBotCreate bm token visitCardID gw []

/-- The method `GetRunningBots`: the keys of `botsByToken`.  Go visits them
in an unspecified order, here it is the order of the association list; what
is proved about the sweep (`sweep_spec`) holds for every list of tokens. -/
def GetRunningBots (bm : BotManager) : List String :=
  mapKeys bm.botsByToken

/-- The method `GetRunningBotCount`. -/
def GetRunningBotCount (bm : BotManager) : Nat :=
  bm.botsByToken.length

/-- Registry states reachable from `NewBotManager` by calls of `StartBot`,
`StopBot` and `StopBotByCard` that return (a panicking call ends the
process, no call follows it), under any gateway answers. -/
inductive Reachable : BotManager → Prop where
  | init : Reachable NewBotManager
  | startBot (bm : BotManager) (token : String) (visitCardID : Nat) (gw : Gateway) :
      Reachable bm → (StartBot bm token visitCardID gw).ret ≠ Ret.panicked →
      Reachable (StartBot bm token visitCardID gw).bm
  | stopBot (bm : BotManager) (token : String) :
      Reachable bm → (StopBot bm token).ret ≠ Ret.panicked →
      Reachable (StopBot bm token).bm
  | stopBotByCard (bm : BotManager) (visitCardID : Nat) :
      Reachable bm → (StopBotByCard bm visitCardID).ret ≠ Ret.panicked →
      Reachable (StopBotByCard bm visitCardID).bm

/-! ## The failure classifier -/

/-- The pattern list of `isNetworkError`. -/
def networkPatterns : List String :=
  ["connection refused", "connection reset", "connection closed", "timeout",
   "wsarecv", "wsasend", "broken pipe", "network is unreachable", "no route to host",
   "connection timed out", "transport error", "read: connection reset",
   "write: connection reset", "forcibly closed by the remote host"]

/-- Go's `unicode.ToLower`: on ASCII it shifts `A`-`Z` to `a`-`z` and keeps
every other rune; beyond ASCII it reads the case tables of the Go standard
library, the parameter `table`. -/
def unicodeToLower (table : Char → Char) (r : Char) : Char :=
  if r.toNat ≤ 127 then
    if 65 ≤ r.toNat ∧ r.toNat ≤ 90 then Char.ofNat (r.toNat + 32) else r
  else table r

/-- Go's `strings.ToLower`: every rune mapped by `unicode.ToLower`. -/
def ToLower (table : Char → Char) (s : String) : String :=
  ⟨s.data.map (unicodeToLower table)⟩

/-- Go's `strings.Contains`: `substr` occurs within `s`. -/
def Contains (s substr : String) : Bool :=
  s.data.tails.any (fun t => substr.data.isPrefixOf t)

/-- The function `isNetworkError`. -/
def isNetworkError (table : Char → Char) (errStr : String) : Bool :=
  networkPatterns.any (fun pattern => Contains (ToLower table errStr) pattern)

/-- The function `validateBotToken`: the error text it returns (`none` for
nil) and the gateway calls it made. -/
def validateBotToken (table : Char → Char) (token : String) (gw : Gateway) :
    Option String × List Effect :=
  match gw.newBotAPI with
  | some e => (some e, [Effect.newBotAPI token])
  | none =>
    match gw.getMe with
    | some e =>
      if isNetworkError table e then
        (some ("network error during token validation: " ++ e),
          [Effect.newBotAPI token, Effect.getMe token])
      else (some e, [Effect.newBotAPI token, Effect.getMe token])
    | none => (none, [Effect.newBotAPI token, Effect.getMe token])

/-! ## The reconciliation loop -/

/-- A row of the visit card table (`VisitCard`); `Deleted` says that
`deleted_at` is set. -/
structure VisitCard where
  ID : Nat
  Title : String
  Description : String
  LogoURL : String
  Domain : String
  TelegramBotToken : String
  TokenValid : Bool
  TokenErrorMessage : String
  ViewCount : Nat
  BotViewCount : Nat
  UserID : Nat
  Deleted : Bool
  deriving DecidableEq, Repr

/-- The query of `syncBots` (line 465): the rows with a token that is neither
empty nor the text 'token was not valid', marked valid, and not deleted. -/
def fetchVisitCards (rows : List VisitCard) : List VisitCard :=
  rows.filter (fun vc =>
    decide (vc.TelegramBotToken ≠ "") && decide (vc.TelegramBotToken ≠ "token was not valid")
      && vc.TokenValid && !vc.Deleted)

/-- The gateway answers while one visit card is processed: those to
`validateBotToken` and those to the `StartBot` that may follow. -/
structure CardGateway where
  validate : Gateway
  start : Gateway
  deriving DecidableEq, Repr

/-- Lines 508-528 of `syncBots`: start the bot of the card unless the card
already runs an instance with its token.  An error of `StartBot` is logged. -/
def ensureRunning (bm : BotManager) (vc : VisitCard) (gw : Gateway) (pre : List Effect) : Call :=
  let botExists : Bool :=
    match mapGet bm.botsByCard vc.ID with
    | some inst => decide (inst.token = vc.TelegramBotToken)
    | none => false
  if botExists then ⟨bm, Ret.ok, pre⟩
  else
    let r := StartBot bm vc.TelegramBotToken vc.ID gw
    ⟨r.bm, if r.ret = Ret.panicked then Ret.panicked else Ret.ok,
      pre ++ Effect.callStartBot vc.TelegramBotToken vc.ID r.ret :: r.trace⟩

/-- The body of the loop over the visit cards in `syncBots` (lines 473-529). -/
def processCard (table : Char → Char) (bm : BotManager) (vc : VisitCard) (cg : CardGateway) :
    Call :=
  if sliceOK vc.TelegramBotToken then
    let v := validateBotToken table vc.TelegramBotToken cg.validate
    match v.1 with
    | some errStr =>
      if isNetworkError table errStr then ensureRunning bm vc cg.start v.2
      else
        let r := StopBot bm vc.TelegramBotToken
        ⟨r.bm, r.ret,
          v.2 ++ Effect.storeUpdate vc.ID false ("Token validation failed: " ++ errStr)
            :: Effect.callStopBot vc.TelegramBotToken :: r.trace⟩
    | none =>
      if !vc.TokenValid || decide (vc.TokenErrorMessage ≠ "") then
        ensureRunning bm vc cg.start (v.2 ++ [Effect.storeUpdate vc.ID true ""])
      else ensureRunning bm vc cg.start v.2
  else ⟨bm, Ret.panicked, []⟩

/-- The loop over the visit cards; the card at position `i` of the fetched
list is processed under the gateway answers `gw i`. -/
def processCards (table : Char → Char) (gw : Nat → CardGateway) :
    Nat → List VisitCard → BotManager → List Effect → Call
  | _, [], bm, tr => ⟨bm, Ret.ok, tr⟩
  | i, vc :: rest, bm, tr =>
    let r := processCard table bm vc (gw i)
    match r.ret with
    | Ret.panicked => ⟨r.bm, Ret.panicked, tr ++ r.trace⟩
    | _ => processCards table gw (i + 1) rest r.bm (tr ++ r.trace)

/-- The sweep of `syncBots` (lines 535-549) over the running tokens. -/
def sweep (visitCards : List VisitCard) : List String → BotManager → List Effect → Call
  | [], bm, tr => ⟨bm, Ret.ok, tr⟩
  | token :: rest, bm, tr =>
    if visitCards.any (fun vc => decide (vc.TelegramBotToken = token)) then
      sweep visitCards rest bm tr
    else if sliceOK token then
      let r := StopBot bm token
      match r.ret with
      | Ret.panicked => ⟨r.bm, Ret.panicked, tr ++ Effect.callStopBot token :: r.trace⟩
      | _ => sweep visitCards rest r.bm (tr ++ Effect.callStopBot token :: r.trace)
    else ⟨bm, Ret.panicked, tr⟩

/-- One reconciliation cycle of `syncBots` on the fetched `visitCards`
(lines 472-551). -/
def syncCycle (table : Char → Char) (bm : BotManager) (visitCards : List VisitCard)
    (gw : Nat → CardGateway) : Call :=
  let r := processCards table gw 0 visitCards bm []
  match r.ret with
  | Ret.panicked => r
  | _ => sweep visitCards (GetRunningBots r.bm) r.bm r.trace

/-- One tick of `syncBots`: a failed query skips the cycle, otherwise the
cycle runs on the fetched rows. -/
def syncBots (table : Char → Char) (bm : BotManager) (store : Except String (List VisitCard))
    (gw : Nat → CardGateway) : Call :=
  match store with
  | Except.error _ => ⟨bm, Ret.ok, []⟩
  | Except.ok rows => syncCycle table bm (fetchVisitCards rows) gw

/-- The gateway that authenticates every token at every call. -/
def allAuthenticate : Nat → CardGateway :=
  fun _ => ⟨⟨none, none⟩, ⟨none, none⟩⟩

/-- The bindings `(visitCardID, token)` of the running instances. -/
def Running (bm : BotManager) (e : Nat) (c : String) : Prop :=
  ∃ inst, mapGet bm.botsByCard e = some inst ∧ inst.token = c

/-- Tokens of the desired set `D` run, if at all, for the card `D` gives them. -/
def TokensFree (bm : BotManager) (D : List VisitCard) : Prop :=
  ∀ vc ∈ D, ∀ inst, mapGet bm.botsByToken vc.TelegramBotToken = some inst →
    inst.visitCardID = vc.ID

/-! ## The worker of a bot instance -/

/-- What the worker reads of a `tgbotapi.Message`: the chat id, and what the
library methods `IsCommand()` and `Command()` return for it. -/
structure Message where
  ChatID : Int
  IsCommand : Bool
  Command : String
  deriving DecidableEq, Repr

/-- An update returned by `bot.GetUpdates`. -/
structure Update where
  UpdateID : Int
  Msg : Option Message
  deriving DecidableEq, Repr

/-- What a worker does to the outside world: the poll, the messages it
sends, and the column update of `incrementBotView`. -/
inductive WorkerEffect where
  | getUpdates (offset : Int)
  | sendMessage (chatID : Int) (text : String)
  | sendPhoto (chatID : Int) (fileURL : String) (caption : String)
  | updateBotViewCount (id : Nat) (count : Nat)
  deriving DecidableEq, Repr

/-- Addition on Go's 64-bit `int` wraps around. -/
def wrapInt64 (x : Int) : Int :=
  (x + 2 ^ 63) % 2 ^ 64 - 2 ^ 63

/-- The query `db.First(&visitCard, visitCardID)`: the row with that id that
is not soft-deleted, if there is one. -/
def dbFirst (rows : List VisitCard) (visitCardID : Nat) : Option VisitCard :=
  rows.find? (fun r => decide (r.ID = visitCardID) && !r.Deleted)

/-- The function `incrementBotView`: the table afterwards and the update issued. -/
def incrementBotView (rows : List VisitCard) (visitCardID : Nat) :
    List VisitCard × List WorkerEffect :=
  match dbFirst rows visitCardID with
  | none => (rows, [])
  | some visitCard =>
    let count := (visitCard.BotViewCount + 1) % 2 ^ 64
    (rows.map (fun r =>
        if r.ID = visitCard.ID ∧ r.Deleted = false then { r with BotViewCount := count } else r),
      [WorkerEffect.updateBotViewCount visitCard.ID count])

/-- The method `sendWelcomeMessage`. -/
def sendWelcomeMessage (rows : List VisitCard) (chatID : Int) (visitCardID : Nat) :
    List VisitCard × List WorkerEffect :=
  match dbFirst rows visitCardID with
  | none =>
    (rows, [WorkerEffect.sendMessage chatID
      "Sorry, there was an error retrieving company information."])
  | some visitCard =>
    let inc := incrementBotView rows visitCardID
    let welcomeText := visitCard.Title ++ "\n\n" ++ visitCard.Description
    if visitCard.LogoURL ≠ "" then
      (inc.1, inc.2 ++ [WorkerEffect.sendPhoto chatID visitCard.LogoURL welcomeText])
    else (inc.1, inc.2 ++ [WorkerEffect.sendMessage chatID welcomeText])

/-- The method `handleCommand`. -/
def handleCommand (rows : List VisitCard) (message : Message) (visitCardID : Nat) :
    List VisitCard × List WorkerEffect :=
  if message.Command = "start" then sendWelcomeMessage rows message.ChatID visitCardID
  else if message.Command = "help" then
    (rows, [WorkerEffect.sendMessage message.ChatID
      "Commands:\n/start - Welcome message\n/help - Show this help message"])
  else
    (rows, [WorkerEffect.sendMessage message.ChatID
      "Unknown command. Type /help for available commands."])

/-- The method `handleMessage`. -/
def handleMessage (rows : List VisitCard) (message : Message) (visitCardID : Nat) :
    List VisitCard × List WorkerEffect :=
  sendWelcomeMessage rows message.ChatID visitCardID

/-- The state of the worker goroutine of an instance: its card, the cursor
`lastUpdateID`, and whether the goroutine is still in its loop. -/
structure Worker where
  visitCardID : Nat
  lastUpdateID : Int
  running : Bool
  deriving DecidableEq, Repr

/-- The result of a step of the worker: its state, the visit card table and
what it did. -/
structure WorkerStep where
  worker : Worker
  rows : List VisitCard
  effects : List WorkerEffect
  deriving DecidableEq, Repr

/-- The body of the loop over the updates of a batch (lines 194-206): the
dispatch of the message, then the cursor. -/
def processUpdate (st : WorkerStep) (update : Update) : WorkerStep :=
  let handled : List VisitCard × List WorkerEffect :=
    match update.Msg with
    | some message =>
      if message.IsCommand then handleCommand st.rows message st.worker.visitCardID
      else handleMessage st.rows message st.worker.visitCardID
    | none => (st.rows, [])
  { worker :=
      if update.UpdateID > st.worker.lastUpdateID then
        { st.worker with lastUpdateID := update.UpdateID }
      else st.worker,
    rows := handled.1,
    effects := st.effects ++ handled.2 }

/-- The case `<-updateTicker.C` of the worker loop (lines 172-207): one poll
with offset `lastUpdateID + 1` and, if it succeeds, the processing of the
batch.  `poll` is the answer of `bot.GetUpdates`. -/
def workerTick (table : Char → Char) (w : Worker) (rows : List VisitCard)
    (poll : Except String (List Update)) : WorkerStep :=
  let polled : WorkerStep :=
    { worker := w, rows := rows,
      effects := [WorkerEffect.getUpdates (wrapInt64 (w.lastUpdateID + 1))] }
  match poll with
  | Except.error errStr =>
    if isNetworkError table errStr then polled else polled
  | Except.ok updates => updates.foldl processUpdate polled

/-- What the `select` of the worker loop can receive. -/
inductive WorkerEvent where
  | ctxDone
  | stopSignal
  | tick (poll : Except String (List Update))

/-- One iteration of the worker loop (lines 164-208); a goroutine that has
returned takes no further step. -/
def workerStep (table : Char → Char) (w : Worker) (rows : List VisitCard)
    (ev : WorkerEvent) : WorkerStep :=
  if w.running then
    match ev with
    | WorkerEvent.ctxDone => { worker := { w with running := false }, rows := rows, effects := [] }
    | WorkerEvent.stopSignal =>
      { worker := { w with running := false }, rows := rows, effects := [] }
    | WorkerEvent.tick poll => workerTick table w rows poll
  else { worker := w, rows := rows, effects := [] }

/-- The worker as `StartBot` starts it: cursor `0`, in its loop. -/
def newWorker (visitCardID : Nat) : Worker :=
  { visitCardID := visitCardID, lastUpdateID := 0, running := true }

/-- The largest of the cursor and the update ids of a batch. -/
def maxUpdateID (cursor : Int) (updates : List Update) : Int :=
  updates.foldl (fun m u => max m u.UpdateID) cursor

/-- The first poll offset of a list of worker effects. -/
def firstOffset : List WorkerEffect → Option Int
  | WorkerEffect.getUpdates offset :: _ => some offset
  | _ => none

/-! ## Reading a cycle -/

/-- The effects by which the reconciliation loop itself acts: its store
updates and its calls of `StartBot` and `StopBot`. -/
def Effect.isCall : Effect → Bool
  | Effect.storeUpdate _ _ _ => true
  | Effect.callStartBot _ _ _ => true
  | Effect.callStopBot _ => true
  | _ => false

/-- The error text `validateBotToken` returns for a visit card, if any. -/
def validationError (table : Char → Char) (vc : VisitCard) (cg : CardGateway) : Option String :=
  (validateBotToken table vc.TelegramBotToken cg.validate).1

/-- The validation of the card fails and `isNetworkError` classifies the
error text as permanent (lines 483-496). -/
def permanentFailure (table : Char → Char) (vc : VisitCard) (cg : CardGateway) : Bool :=
  match validationError table vc cg with
  | some errStr => !isNetworkError table errStr
  | none => false

/-- The validation of the card fails and `isNetworkError` classifies the
error text as transient (lines 479-482). -/
def transientFailure (table : Char → Char) (vc : VisitCard) (cg : CardGateway) : Bool :=
  match validationError table vc cg with
  | some errStr => isNetworkError table errStr
  | none => false

/-- What the processing of one visit card can do as a store update or a
registry call, given the answers of the gateway. -/
def MayEmit (table : Char → Char) (vc : VisitCard) (cg : CardGateway) : Effect → Prop
  | Effect.storeUpdate id valid msg =>
    id = vc.ID ∧
      ((valid = true ∧ msg = "" ∧ validationError table vc cg = none) ∨
       (valid = false ∧ ∃ errStr, validationError table vc cg = some errStr ∧
          isNetworkError table errStr = false ∧ msg = "Token validation failed: " ++ errStr))
  | Effect.callStopBot c => c = vc.TelegramBotToken ∧ permanentFailure table vc cg = true
  | Effect.callStartBot c e _ =>
    c = vc.TelegramBotToken ∧ e = vc.ID ∧ permanentFailure table vc cg = false
  | _ => True

/-- The registry after `n` reconciliation cycles on the same fetched cards. -/
def cyclesFrom (table : Char → Char) (D : List VisitCard) (gw : Nat → CardGateway)
    (bm : BotManager) : Nat → BotManager
  | 0 => bm
  | n + 1 => (syncCycle table (cyclesFrom table D gw bm n) D gw).bm

/-! ## Runs of a worker -/

/-- The worker loop over a sequence of events: the steps are taken one after
the other, on the table the previous step left, and the effects add up. -/
def workerRun (table : Char → Char) (w : Worker) (rows : List VisitCard) :
    List WorkerEvent → WorkerStep
  | [] => { worker := w, rows := rows, effects := [] }
  | ev :: rest =>
    let s := workerStep table w rows ev
    let r := workerRun table s.worker s.rows rest
    { worker := r.worker, rows := r.rows, effects := s.effects ++ r.effects }

/-- What `close(instance.stopCh); instance.cancelFunc(); instance.wg.Wait()`
(lines 222-229 and 253-260) does to the worker: its `select` may still pick
the ticker for the polls `inflight`, then it picks one of the two closed
channels (`viaCtx` tells which) and the goroutine returns, running
`wg.Done()` as the last of its deferred calls; `wg.Wait()` returns after that. -/
def stopAndWait (table : Char → Char) (w : Worker) (rows : List VisitCard)
    (inflight : List (Except String (List Update))) (viaCtx : Bool) : WorkerStep :=
  workerRun table w rows
    (inflight.map WorkerEvent.tick ++
      [if viaCtx then WorkerEvent.ctxDone else WorkerEvent.stopSignal])

/-! ## The profile handler of the API -/

/-- The constant `UserRole` of `type Role int`. -/
def UserRole : Int := 0

/-- The constant `AdminRole` of `type Role int`. -/
def AdminRole : Int := 1

/-- A row of the user table (`models.User`); `Deleted` says that `deleted_at`
is set. -/
structure User where
  ID : Nat
  Email : String
  Password : String
  Name : String
  CompanyName : String
  Role : Int
  Deleted : Bool
  deriving DecidableEq, Repr

/-- The JSON body `UpdateUserRequest`. -/
structure UpdateUserRequest where
  Name : String
  CompanyName : String
  Role : String
  deriving DecidableEq, Repr

/-- The query `db.DB.First(&user, userID)`. -/
def userFirst (users : List User) (userID : Nat) : Option User :=
  users.find? (fun u => decide (u.ID = userID) && !u.Deleted)

/-- The handler `UpdateProfile` (lines 129-162): the user table afterwards
and the HTTP status.  `userID` is what the middleware put into the context,
`body` the bound request (`none` when `ShouldBindJSON` fails), `saveErr` the
error of `db.DB.Save`. -/
def UpdateProfile (users : List User) (userID : Nat) (body : Option UpdateUserRequest)
    (saveErr : Option String) : List User × Nat :=
  match body with
  | none => (users, 400)
  | some req =>
    match userFirst users userID with
    | none => (users, 404)
    | some user =>
      let named : User := { user with Name := req.Name, CompanyName := req.CompanyName }
      let updated : User :=
        if req.Role ≠ "" then
          if req.Role = "admin" then { named with Role := AdminRole }
          else if req.Role = "user" then { named with Role := UserRole }
          else named
        else named
      match saveErr with
      | some _ => (users, 500)
      | none =>
        (users.map (fun u => if u.ID = updated.ID ∧ u.Deleted = false then updated else u), 200)

/-- An ordinary user with id 1. -/
def plainUser : User :=
  { ID := 1, Email := "u@example.com", Password := "hash", Name := "U", CompanyName := "",
    Role := UserRole, Deleted := false }

/-! ## The token format check of the API -/

/-- A character class of a regular expression: any one of the characters `cs`. -/
def anyOf : List Char → RegularExpression Char
  | [] => 0
  | c :: rest => RegularExpression.char c + anyOf rest

/-- The characters of a range `lo-hi` of a character class. -/
def charRange (lo hi : Char) : List Char :=
  (List.range (hi.toNat + 1 - lo.toNat)).map (fun i => Char.ofNat (lo.toNat + i))

/-- The class `\d` of Go's `regexp`, which is `[0-9]`. -/
def digitClass : List Char := charRange '0' '9'

/-- The class `[a-zA-Z0-9_-]`. -/
def tokenClass : List Char :=
  charRange 'a' 'z' ++ charRange 'A' 'Z' ++ charRange '0' '9' ++ ['_', '-']

/-- What stands between `^` and `$` in the pattern of `isValidBotTokenFormat`:
`\d+`, then `:`, then `[a-zA-Z0-9_-]{35}`. -/
def tokenPattern : RegularExpression Char :=
  anyOf digitClass * (anyOf digitClass).star * RegularExpression.char ':' * anyOf tokenClass ^ 35

/-- The function `isValidBotTokenFormat` (lines 393-400 of
`handlers/visit_card.go`).  The pattern begins with `^` and ends with `$`,
and without the flag `m` these stand for the two ends of the text, so
`regexp.MatchString` holds exactly when the whole token matches. -/
def isValidBotTokenFormat (token : String) : Bool :=
  tokenPattern.rmatch token.data

/-! ## States and inputs used as examples -/

/-- The registry after `StartBot("1234567890", 1)` on the empty registry, the
gateway authenticating the token. -/
def oneBot : BotManager :=
  (StartBot NewBotManager "1234567890" 1 ⟨none, none⟩).bm

/-- A valid, non-deleted visit card with the given id and token. -/
def card (id : Nat) (token : String) : VisitCard :=
  { ID := id, Title := "", Description := "", LogoURL := "", Domain := "",
    TelegramBotToken := token, TokenValid := true, TokenErrorMessage := "",
    ViewCount := 0, BotViewCount := 0, UserID := 0, Deleted := false }

/-- Two valid visit cards that carry the same token. -/
def duplicateRows : List VisitCard :=
  [card 1 "1234567890", card 2 "1234567890"]

/-- Two valid visit cards with different tokens. -/
def twoCards : List VisitCard :=
  [card 1 "abcdefghij", card 2 "ABCDEFGHIJ"]

/-- A gateway that rejects the token of the first visit card as
"Unauthorized" and authenticates every other call. -/
def firstRejected : Nat → CardGateway :=
  fun i => if i = 0 then ⟨⟨some "Unauthorized", none⟩, ⟨none, none⟩⟩
    else ⟨⟨none, none⟩, ⟨none, none⟩⟩

/-- A gateway that times out on the validation of the first visit card and
authenticates every other call. -/
def firstTimesOut : Nat → CardGateway :=
  fun i => if i = 0 then ⟨⟨some "timeout", none⟩, ⟨none, none⟩⟩
    else ⟨⟨none, none⟩, ⟨none, none⟩⟩

/-- The table after card 1 was deleted and its token given to the new card 2. -/
def reassignedRows : List VisitCard :=
  [{ card 1 "1234567890" with Deleted := true }, card 2 "1234567890"]

/-- A gateway that answers the validation of the first visit card with
"Bad Gateway" and authenticates every other call. -/
def firstBadGateway : Nat → CardGateway :=
  fun i => if i = 0 then ⟨⟨some "Bad Gateway", none⟩, ⟨none, none⟩⟩
    else ⟨⟨none, none⟩, ⟨none, none⟩⟩

/-- A gateway that rejects the token of the second visit card as
"Unauthorized" and times out on the validation of the first. -/
def secondRejected : Nat → CardGateway :=
  fun i => if i = 0 then ⟨⟨some "timeout", none⟩, ⟨none, none⟩⟩
    else ⟨⟨some "Unauthorized", none⟩, ⟨none, none⟩⟩

/-- Card 1 with a new token, and card 2 carrying the token card 1 had. -/
def handedOverRows : List VisitCard :=
  [card 1 "abcdefghij", card 2 "1234567890"]

/-- Two valid visit cards that carry the same two-byte token. -/
def shortDuplicateRows : List VisitCard :=
  [card 1 "T1", card 2 "T1"]

/-- One valid visit card with a two-byte token. -/
def shortRows : List VisitCard :=
  [card 1 "T1"]

/-- The registry after `StartBot("abcdefghij", 2)` on `oneBot`, the gateway
authenticating the token: card 1 runs "1234567890", card 2 runs "abcdefghij". -/
def twoBots : BotManager :=
  (StartBot oneBot "abcdefghij" 2 ⟨none, none⟩).bm

/-- The registry invariant: the two maps are each other's inverse on
instances (I1), every bound token can be sliced to ten bytes, every bound
instance lives at an allocated address, and no key occurs twice. -/
structure Inv (bm : BotManager) : Prop where
  card_token : ∀ e i, mapGet bm.botsByCard e = some i →
    i.visitCardID = e ∧ mapGet bm.botsByToken i.token = some i
  token_card : ∀ c i, mapGet bm.botsByToken c = some i →
    i.token = c ∧ mapGet bm.botsByCard i.visitCardID = some i
  token_len : ∀ c i, mapGet bm.botsByToken c = some i → 10 ≤ c.utf8ByteSize
  fresh : ∀ c i, mapGet bm.botsByToken c = some i → i.ptr < bm.allocated
  nodup_card : (mapKeys bm.botsByCard).Nodup
  nodup_token : (mapKeys bm.botsByToken).Nodup

/-! ## Lemmas on Go maps -/

theorem mapGet_mapDelete {κ ν : Type} [DecidableEq κ] (m : List (κ × ν)) (k k' : κ) :
    mapGet (mapDelete m k) k' = if k = k' then none else mapGet m k' := by
  induction m with
  | nil => simp [mapDelete, mapGet]
  | cons p rest ih =>
    obtain ⟨a, b⟩ := p
    by_cases h : a = k
    · subst h
      by_cases h' : a = k'
      · subst h'
        simpa [mapDelete] using ih
      · simpa [mapDelete, mapGet, h'] using ih
    · by_cases h' : k = k'
      · subst h'
        simpa [mapDelete, mapGet, h] using ih
      · by_cases h'' : a = k'
        · subst h''
          simp [mapDelete, mapGet, h, h']
        · simpa [mapDelete, mapGet, h, h'', h'] using ih

theorem mapGet_mapSet {κ ν : Type} [DecidableEq κ] (m : List (κ × ν)) (k k' : κ) (v : ν) :
    mapGet (mapSet m k v) k' = if k = k' then some v else mapGet m k' := by
  by_cases h : k = k'
  · simp [mapSet, mapGet, h]
  · simp [mapSet, mapGet, h, mapGet_mapDelete]

theorem mem_mapKeys_mapDelete {κ ν : Type} [DecidableEq κ] (m : List (κ × ν)) (k k' : κ) :
    k' ∈ mapKeys (mapDelete m k) ↔ k' ∈ mapKeys m ∧ k' ≠ k := by
  induction m with
  | nil => simp [mapDelete, mapKeys]
  | cons p rest ih =>
    obtain ⟨a, b⟩ := p
    unfold mapKeys at ih ⊢
    by_cases h : a = k
    · subst h
      simp only [mapDelete, if_true, ih, List.map_cons, List.mem_cons]
      constructor
      · rintro ⟨h1, h2⟩
        exact ⟨Or.inr h1, h2⟩
      · rintro ⟨h1 | h1, h2⟩
        · exact absurd h1 h2
        · exact ⟨h1, h2⟩
    · simp only [mapDelete, h, if_false, List.map_cons, List.mem_cons, ih]
      constructor
      · rintro (h1 | ⟨h1, h2⟩)
        · exact ⟨Or.inl h1, h1 ▸ h⟩
        · exact ⟨Or.inr h1, h2⟩
      · rintro ⟨h1 | h1, h2⟩
        · exact Or.inl h1
        · exact Or.inr ⟨h1, h2⟩

theorem nodup_mapKeys_mapDelete {κ ν : Type} [DecidableEq κ] (m : List (κ × ν)) (k : κ)
    (h : (mapKeys m).Nodup) : (mapKeys (mapDelete m k)).Nodup := by
  induction m with
  | nil => simp [mapDelete, mapKeys]
  | cons p rest ih =>
    obtain ⟨a, b⟩ := p
    have h' : a ∉ mapKeys rest ∧ (mapKeys rest).Nodup := by
      simpa [mapKeys] using h
    by_cases hk : a = k
    · simpa [mapDelete, hk] using ih h'.2
    · have h1 : mapKeys (mapDelete ((a, b) :: rest) k) = a :: mapKeys (mapDelete rest k) := by
        simp [mapDelete, hk, mapKeys]
      rw [h1, List.nodup_cons]
      refine ⟨?_, ih h'.2⟩
      rw [mem_mapKeys_mapDelete]
      exact fun hh => h'.1 hh.1

theorem nodup_mapKeys_mapSet {κ ν : Type} [DecidableEq κ] (m : List (κ × ν)) (k : κ) (v : ν)
    (h : (mapKeys m).Nodup) : (mapKeys (mapSet m k v)).Nodup := by
  have h1 : mapKeys (mapSet m k v) = k :: mapKeys (mapDelete m k) := by
    simp [mapSet, mapKeys]
  rw [h1, List.nodup_cons]
  refine ⟨?_, nodup_mapKeys_mapDelete m k h⟩
  rw [mem_mapKeys_mapDelete]
  exact fun hh => hh.2 rfl

theorem mapGet_isSome_iff_mem {κ ν : Type} [DecidableEq κ] (m : List (κ × ν)) (k : κ) :
    (∃ v, mapGet m k = some v) ↔ k ∈ mapKeys m := by
  induction m with
  | nil => simp [mapGet, mapKeys]
  | cons p rest ih =>
    obtain ⟨a, b⟩ := p
    by_cases h : a = k
    · simp [mapGet, mapKeys, h]
    · have h' : ¬ k = a := fun e => h e.symm
      simp only [mapGet, h, if_false, ih]
      simp [mapKeys, h']

/-! ## The invariant is preserved -/

theorem Inv.init : Inv NewBotManager := by
  constructor <;> simp [NewBotManager, mapGet, mapKeys]

/-- Removing an instance from both maps keeps the invariant. -/
theorem Inv.remove {bm : BotManager} (hI : Inv bm) {c : String} {inst : BotInstance}
    (hc : mapGet bm.botsByToken c = some inst) :
    Inv { bm with botsByCard := mapDelete bm.botsByCard inst.visitCardID,
                  botsByToken := mapDelete bm.botsByToken c } := by
  obtain ⟨htok, hcard⟩ := hI.token_card c inst hc
  constructor
  · intro e i h
    simp only [mapGet_mapDelete] at h ⊢
    by_cases he : inst.visitCardID = e
    · simp [he] at h
    · simp only [he, if_false] at h
      obtain ⟨h1, h2⟩ := hI.card_token e i h
      refine ⟨h1, ?_⟩
      by_cases hc' : c = i.token
      · exfalso
        rw [← hc', hc] at h2
        have : inst = i := Option.some.inj h2
        exact he (this ▸ h1)
      · simp [hc', h2]
  · intro c' i h
    simp only [mapGet_mapDelete] at h ⊢
    by_cases hc' : c = c'
    · simp [hc'] at h
    · simp only [hc', if_false] at h
      obtain ⟨h1, h2⟩ := hI.token_card c' i h
      refine ⟨h1, ?_⟩
      by_cases he : inst.visitCardID = i.visitCardID
      · exfalso
        rw [← he, hcard] at h2
        have : inst = i := Option.some.inj h2
        exact hc' (by rw [← htok, this, h1])
      · simp [he, h2]
  · intro c' i h
    simp only [mapGet_mapDelete] at h
    by_cases hc' : c = c'
    · simp [hc'] at h
    · simp only [hc', if_false] at h
      exact hI.token_len c' i h
  · intro c' i h
    simp only [mapGet_mapDelete] at h
    by_cases hc' : c = c'
    · simp [hc'] at h
    · simp only [hc', if_false] at h
      exact hI.fresh c' i h
  · exact nodup_mapKeys_mapDelete _ _ hI.nodup_card
  · exact nodup_mapKeys_mapDelete _ _ hI.nodup_token

/-- Inserting a freshly allocated instance for an unbound card and an unbound
token of at least ten bytes keeps the invariant. -/
theorem Inv.insert {bm : BotManager} (hI : Inv bm) {c : String} {e : Nat}
    (he : mapGet bm.botsByCard e = none) (hc : mapGet bm.botsByToken c = none)
    (hlen : 10 ≤ c.utf8ByteSize) :
    Inv { botsByCard := mapSet bm.botsByCard e ⟨bm.allocated, e, c⟩,
          botsByToken := mapSet bm.botsByToken c ⟨bm.allocated, e, c⟩,
          allocated := bm.allocated + 1 } := by
  constructor
  · intro e' i h
    simp only [mapGet_mapSet] at h ⊢
    by_cases h1 : e = e'
    · subst h1
      simp only [if_true] at h
      have : i = ⟨bm.allocated, e, c⟩ := (Option.some.inj h).symm
      subst this
      simp
    · simp only [h1, if_false] at h
      obtain ⟨h2, h3⟩ := hI.card_token e' i h
      refine ⟨h2, ?_⟩
      by_cases h4 : c = i.token
      · rw [← h4, hc] at h3
        simp at h3
      · simp [h4, h3]
  · intro c' i h
    simp only [mapGet_mapSet] at h ⊢
    by_cases h1 : c = c'
    · subst h1
      simp only [if_true] at h
      have : i = ⟨bm.allocated, e, c⟩ := (Option.some.inj h).symm
      subst this
      simp
    · simp only [h1, if_false] at h
      obtain ⟨h2, h3⟩ := hI.token_card c' i h
      refine ⟨h2, ?_⟩
      by_cases h4 : e = i.visitCardID
      · rw [← h4, he] at h3
        simp at h3
      · simp [h4, h3]
  · intro c' i h
    simp only [mapGet_mapSet] at h
    by_cases h1 : c = c'
    · exact h1 ▸ hlen
    · simp only [h1, if_false] at h
      exact hI.token_len c' i h
  · intro c' i h
    simp only [mapGet_mapSet] at h
    by_cases h1 : c = c'
    · subst h1
      simp only [if_true] at h
      have : i = ⟨bm.allocated, e, c⟩ := (Option.some.inj h).symm
      subst this
      simp
    · simp only [h1, if_false] at h
      exact Nat.lt_succ_of_lt (hI.fresh c' i h)
  · exact nodup_mapKeys_mapSet _ _ _ hI.nodup_card
  · exact nodup_mapKeys_mapSet _ _ _ hI.nodup_token

/-! ## What each call does, under the invariant -/

theorem sliceOK_of_bound {bm : BotManager} (hI : Inv bm) {c : String} {inst : BotInstance}
    (hc : mapGet bm.botsByToken c = some inst) : sliceOK c = true := by
  simp [sliceOK, hI.token_len c inst hc]

theorem stopBotUnlocked_absent (bm : BotManager) (c : String)
    (hc : mapGet bm.botsByToken c = none) : stopBotUnlocked bm c = ⟨bm, Ret.ok, []⟩ := by
  simp [stopBotUnlocked, hc]

theorem stopBotUnlocked_bound {bm : BotManager} (hI : Inv bm) {c : String} {inst : BotInstance}
    (hc : mapGet bm.botsByToken c = some inst) :
    stopBotUnlocked bm c =
      ⟨{ bm with botsByCard := mapDelete bm.botsByCard inst.visitCardID,
                 botsByToken := mapDelete bm.botsByToken c },
       Ret.ok, [Effect.stopWorker inst.ptr]⟩ := by
  simp [stopBotUnlocked, hc, sliceOK_of_bound hI hc]

theorem StopBotByCard_absent (bm : BotManager) (e : Nat)
    (he : mapGet bm.botsByCard e = none) : StopBotByCard bm e = ⟨bm, Ret.ok, []⟩ := by
  simp [StopBotByCard, he]

theorem StopBotByCard_bound {bm : BotManager} (hI : Inv bm) {e : Nat} {inst : BotInstance}
    (he : mapGet bm.botsByCard e = some inst) :
    StopBotByCard bm e =
      ⟨{ bm with botsByCard := mapDelete bm.botsByCard e,
                 botsByToken := mapDelete bm.botsByToken inst.token },
       Ret.ok, [Effect.stopWorker inst.ptr]⟩ := by
  have h := (hI.card_token e inst he).2
  simp [StopBotByCard, he, sliceOK_of_bound hI h]

theorem stopBotUnlocked_inv {bm : BotManager} (hI : Inv bm) (c : String) :
    Inv (stopBotUnlocked bm c).bm := by
  cases hc : mapGet bm.botsByToken c with
  | none => rw [stopBotUnlocked_absent bm c hc]; exact hI
  | some inst => rw [stopBotUnlocked_bound hI hc]; exact hI.remove hc

theorem StopBotByCard_inv {bm : BotManager} (hI : Inv bm) (e : Nat) :
    Inv (StopBotByCard bm e).bm := by
  cases he : mapGet bm.botsByCard e with
  | none => rw [StopBotByCard_absent bm e he]; exact hI
  | some inst =>
    rw [StopBotByCard_bound hI he]
    obtain ⟨h1, h2⟩ := hI.card_token e inst he
    have := hI.remove h2
    rw [h1] at this
    exact this

theorem startBotCreate_inv {bm : BotManager} (hI : Inv bm) (c : String) (e : Nat)
    (gw : Gateway) (pre : List Effect) (he : mapGet bm.botsByCard e = none)
    (hret : (startBotCreate bm c e gw pre).ret ≠ Ret.panicked) :
    Inv (startBotCreate bm c e gw pre).bm := by
  unfold startBotCreate at hret ⊢
  cases hc : mapGet bm.botsByToken c with
  | some inst => simp only [hc]; split <;> exact hI
  | none =>
    simp only [hc] at hret ⊢
    cases h1 : gw.newBotAPI with
    | some e1 => simpa [h1] using hI
    | none =>
      cases h2 : gw.getMe with
      | some e2 => simpa [h1, h2] using hI
      | none =>
        simp only [h1, h2] at hret ⊢
        by_cases hs : sliceOK c = true
        · simp only [hs, if_true]
          exact hI.insert he hc (by simpa [sliceOK] using hs)
        · simp [hs] at hret

theorem StartBot_inv {bm : BotManager} (hI : Inv bm) (c : String) (e : Nat) (gw : Gateway)
    (hret : (StartBot bm c e gw).ret ≠ Ret.panicked) : Inv (StartBot bm c e gw).bm := by
  unfold StartBot at hret ⊢
  cases he : mapGet bm.botsByCard e with
  | none =>
    simp only [he] at hret ⊢
    exact startBotCreate_inv hI c e gw [] he hret
  | some inst =>
    simp only [he] at hret ⊢
    obtain ⟨h1, h2⟩ := hI.card_token e inst he
    by_cases ht : inst.token = c
    · simp only [ht, ne_eq, not_true_eq_false, if_false]
      split <;> exact hI
    · simp only [ne_eq, ht, not_false_eq_true, if_true] at hret ⊢
      by_cases hs : (sliceOK inst.token && sliceOK c) = true
      · simp only [hs, if_true, stopBotUnlocked_bound hI h2] at hret ⊢
        refine startBotCreate_inv (hI.remove h2) c e gw _ ?_ hret
        simp [mapGet_mapDelete, h1]
      · simp only [hs] at hret ⊢
        exact hI

theorem StopBot_inv {bm : BotManager} (hI : Inv bm) (c : String) : Inv (StopBot bm c).bm :=
  stopBotUnlocked_inv hI c

/-- Every reachable registry state satisfies the invariant. -/
theorem Reachable.inv {bm : BotManager} (h : Reachable bm) : Inv bm := by
  induction h with
  | init => exact Inv.init
  | startBot bm c e gw _ hret ih => exact StartBot_inv ih c e gw hret
  | stopBot bm c _ _ ih => exact StopBot_inv ih c
  | stopBotByCard bm e _ _ ih => exact StopBotByCard_inv ih e

theorem startBotCreate_bound {bm : BotManager} (hI : Inv bm) {c : String} {inst : BotInstance}
    (hc : mapGet bm.botsByToken c = some inst) (e : Nat) (gw : Gateway) (pre : List Effect) :
    startBotCreate bm c e gw pre = ⟨bm, Ret.err conflictError, pre⟩ := by
  simp [startBotCreate, hc, sliceOK_of_bound hI hc]

/-- A successful `StartBot` leaves the card bound to an instance with the token. -/
theorem StartBot_ok_bound {bm : BotManager} (hI : Inv bm) (c : String) (e : Nat) (gw : Gateway)
    (hret : (StartBot bm c e gw).ret = Ret.ok) :
    ∃ inst, mapGet (StartBot bm c e gw).bm.botsByCard e = some inst ∧ inst.token = c := by
  have hcreate : ∀ (b : BotManager) (pre : List Effect),
      (startBotCreate b c e gw pre).ret = Ret.ok →
      ∃ inst, mapGet (startBotCreate b c e gw pre).bm.botsByCard e = some inst ∧ inst.token = c := by
    intro b pre h
    unfold startBotCreate at h ⊢
    cases hc : mapGet b.botsByToken c with
    | some i0 =>
      simp only [hc] at h
      split at h <;> simp at h
    | none =>
      simp only [hc] at h ⊢
      cases h1 : gw.newBotAPI with
      | some e1 => simp [h1] at h
      | none =>
        cases h2 : gw.getMe with
        | some e2 => simp [h1, h2] at h
        | none =>
          simp only [h1, h2] at h ⊢
          by_cases hs : sliceOK c = true
          · simp only [hs, if_true]
            exact ⟨⟨b.allocated, e, c⟩, by simp [mapGet_mapSet], rfl⟩
          · simp [hs] at h
  unfold StartBot at hret ⊢
  cases he : mapGet bm.botsByCard e with
  | none =>
    simp only [he] at hret ⊢
    exact hcreate bm [] hret
  | some inst =>
    simp only [he] at hret ⊢
    obtain ⟨h1, h2⟩ := hI.card_token e inst he
    by_cases ht : inst.token = c
    · simp only [ht, ne_eq, not_true_eq_false, if_false] at hret ⊢
      by_cases hs : sliceOK c = true
      · simp only [hs, if_true]
        exact ⟨inst, he, ht⟩
      · simp [hs] at hret
    · simp only [ne_eq, ht, not_false_eq_true, if_true] at hret ⊢
      by_cases hs : (sliceOK inst.token && sliceOK c) = true
      · simp only [hs, if_true, stopBotUnlocked_bound hI h2] at hret ⊢
        exact hcreate _ _ hret
      · simp [hs] at hret

/-! ## The registry claims -/

theorem oneBot_reachable : Reachable oneBot :=
  Reachable.startBot NewBotManager "1234567890" 1 ⟨none, none⟩ Reachable.init (by decide)

/-- C1 (index consistency, I1): in every reachable registry state the two
maps hold the same instances: `botsByCard[e] = i` implies `i.visitCardID = e`
and `botsByToken[i.token] = i`, and `botsByToken[c] = i` implies `i.token = c`
and `botsByCard[i.visitCardID] = i`. -/
theorem C1_index_consistency (bm : BotManager) (h : Reachable bm) :
    (∀ e i, mapGet bm.botsByCard e = some i →
      i.visitCardID = e ∧ mapGet bm.botsByToken i.token = some i) ∧
    (∀ c i, mapGet bm.botsByToken c = some i →
      i.token = c ∧ mapGet bm.botsByCard i.visitCardID = some i) :=
  ⟨h.inv.card_token, h.inv.token_card⟩

theorem C1_index_consistency_witness :
    Reachable oneBot ∧
    (∀ e i, mapGet oneBot.botsByCard e = some i →
      i.visitCardID = e ∧ mapGet oneBot.botsByToken i.token = some i) ∧
    (∀ c i, mapGet oneBot.botsByToken c = some i →
      i.token = c ∧ mapGet oneBot.botsByCard i.visitCardID = some i) :=
  ⟨oneBot_reachable, C1_index_consistency oneBot oneBot_reachable⟩

/-- C2 (uniqueness, I2 and I3): in every reachable registry state two
entries of `botsByCard` whose instances share a token or a visit card are
the same entry, likewise for `botsByToken`, and no key occurs twice in
either map. -/
theorem C2_uniqueness (bm : BotManager) (h : Reachable bm) :
    (∀ e1 e2 i1 i2, mapGet bm.botsByCard e1 = some i1 → mapGet bm.botsByCard e2 = some i2 →
      (i1.token = i2.token ∨ i1.visitCardID = i2.visitCardID) → e1 = e2 ∧ i1 = i2) ∧
    (∀ c1 c2 i1 i2, mapGet bm.botsByToken c1 = some i1 → mapGet bm.botsByToken c2 = some i2 →
      (i1.visitCardID = i2.visitCardID ∨ i1.token = i2.token) → c1 = c2 ∧ i1 = i2) ∧
    (mapKeys bm.botsByCard).Nodup ∧ (mapKeys bm.botsByToken).Nodup := by
  have hI := h.inv
  refine ⟨?_, ?_, hI.nodup_card, hI.nodup_token⟩
  · intro e1 e2 i1 i2 h1 h2 hshare
    obtain ⟨a1, b1⟩ := hI.card_token e1 i1 h1
    obtain ⟨a2, b2⟩ := hI.card_token e2 i2 h2
    have hi : i1 = i2 := by
      rcases hshare with ht | hv
      · rw [ht, b2] at b1
        exact (Option.some.inj b1).symm
      · have : e1 = e2 := by rw [← a1, ← a2, hv]
        rw [this, h2] at h1
        exact (Option.some.inj h1).symm
    exact ⟨by rw [← a1, ← a2, hi], hi⟩
  · intro c1 c2 i1 i2 h1 h2 hshare
    obtain ⟨a1, b1⟩ := hI.token_card c1 i1 h1
    obtain ⟨a2, b2⟩ := hI.token_card c2 i2 h2
    have hi : i1 = i2 := by
      rcases hshare with hv | ht
      · rw [hv, b2] at b1
        exact (Option.some.inj b1).symm
      · have : c1 = c2 := by rw [← a1, ← a2, ht]
        rw [this, h2] at h1
        exact (Option.some.inj h1).symm
    exact ⟨by rw [← a1, ← a2, hi], hi⟩

theorem C2_uniqueness_witness :
    Reachable oneBot ∧
    (∀ e1 e2 i1 i2, mapGet oneBot.botsByCard e1 = some i1 →
      mapGet oneBot.botsByCard e2 = some i2 →
      (i1.token = i2.token ∨ i1.visitCardID = i2.visitCardID) → e1 = e2 ∧ i1 = i2) ∧
    (∀ c1 c2 i1 i2, mapGet oneBot.botsByToken c1 = some i1 →
      mapGet oneBot.botsByToken c2 = some i2 →
      (i1.visitCardID = i2.visitCardID ∨ i1.token = i2.token) → c1 = c2 ∧ i1 = i2) ∧
    (mapKeys oneBot.botsByCard).Nodup ∧ (mapKeys oneBot.botsByToken).Nodup :=
  ⟨oneBot_reachable, C2_uniqueness oneBot oneBot_reachable⟩

/-- C3 (conflict preservation): in a reachable registry state where token
`c2` is bound to card `e2`, `StartBot(c2, e1)` for a card `e1 ≠ e2` returns
the error "token already in use by another visit card", and `botsByToken[c2]`
and `botsByCard[e2]` are the same instance as before. -/
theorem C3_conflict_preservation (bm : BotManager) (h : Reachable bm) (c2 : String)
    (e1 e2 : Nat) (i2 : BotInstance) (gw : Gateway)
    (hb : mapGet bm.botsByToken c2 = some i2) (he2 : i2.visitCardID = e2) (hne : e1 ≠ e2) :
    (StartBot bm c2 e1 gw).ret = Ret.err "token already in use by another visit card" ∧
    mapGet (StartBot bm c2 e1 gw).bm.botsByToken c2 = some i2 ∧
    mapGet (StartBot bm c2 e1 gw).bm.botsByCard e2 = some i2 := by
  have hI := h.inv
  obtain ⟨ht2, hc2⟩ := hI.token_card c2 i2 hb
  rw [he2] at hc2
  unfold StartBot
  cases he : mapGet bm.botsByCard e1 with
  | none =>
    simp only [he]
    rw [startBotCreate_bound hI hb]
    exact ⟨rfl, hb, hc2⟩
  | some inst =>
    simp only [he]
    obtain ⟨h1, h2⟩ := hI.card_token e1 inst he
    have ht : inst.token ≠ c2 := by
      intro hh
      rw [hh, hb] at h2
      have : i2 = inst := Option.some.inj h2
      exact hne (by rw [← h1, ← this, he2])
    have hs : (sliceOK inst.token && sliceOK c2) = true := by
      simp [sliceOK_of_bound hI h2, sliceOK_of_bound hI hb]
    simp only [ne_eq, ht, not_false_eq_true, if_true, hs, stopBotUnlocked_bound hI h2]
    have hb' : mapGet (mapDelete bm.botsByToken inst.token) c2 = some i2 := by
      simp [mapGet_mapDelete, ht, hb]
    rw [startBotCreate_bound (hI.remove h2) hb']
    refine ⟨rfl, hb', ?_⟩
    simp [mapGet_mapDelete, h1, hne, hc2]

theorem C3_conflict_preservation_witness :
    (StartBot oneBot "1234567890" 2 ⟨none, none⟩).ret
      = Ret.err "token already in use by another visit card" ∧
    mapGet (StartBot oneBot "1234567890" 2 ⟨none, none⟩).bm.botsByToken "1234567890"
      = some ⟨0, 1, "1234567890"⟩ ∧
    mapGet (StartBot oneBot "1234567890" 2 ⟨none, none⟩).bm.botsByCard 1
      = some ⟨0, 1, "1234567890"⟩ :=
  C3_conflict_preservation oneBot oneBot_reachable "1234567890" 2 1 ⟨0, 1, "1234567890"⟩
    ⟨none, none⟩ (by decide) rfl (by decide)

/-- C4, as stated, fails: card 1 runs "1234567890"; `StartBot("abcdefghij", 1)`
with `NewBotAPI` answering "Unauthorized" returns that error, yet the old
instance of card 1 is gone from both maps. -/
theorem C4_counterexample :
    Reachable oneBot ∧
    (StartBot oneBot "abcdefghij" 1 ⟨some "Unauthorized", none⟩).ret = Ret.err "Unauthorized" ∧
    Effect.newBotAPI "abcdefghij" ∈
      (StartBot oneBot "abcdefghij" 1 ⟨some "Unauthorized", none⟩).trace ∧
    mapGet oneBot.botsByCard 1 = some ⟨0, 1, "1234567890"⟩ ∧
    mapGet (StartBot oneBot "abcdefghij" 1 ⟨some "Unauthorized", none⟩).bm.botsByCard 1 = none ∧
    (StartBot oneBot "abcdefghij" 1 ⟨some "Unauthorized", none⟩).bm.botsByCard
      ≠ oneBot.botsByCard ∧
    (StartBot oneBot "abcdefghij" 1 ⟨some "Unauthorized", none⟩).bm.botsByToken
      ≠ oneBot.botsByToken :=
  ⟨oneBot_reachable, by decide, by decide, by decide, by decide, by decide, by decide⟩

/-- C4, amended (start on creation failure): in a reachable registry state,
if `StartBot(c, e)` contacted the gateway and returned an error, then no
entry was added to or changed in either map; when card `e` had no running
instance both maps are exactly as before, and when it ran an instance (with
another token) the only change is that this instance was removed from both. -/
theorem C4_creation_failure (bm : BotManager) (h : Reachable bm) (c : String) (e : Nat)
    (gw : Gateway) (msg : String)
    (hret : (StartBot bm c e gw).ret = Ret.err msg)
    (hgw : Effect.newBotAPI c ∈ (StartBot bm c e gw).trace) :
    (gw.newBotAPI = some msg ∨ (gw.newBotAPI = none ∧ gw.getMe = some msg)) ∧
    (mapGet bm.botsByCard e = none →
      (StartBot bm c e gw).bm.botsByCard = bm.botsByCard ∧
      (StartBot bm c e gw).bm.botsByToken = bm.botsByToken) ∧
    (∀ old, mapGet bm.botsByCard e = some old →
      old.token ≠ c ∧
      (StartBot bm c e gw).bm.botsByCard = mapDelete bm.botsByCard e ∧
      (StartBot bm c e gw).bm.botsByToken = mapDelete bm.botsByToken old.token) ∧
    (∀ e' i, mapGet (StartBot bm c e gw).bm.botsByCard e' = some i →
      mapGet bm.botsByCard e' = some i) ∧
    (∀ c' i, mapGet (StartBot bm c e gw).bm.botsByToken c' = some i →
      mapGet bm.botsByToken c' = some i) := by
  have hI := h.inv
  have hcreate : ∀ (b : BotManager) (pre : List Effect), Inv b →
      Effect.newBotAPI c ∉ pre →
      (startBotCreate b c e gw pre).ret = Ret.err msg →
      Effect.newBotAPI c ∈ (startBotCreate b c e gw pre).trace →
      (gw.newBotAPI = some msg ∨ (gw.newBotAPI = none ∧ gw.getMe = some msg)) ∧
      (startBotCreate b c e gw pre).bm = b := by
    intro b pre hb hpre hr ht
    unfold startBotCreate at hr ht ⊢
    cases hc : mapGet b.botsByToken c with
    | some i0 =>
      simp only [hc] at ht
      split at ht <;> exact absurd ht hpre
    | none =>
      simp only [hc] at hr ⊢
      cases h1 : gw.newBotAPI with
      | some e1 =>
        simp only [h1] at hr ⊢
        exact ⟨Or.inl (by simpa using hr), trivial⟩
      | none =>
        cases h2 : gw.getMe with
        | some e2 =>
          simp only [h1, h2] at hr ⊢
          exact ⟨Or.inr ⟨trivial, by simpa using hr⟩, trivial⟩
        | none =>
          simp only [h1, h2] at hr
          split at hr <;> simp at hr
  unfold StartBot at hret hgw ⊢
  cases he : mapGet bm.botsByCard e with
  | none =>
    simp only [he] at hret hgw ⊢
    obtain ⟨hg, hbm⟩ := hcreate bm [] hI (by simp) hret hgw
    rw [hbm]
    exact ⟨hg, fun _ => ⟨rfl, rfl⟩, fun old ho => by simp at ho,
      fun _ _ hh => hh, fun _ _ hh => hh⟩
  | some inst =>
    simp only [he] at hret hgw ⊢
    obtain ⟨h1, h2⟩ := hI.card_token e inst he
    by_cases ht : inst.token = c
    · simp only [ht, ne_eq, not_true_eq_false, if_false] at hret
      split at hret <;> simp at hret
    · simp only [ne_eq, ht, not_false_eq_true, if_true] at hret hgw ⊢
      by_cases hs : (sliceOK inst.token && sliceOK c) = true
      · simp only [hs, if_true, stopBotUnlocked_bound hI h2] at hret hgw ⊢
        obtain ⟨hg, hbm⟩ := hcreate _ _ (hI.remove h2) (by simp) hret hgw
        rw [hbm]
        refine ⟨hg, fun hn => by simp at hn, ?_, ?_, ?_⟩
        · intro old ho
          have : inst = old := Option.some.inj ho
          subst this
          exact ⟨ht, by rw [h1], rfl⟩
        · intro e' i hh
          simp only [mapGet_mapDelete] at hh
          split at hh
          · simp at hh
          · exact hh
        · intro c' i hh
          simp only [mapGet_mapDelete] at hh
          split at hh
          · simp at hh
          · exact hh
      · simp [hs] at hret

theorem C4_creation_failure_witness :
    (⟨some "Unauthorized", none⟩ : Gateway).newBotAPI = some "Unauthorized" ∧
    (StartBot NewBotManager "abcdefghij" 1 ⟨some "Unauthorized", none⟩).bm.botsByCard
      = NewBotManager.botsByCard ∧
    (StartBot NewBotManager "abcdefghij" 1 ⟨some "Unauthorized", none⟩).bm.botsByToken
      = NewBotManager.botsByToken := by
  have h := C4_creation_failure NewBotManager Reachable.init "abcdefghij" 1
    ⟨some "Unauthorized", none⟩ "Unauthorized" (by decide) (by decide)
  exact ⟨by decide, h.2.1 (by decide)⟩

/-- C5 (start is idempotent for an existing binding): in a reachable registry
state where card `e` runs an instance with token `c`, `StartBot(c, e)` returns
nil, has no effect on the outside world (the gateway is not contacted) and
leaves the registry unchanged; hence a second `StartBot(c, e)` right after a
successful one changes nothing. -/
theorem C5_start_idempotent (bm : BotManager) (h : Reachable bm) (c : String) (e : Nat)
    (gw gw' : Gateway) :
    (∀ inst, mapGet bm.botsByCard e = some inst → inst.token = c →
      StartBot bm c e gw = ⟨bm, Ret.ok, []⟩) ∧
    ((StartBot bm c e gw).ret = Ret.ok →
      StartBot (StartBot bm c e gw).bm c e gw' = ⟨(StartBot bm c e gw).bm, Ret.ok, []⟩) := by
  have key : ∀ (b : BotManager), Inv b → ∀ (g : Gateway) (inst : BotInstance),
      mapGet b.botsByCard e = some inst → inst.token = c →
      StartBot b c e g = ⟨b, Ret.ok, []⟩ := by
    intro b hb g inst hinst ht
    have hs := sliceOK_of_bound hb (hb.card_token e inst hinst).2
    rw [ht] at hs
    simp [StartBot, hinst, ht, hs]
  refine ⟨key bm h.inv gw, fun hok => ?_⟩
  obtain ⟨inst, h1, h2⟩ := StartBot_ok_bound h.inv c e gw hok
  have hok' : (StartBot bm c e gw).ret ≠ Ret.panicked := by rw [hok]; decide
  exact key _ (StartBot_inv h.inv c e gw hok') gw' inst h1 h2

theorem C5_start_idempotent_witness :
    StartBot oneBot "1234567890" 1 ⟨some "timeout", none⟩ = ⟨oneBot, Ret.ok, []⟩ ∧
    StartBot (StartBot NewBotManager "1234567890" 1 ⟨none, none⟩).bm "1234567890" 1
        ⟨some "timeout", none⟩
      = ⟨(StartBot NewBotManager "1234567890" 1 ⟨none, none⟩).bm, Ret.ok, []⟩ :=
  ⟨(C5_start_idempotent oneBot oneBot_reachable "1234567890" 1 ⟨some "timeout", none⟩
      ⟨none, none⟩).1 ⟨0, 1, "1234567890"⟩ (by decide) rfl,
   (C5_start_idempotent NewBotManager Reachable.init "1234567890" 1 ⟨none, none⟩
      ⟨some "timeout", none⟩).2 (by decide)⟩

/-- Start of a new binding with a token of at least ten bytes: for an unbound
token `c` and a card `e` without instance, when the gateway authenticates,
`StartBot(c, e)` returns nil and binds both keys to one fresh instance,
leaving the other keys as they were. -/
theorem StartBot_fresh_ok (bm : BotManager) (c : String) (e : Nat)
    (hc : mapGet bm.botsByToken c = none) (he : mapGet bm.botsByCard e = none)
    (hlen : 10 ≤ c.utf8ByteSize) :
    StartBot bm c e ⟨none, none⟩ =
      ⟨{ botsByCard := mapSet bm.botsByCard e ⟨bm.allocated, e, c⟩,
         botsByToken := mapSet bm.botsByToken c ⟨bm.allocated, e, c⟩,
         allocated := bm.allocated + 1 },
       Ret.ok,
       [Effect.newBotAPI c, Effect.getMe c, Effect.deleteWebhook c,
        Effect.spawnWorker bm.allocated]⟩ := by
  have hs : sliceOK c = true := by simp [sliceOK, hlen]
  simp [StartBot, startBotCreate, he, hc, hs]

/-- C6 at a failing input: on the empty registry, with the gateway
authenticating, `StartBot("T1", 1)` inserts the new instance into both maps
and then panics on `token[:10]` (line 215) instead of returning nil. -/
theorem C6_short_token_panics :
    Reachable NewBotManager ∧
    mapGet NewBotManager.botsByToken "T1" = none ∧
    mapGet NewBotManager.botsByCard 1 = none ∧
    (StartBot NewBotManager "T1" 1 ⟨none, none⟩).ret = Ret.panicked ∧
    (StartBot NewBotManager "T1" 1 ⟨none, none⟩).ret ≠ Ret.ok ∧
    mapGet (StartBot NewBotManager "T1" 1 ⟨none, none⟩).bm.botsByCard 1 = some ⟨0, 1, "T1"⟩ :=
  ⟨Reachable.init, by decide, by decide, by decide, by decide, by decide⟩

/-- C7 (stop removes exactly one binding): in a reachable registry state
where token `c` runs for card `e`, `StopBot(c)` and likewise
`StopBotByCard(e)` return, after which `c` is absent from `botsByToken`,
`e` is absent from `botsByCard`, and every other key of either map is bound
as before. -/
theorem C7_stop_removes_one (bm : BotManager) (h : Reachable bm) (c : String) (e : Nat)
    (inst : BotInstance) (hb : mapGet bm.botsByToken c = some inst)
    (he : inst.visitCardID = e) :
    ((StopBot bm c).ret = Ret.ok ∧
      mapGet (StopBot bm c).bm.botsByToken c = none ∧
      mapGet (StopBot bm c).bm.botsByCard e = none ∧
      (∀ c', c' ≠ c → mapGet (StopBot bm c).bm.botsByToken c' = mapGet bm.botsByToken c') ∧
      (∀ e', e' ≠ e → mapGet (StopBot bm c).bm.botsByCard e' = mapGet bm.botsByCard e')) ∧
    ((StopBotByCard bm e).ret = Ret.ok ∧
      mapGet (StopBotByCard bm e).bm.botsByToken c = none ∧
      mapGet (StopBotByCard bm e).bm.botsByCard e = none ∧
      (∀ c', c' ≠ c →
        mapGet (StopBotByCard bm e).bm.botsByToken c' = mapGet bm.botsByToken c') ∧
      (∀ e', e' ≠ e →
        mapGet (StopBotByCard bm e).bm.botsByCard e' = mapGet bm.botsByCard e')) := by
  have hI := h.inv
  obtain ⟨ht, hcard⟩ := hI.token_card c inst hb
  rw [he] at hcard
  constructor
  · unfold StopBot
    rw [stopBotUnlocked_bound hI hb]
    refine ⟨rfl, by simp [mapGet_mapDelete], by simp [mapGet_mapDelete, he], ?_, ?_⟩
    · intro c' hc'
      have : ¬ c = c' := fun hh => hc' hh.symm
      simp [mapGet_mapDelete, this]
    · intro e' he'
      have : ¬ e = e' := fun hh => he' hh.symm
      simp [mapGet_mapDelete, he, this]
  · rw [StopBotByCard_bound hI hcard]
    refine ⟨rfl, by simp [mapGet_mapDelete, ht], by simp [mapGet_mapDelete], ?_, ?_⟩
    · intro c' hc'
      have : ¬ c = c' := fun hh => hc' hh.symm
      simp [mapGet_mapDelete, ht, this]
    · intro e' he'
      have : ¬ e = e' := fun hh => he' hh.symm
      simp [mapGet_mapDelete, this]

theorem C7_stop_removes_one_witness :
    (StopBot oneBot "1234567890").ret = Ret.ok ∧
    mapGet (StopBot oneBot "1234567890").bm.botsByToken "1234567890" = none ∧
    mapGet (StopBot oneBot "1234567890").bm.botsByCard 1 = none ∧
    (StopBotByCard oneBot 1).ret = Ret.ok ∧
    mapGet (StopBotByCard oneBot 1).bm.botsByToken "1234567890" = none ∧
    mapGet (StopBotByCard oneBot 1).bm.botsByCard 1 = none := by
  have h := C7_stop_removes_one oneBot oneBot_reachable "1234567890" 1 ⟨0, 1, "1234567890"⟩
    (by decide) rfl
  exact ⟨h.1.1, h.1.2.1, h.1.2.2.1, h.2.1, h.2.2.1, h.2.2.2.1⟩

/-- C8 (stop idempotence): in every registry state, `StopBot(c)` for a token
absent from `botsByToken` (of any length, the empty one included) and
`StopBotByCard(e)` for a card absent from `botsByCard` return without any
effect and leave the registry unchanged; hence in a reachable state a
`StopBot(c)` returns and a second `StopBot(c)` changes nothing more. -/
theorem C8_stop_idempotent (bm : BotManager) (c : String) (e : Nat) :
    (mapGet bm.botsByToken c = none → StopBot bm c = ⟨bm, Ret.ok, []⟩) ∧
    (mapGet bm.botsByCard e = none → StopBotByCard bm e = ⟨bm, Ret.ok, []⟩) ∧
    (Reachable bm →
      (StopBot bm c).ret = Ret.ok ∧
      StopBot (StopBot bm c).bm c = ⟨(StopBot bm c).bm, Ret.ok, []⟩) := by
  refine ⟨stopBotUnlocked_absent bm c, StopBotByCard_absent bm e, fun h => ?_⟩
  have hI := h.inv
  unfold StopBot
  cases hc : mapGet bm.botsByToken c with
  | none =>
    rw [stopBotUnlocked_absent bm c hc]
    exact ⟨rfl, stopBotUnlocked_absent bm c hc⟩
  | some inst =>
    rw [stopBotUnlocked_bound hI hc]
    exact ⟨rfl, stopBotUnlocked_absent _ c (by simp [mapGet_mapDelete])⟩

theorem C8_stop_idempotent_witness :
    StopBot NewBotManager "" = ⟨NewBotManager, Ret.ok, []⟩ ∧
    StopBotByCard NewBotManager 7 = ⟨NewBotManager, Ret.ok, []⟩ ∧
    (StopBot oneBot "1234567890").ret = Ret.ok ∧
    StopBot (StopBot oneBot "1234567890").bm "1234567890"
      = ⟨(StopBot oneBot "1234567890").bm, Ret.ok, []⟩ :=
  ⟨(C8_stop_idempotent NewBotManager "" 7).1 (by decide),
   (C8_stop_idempotent NewBotManager "" 7).2.1 (by decide),
   (C8_stop_idempotent oneBot "1234567890" 7).2.2 oneBot_reachable⟩

/-! ## The failure classifier -/

theorem Contains_iff (s p : String) :
    Contains s p = true ↔ ∃ pre post : List Char, pre ++ p.data ++ post = s.data := by
  unfold Contains
  rw [List.any_eq_true]
  constructor
  · rintro ⟨t, ht, hp⟩
    rw [List.mem_tails] at ht
    rw [List.isPrefixOf_iff_prefix] at hp
    obtain ⟨post, hpost⟩ := hp
    obtain ⟨pre, hpre⟩ := ht
    exact ⟨pre, post, by rw [List.append_assoc, hpost, hpre]⟩
  · rintro ⟨pre, post, h⟩
    refine ⟨p.data ++ post, ?_, ?_⟩
    · rw [List.mem_tails]
      exact ⟨pre, by rw [← List.append_assoc, h]⟩
    · rw [List.isPrefixOf_iff_prefix]
      exact ⟨post, rfl⟩

/-- C9 (failure classifier): `isNetworkError(s)` is true exactly when the
lower-cased `s` contains one of the fourteen connectivity patterns; the
empty text, "Unauthorized" and "Forbidden" are classified permanent (false),
and the match is case-insensitive on ASCII letters. -/
theorem C9_failure_classifier (table : Char → Char) (s : String) :
    (isNetworkError table s = true ↔
      ∃ p ∈ ["connection refused", "connection reset", "connection closed", "timeout",
          "wsarecv", "wsasend", "broken pipe", "network is unreachable", "no route to host",
          "connection timed out", "transport error", "read: connection reset",
          "write: connection reset", "forcibly closed by the remote host"],
        ∃ pre post : List Char, pre ++ p.data ++ post = (ToLower table s).data) ∧
    isNetworkError table "" = false ∧
    isNetworkError table "Unauthorized" = false ∧
    isNetworkError table "Forbidden" = false ∧
    isNetworkError table "dial tcp: Connection REFUSED" = true := by
  refine ⟨?_, rfl, rfl, rfl, rfl⟩
  unfold isNetworkError
  rw [List.any_eq_true]
  constructor
  · rintro ⟨p, hp, hc⟩
    exact ⟨p, hp, (Contains_iff _ _).1 hc⟩
  · rintro ⟨p, hp, hc⟩
    exact ⟨p, hp, (Contains_iff _ _).2 hc⟩

/-! ## The reconciliation cycle -/

/-- What `StopBot` does to a registry that satisfies the invariant. -/
theorem StopBot_spec {bm : BotManager} (hI : Inv bm) (t : String) :
    (StopBot bm t).ret = Ret.ok ∧ Inv (StopBot bm t).bm ∧
    mapGet (StopBot bm t).bm.botsByToken t = none ∧
    (∀ e i, mapGet (StopBot bm t).bm.botsByCard e = some i → mapGet bm.botsByCard e = some i) ∧
    (∀ e i, mapGet bm.botsByCard e = some i → i.token ≠ t →
      mapGet (StopBot bm t).bm.botsByCard e = some i) := by
  refine ⟨?_, StopBot_inv hI t, ?_⟩
  all_goals unfold StopBot
  · cases hc : mapGet bm.botsByToken t with
    | none => rw [stopBotUnlocked_absent bm t hc]
    | some inst => rw [stopBotUnlocked_bound hI hc]
  · cases hc : mapGet bm.botsByToken t with
    | none =>
      rw [stopBotUnlocked_absent bm t hc]
      exact ⟨hc, fun _ _ h => h, fun _ _ h _ => h⟩
    | some inst =>
      rw [stopBotUnlocked_bound hI hc]
      refine ⟨by simp [mapGet_mapDelete], ?_, ?_⟩
      · intro e i h
        simp only [mapGet_mapDelete] at h
        split at h
        · simp at h
        · exact h
      · intro e i h hne
        obtain ⟨h1, h2⟩ := hI.token_card t inst hc
        have : ¬ inst.visitCardID = e := by
          intro hh
          rw [← hh, h2] at h
          have : inst = i := Option.some.inj h
          exact hne (by rw [← this, h1])
        simp [mapGet_mapDelete, this, h]

/-- The ensure-running step for a card whose token authenticates, is at least
ten bytes long and is not running for another card: afterwards the card runs
its token, other cards are bound as before and no other token gained a
binding. -/
theorem ensureRunning_spec {bm : BotManager} (hI : Inv bm) (vc : VisitCard) (pre : List Effect)
    (hlen : 10 ≤ vc.TelegramBotToken.utf8ByteSize)
    (hfree : ∀ inst, mapGet bm.botsByToken vc.TelegramBotToken = some inst →
      inst.visitCardID = vc.ID) :
    (ensureRunning bm vc ⟨none, none⟩ pre).ret = Ret.ok ∧
    Inv (ensureRunning bm vc ⟨none, none⟩ pre).bm ∧
    Running (ensureRunning bm vc ⟨none, none⟩ pre).bm vc.ID vc.TelegramBotToken ∧
    (∀ e, e ≠ vc.ID →
      mapGet (ensureRunning bm vc ⟨none, none⟩ pre).bm.botsByCard e = mapGet bm.botsByCard e) ∧
    (∀ c inst, c ≠ vc.TelegramBotToken →
      mapGet (ensureRunning bm vc ⟨none, none⟩ pre).bm.botsByToken c = some inst →
      mapGet bm.botsByToken c = some inst) := by
  have hs : sliceOK vc.TelegramBotToken = true := by simp [sliceOK, hlen]
  cases he : mapGet bm.botsByCard vc.ID with
  | none =>
    have hc : mapGet bm.botsByToken vc.TelegramBotToken = none := by
      cases hc : mapGet bm.botsByToken vc.TelegramBotToken with
      | none => rfl
      | some inst =>
        have h2 := (hI.token_card _ inst hc).2
        rw [hfree inst hc, he] at h2
        simp at h2
    have hex : ensureRunning bm vc ⟨none, none⟩ pre =
        ⟨{ botsByCard := mapSet bm.botsByCard vc.ID ⟨bm.allocated, vc.ID, vc.TelegramBotToken⟩,
           botsByToken := mapSet bm.botsByToken vc.TelegramBotToken
             ⟨bm.allocated, vc.ID, vc.TelegramBotToken⟩,
           allocated := bm.allocated + 1 },
         Ret.ok,
         pre ++ Effect.callStartBot vc.TelegramBotToken vc.ID Ret.ok ::
           [Effect.newBotAPI vc.TelegramBotToken, Effect.getMe vc.TelegramBotToken,
            Effect.deleteWebhook vc.TelegramBotToken, Effect.spawnWorker bm.allocated]⟩ := by
      simp [ensureRunning, he, StartBot_fresh_ok bm _ _ hc he hlen]
    rw [hex]
    refine ⟨rfl, hI.insert he hc hlen, ⟨⟨bm.allocated, vc.ID, vc.TelegramBotToken⟩,
      by simp [mapGet_mapSet], rfl⟩, ?_, ?_⟩
    · intro e hne
      have : ¬ vc.ID = e := fun hh => hne hh.symm
      simp [mapGet_mapSet, this]
    · intro c inst hne h
      have : ¬ vc.TelegramBotToken = c := fun hh => hne hh.symm
      simpa [mapGet_mapSet, this] using h
  | some old =>
    obtain ⟨h1, h2⟩ := hI.card_token vc.ID old he
    by_cases ht : old.token = vc.TelegramBotToken
    · have hex : ensureRunning bm vc ⟨none, none⟩ pre = ⟨bm, Ret.ok, pre⟩ := by
        simp [ensureRunning, he, ht]
      rw [hex]
      exact ⟨rfl, hI, ⟨old, he, ht⟩, fun _ _ => rfl, fun _ _ _ h => h⟩
    · have hI' := hI.remove h2
      have hc : mapGet (mapDelete bm.botsByToken old.token) vc.TelegramBotToken = none := by
        have hne : ¬ old.token = vc.TelegramBotToken := ht
        simp only [mapGet_mapDelete, hne, if_false]
        cases hc : mapGet bm.botsByToken vc.TelegramBotToken with
        | none => rfl
        | some inst =>
          exfalso
          have h3 := (hI.token_card _ inst hc)
          rw [hfree inst hc, he] at h3
          have : old = inst := Option.some.inj h3.2
          exact ht (by rw [this, h3.1])
      have he' : mapGet (mapDelete bm.botsByCard old.visitCardID) vc.ID = none := by
        simp [mapGet_mapDelete, h1]
      have hso : sliceOK old.token = true := sliceOK_of_bound hI h2
      have hstart : StartBot bm vc.TelegramBotToken vc.ID ⟨none, none⟩ =
          ⟨{ botsByCard := mapSet (mapDelete bm.botsByCard old.visitCardID) vc.ID
               ⟨bm.allocated, vc.ID, vc.TelegramBotToken⟩,
             botsByToken := mapSet (mapDelete bm.botsByToken old.token) vc.TelegramBotToken
               ⟨bm.allocated, vc.ID, vc.TelegramBotToken⟩,
             allocated := bm.allocated + 1 },
           Ret.ok,
           [Effect.stopWorker old.ptr, Effect.sleep 1,
            Effect.newBotAPI vc.TelegramBotToken, Effect.getMe vc.TelegramBotToken,
            Effect.deleteWebhook vc.TelegramBotToken, Effect.spawnWorker bm.allocated]⟩ := by
        simp [StartBot, he, ht, hso, hs, stopBotUnlocked_bound hI h2, startBotCreate, hc]
      have hex : ensureRunning bm vc ⟨none, none⟩ pre =
          ⟨{ botsByCard := mapSet (mapDelete bm.botsByCard old.visitCardID) vc.ID
               ⟨bm.allocated, vc.ID, vc.TelegramBotToken⟩,
             botsByToken := mapSet (mapDelete bm.botsByToken old.token) vc.TelegramBotToken
               ⟨bm.allocated, vc.ID, vc.TelegramBotToken⟩,
             allocated := bm.allocated + 1 },
           Ret.ok,
           pre ++ Effect.callStartBot vc.TelegramBotToken vc.ID Ret.ok ::
             [Effect.stopWorker old.ptr, Effect.sleep 1,
              Effect.newBotAPI vc.TelegramBotToken, Effect.getMe vc.TelegramBotToken,
              Effect.deleteWebhook vc.TelegramBotToken, Effect.spawnWorker bm.allocated]⟩ := by
        simp [ensureRunning, he, ht, hstart]
      rw [hex]
      refine ⟨rfl, hI'.insert he' hc hlen, ⟨⟨bm.allocated, vc.ID, vc.TelegramBotToken⟩,
        by simp [mapGet_mapSet], rfl⟩, ?_, ?_⟩
      · intro e hne
        have : ¬ vc.ID = e := fun hh => hne hh.symm
        simp [mapGet_mapSet, mapGet_mapDelete, this, h1]
      · intro c inst hne h
        have : ¬ vc.TelegramBotToken = c := fun hh => hne hh.symm
        simp only [mapGet_mapSet, this, if_false, mapGet_mapDelete] at h
        split at h
        · simp at h
        · exact h

/-- With an authenticating gateway and a token of at least ten bytes,
`processCard` is the ensure-running step. -/
theorem processCard_authenticated (table : Char → Char) (bm : BotManager) (vc : VisitCard)
    (hlen : 10 ≤ vc.TelegramBotToken.utf8ByteSize) :
    ∃ pre, processCard table bm vc ⟨⟨none, none⟩, ⟨none, none⟩⟩
      = ensureRunning bm vc ⟨none, none⟩ pre := by
  have hs : sliceOK vc.TelegramBotToken = true := by simp [sliceOK, hlen]
  unfold processCard
  simp only [hs, if_true, validateBotToken]
  split
  · exact ⟨_, rfl⟩
  · exact ⟨_, rfl⟩

/-- The loop over the visit cards, all tokens authenticating: it completes,
keeps the invariant, leaves every processed card running its token and
does not touch the cards it did not process. -/
theorem processCards_spec (table : Char → Char) (gw : Nat → CardGateway)
    (hgw : ∀ i, gw i = ⟨⟨none, none⟩, ⟨none, none⟩⟩) (D : List VisitCard)
    (htok : (D.map VisitCard.TelegramBotToken).Nodup)
    (hlen : ∀ vc ∈ D, 10 ≤ vc.TelegramBotToken.utf8ByteSize) :
    ∀ (todo : List VisitCard) (i : Nat) (bm : BotManager) (tr : List Effect),
      (∀ vc ∈ todo, vc ∈ D) → (todo.map VisitCard.ID).Nodup → Inv bm → TokensFree bm D →
      (processCards table gw i todo bm tr).ret = Ret.ok ∧
      Inv (processCards table gw i todo bm tr).bm ∧
      TokensFree (processCards table gw i todo bm tr).bm D ∧
      (∀ vc ∈ todo,
        Running (processCards table gw i todo bm tr).bm vc.ID vc.TelegramBotToken) ∧
      (∀ e, e ∉ todo.map VisitCard.ID →
        mapGet (processCards table gw i todo bm tr).bm.botsByCard e = mapGet bm.botsByCard e) := by
  intro todo
  induction todo with
  | nil =>
    intro i bm tr _ _ hI hF
    exact ⟨rfl, hI, hF, fun _ h => by simp at h, fun _ _ => rfl⟩
  | cons vc rest ih =>
    intro i bm tr hsub hnd hI hF
    have hvc : vc ∈ D := hsub vc (List.mem_cons_self _ _)
    have hrest : ∀ v ∈ rest, v ∈ D := fun v hv => hsub v (List.mem_cons_of_mem _ hv)
    have hnd' : vc.ID ∉ rest.map VisitCard.ID ∧ (rest.map VisitCard.ID).Nodup := by
      simpa using hnd
    obtain ⟨pre, hpc⟩ := processCard_authenticated table bm vc (hlen vc hvc)
    obtain ⟨s1, s2, s3, s4, s5⟩ := ensureRunning_spec hI vc pre (hlen vc hvc) (hF vc hvc)
    have hF1 : TokensFree (ensureRunning bm vc ⟨none, none⟩ pre).bm D := by
      intro v hv inst hb
      by_cases hsame : v.TelegramBotToken = vc.TelegramBotToken
      · have hveq : v = vc := List.inj_on_of_nodup_map htok hv hvc hsame
        subst hveq
        obtain ⟨j, hj, hjt⟩ := s3
        obtain ⟨j1, j2⟩ := s2.card_token _ j hj
        rw [hjt, hb] at j2
        have : inst = j := Option.some.inj j2
        rw [this, j1]
      · exact hF v hv inst (s5 _ inst hsame hb)
    have hstep : processCards table gw i (vc :: rest) bm tr =
        processCards table gw (i + 1) rest (ensureRunning bm vc ⟨none, none⟩ pre).bm
          (tr ++ (ensureRunning bm vc ⟨none, none⟩ pre).trace) := by
      simp only [processCards, hgw, hpc, s1]
    rw [hstep]
    obtain ⟨r1, r2, r3, r4, r5⟩ := ih (i + 1) (ensureRunning bm vc ⟨none, none⟩ pre).bm
      (tr ++ (ensureRunning bm vc ⟨none, none⟩ pre).trace) hrest hnd'.2 s2 hF1
    refine ⟨r1, r2, r3, ?_, ?_⟩
    · intro v hv
      rcases List.mem_cons.1 hv with hv | hv
      · subst hv
        obtain ⟨j, hj, hjt⟩ := s3
        exact ⟨j, by rw [r5 _ hnd'.1]; exact hj, hjt⟩
      · exact r4 v hv
    · intro e he
      have he' : e ≠ vc.ID ∧ e ∉ rest.map VisitCard.ID := by
        simpa [not_or] using he
      rw [r5 e he'.2, s4 e he'.1]

/-- The sweep over a list of tokens of at least ten bytes: it completes,
keeps the invariant, adds nothing, keeps every instance whose token is a
token of `D`, and leaves no instance whose token is in the list but not in `D`. -/
theorem sweep_spec (D : List VisitCard) :
    ∀ (ts : List String) (bm : BotManager) (tr : List Effect),
      (∀ t ∈ ts, 10 ≤ t.utf8ByteSize) → Inv bm →
      (sweep D ts bm tr).ret = Ret.ok ∧
      Inv (sweep D ts bm tr).bm ∧
      (∀ e i, mapGet (sweep D ts bm tr).bm.botsByCard e = some i →
        mapGet bm.botsByCard e = some i) ∧
      (∀ e i, mapGet bm.botsByCard e = some i → (∃ vc ∈ D, vc.TelegramBotToken = i.token) →
        mapGet (sweep D ts bm tr).bm.botsByCard e = some i) ∧
      (∀ e i, mapGet (sweep D ts bm tr).bm.botsByCard e = some i → i.token ∈ ts →
        ∃ vc ∈ D, vc.TelegramBotToken = i.token) := by
  intro ts
  induction ts with
  | nil =>
    intro bm tr _ hI
    exact ⟨rfl, hI, fun _ _ h => h, fun _ _ h _ => h, fun _ _ _ h => by simp at h⟩
  | cons t rest ih =>
    intro bm tr hts hI
    have hrest : ∀ u ∈ rest, 10 ≤ u.utf8ByteSize := fun u hu => hts u (List.mem_cons_of_mem _ hu)
    by_cases hfound : (D.any fun vc => decide (vc.TelegramBotToken = t)) = true
    · have hstep : sweep D (t :: rest) bm tr = sweep D rest bm tr := by
        simp only [sweep, hfound, if_true]
      rw [hstep]
      obtain ⟨r1, r2, r3, r4, r5⟩ := ih bm tr hrest hI
      refine ⟨r1, r2, r3, r4, ?_⟩
      intro e i h hmem
      rcases List.mem_cons.1 hmem with heq | hmem
      · rw [List.any_eq_true] at hfound
        obtain ⟨vc, hvc, hd⟩ := hfound
        exact ⟨vc, hvc, by rw [heq]; simpa using hd⟩
      · exact r5 e i h hmem
    · have hs : sliceOK t = true := by
        simp [sliceOK, hts t (List.mem_cons_self _ _)]
      obtain ⟨p1, p2, p3, p4, p5⟩ := StopBot_spec hI t
      have hstep : sweep D (t :: rest) bm tr =
          sweep D rest (StopBot bm t).bm (tr ++ Effect.callStopBot t :: (StopBot bm t).trace) := by
        simp only [sweep, hfound, hs, if_true, p1]
        simp
      rw [hstep]
      obtain ⟨r1, r2, r3, r4, r5⟩ := ih (StopBot bm t).bm
        (tr ++ Effect.callStopBot t :: (StopBot bm t).trace) hrest p2
      refine ⟨r1, r2, fun e i h => p4 e i (r3 e i h), ?_, ?_⟩
      · intro e i h hD
        refine r4 e i (p5 e i h ?_) hD
        intro heq
        obtain ⟨vc, hvc, hvt⟩ := hD
        apply hfound
        rw [List.any_eq_true]
        exact ⟨vc, hvc, by simp [hvt, heq]⟩
      · intro e i h hmem
        rcases List.mem_cons.1 hmem with heq | hmem
        · exfalso
          have h1 := r3 e i h
          have h2 := (p2.card_token e i h1).2
          rw [heq, p3] at h2
          simp at h2
        · exact r5 e i h hmem

/-- C10, as stated, fails: the rows 1 and 2 both carry the token "1234567890"
and are both fetched; from the empty registry, every call authenticating,
the cycle completes with card 2 not running, although `(2, "1234567890")`
is a binding of the desired set. -/
theorem C10_counterexample :
    Reachable NewBotManager ∧
    fetchVisitCards duplicateRows = duplicateRows ∧
    (syncCycle id NewBotManager (fetchVisitCards duplicateRows) allAuthenticate).ret = Ret.ok ∧
    (∃ vc ∈ fetchVisitCards duplicateRows, vc.ID = 2 ∧ vc.TelegramBotToken = "1234567890") ∧
    Running (syncCycle id NewBotManager (fetchVisitCards duplicateRows) allAuthenticate).bm
      1 "1234567890" ∧
    ¬ Running (syncCycle id NewBotManager (fetchVisitCards duplicateRows) allAuthenticate).bm
      2 "1234567890" := by
  refine ⟨Reachable.init, by decide, by decide, ⟨card 2 "1234567890", by decide, rfl, rfl⟩,
    ⟨⟨0, 1, "1234567890"⟩, by decide, rfl⟩, ?_⟩
  rintro ⟨inst, h1, _⟩
  have h2 : mapGet (syncCycle id NewBotManager (fetchVisitCards duplicateRows)
      allAuthenticate).bm.botsByCard 2 = none := by decide
  rw [h2] at h1
  exact Option.noConfusion h1

/-- C10, amended (convergence): from a reachable registry state, for a desired
set `D` with pairwise distinct card ids and pairwise distinct tokens, each of
at least ten bytes, none of them running for a card other than the one `D`
gives it, and with every gateway call authenticating, one reconciliation
cycle completes and the running `(visitCardID, token)` bindings are exactly
the `(ID, TelegramBotToken)` bindings of `D`, in both maps. -/
theorem C10_convergence (table : Char → Char) (bm : BotManager) (h : Reachable bm)
    (D : List VisitCard) (gw : Nat → CardGateway)
    (hgw : ∀ i, gw i = ⟨⟨none, none⟩, ⟨none, none⟩⟩)
    (hid : (D.map VisitCard.ID).Nodup)
    (htok : (D.map VisitCard.TelegramBotToken).Nodup)
    (hlen : ∀ vc ∈ D, 10 ≤ vc.TelegramBotToken.utf8ByteSize)
    (hfree : ∀ vc ∈ D, ∀ inst, mapGet bm.botsByToken vc.TelegramBotToken = some inst →
      inst.visitCardID = vc.ID) :
    (syncCycle table bm D gw).ret = Ret.ok ∧
    (∀ e c, (∃ inst, mapGet (syncCycle table bm D gw).bm.botsByCard e = some inst ∧
        inst.token = c) ↔ ∃ vc ∈ D, vc.ID = e ∧ vc.TelegramBotToken = c) ∧
    (∀ e c, (∃ inst, mapGet (syncCycle table bm D gw).bm.botsByToken c = some inst ∧
        inst.visitCardID = e) ↔ ∃ vc ∈ D, vc.ID = e ∧ vc.TelegramBotToken = c) := by
  obtain ⟨a1, a2, a3, a4, _⟩ :=
    processCards_spec table gw hgw D htok hlen D 0 bm [] (fun _ hv => hv) hid h.inv hfree
  have hts : ∀ t ∈ GetRunningBots (processCards table gw 0 D bm []).bm,
      10 ≤ t.utf8ByteSize := by
    intro t ht
    obtain ⟨v, hv⟩ := (mapGet_isSome_iff_mem _ t).2 ht
    exact a2.token_len t v hv
  obtain ⟨b1, b2, b3, b4, b5⟩ := sweep_spec D
    (GetRunningBots (processCards table gw 0 D bm []).bm)
    (processCards table gw 0 D bm []).bm (processCards table gw 0 D bm []).trace hts a2
  have hcyc : syncCycle table bm D gw =
      sweep D (GetRunningBots (processCards table gw 0 D bm []).bm)
        (processCards table gw 0 D bm []).bm (processCards table gw 0 D bm []).trace := by
    simp only [syncCycle, a1]
  rw [hcyc]
  have hcard : ∀ e c, (∃ inst, mapGet (sweep D
      (GetRunningBots (processCards table gw 0 D bm []).bm)
      (processCards table gw 0 D bm []).bm
      (processCards table gw 0 D bm []).trace).bm.botsByCard e = some inst ∧ inst.token = c) ↔
      ∃ vc ∈ D, vc.ID = e ∧ vc.TelegramBotToken = c := by
    intro e c
    constructor
    · rintro ⟨inst, hi, hc⟩
      have h1 := b3 e inst hi
      obtain ⟨c1, c2⟩ := a2.card_token e inst h1
      have hmem : inst.token ∈ GetRunningBots (processCards table gw 0 D bm []).bm :=
        (mapGet_isSome_iff_mem _ _).1 ⟨inst, c2⟩
      obtain ⟨vc, hvc, hvt⟩ := b5 e inst hi hmem
      refine ⟨vc, hvc, ?_, by rw [hvt, hc]⟩
      have := a3 vc hvc inst (by rw [hvt]; exact c2)
      rw [← this, c1]
    · rintro ⟨vc, hvc, he, hc⟩
      obtain ⟨inst, hi, ht⟩ := a4 vc hvc
      refine ⟨inst, ?_, by rw [ht, hc]⟩
      rw [← he]
      exact b4 vc.ID inst hi ⟨vc, hvc, ht.symm⟩
  refine ⟨b1, hcard, ?_⟩
  intro e c
  rw [← hcard e c]
  constructor
  · rintro ⟨inst, hi, he⟩
    obtain ⟨c1, c2⟩ := b2.token_card c inst hi
    exact ⟨inst, by rw [← he]; exact c2, c1⟩
  · rintro ⟨inst, hi, hc⟩
    obtain ⟨c1, c2⟩ := b2.card_token e inst hi
    exact ⟨inst, by rw [← hc]; exact c2, c1⟩

theorem C10_convergence_witness :
    (syncCycle id oneBot twoCards allAuthenticate).ret = Ret.ok ∧
    (∀ e c, (∃ inst, mapGet (syncCycle id oneBot twoCards allAuthenticate).bm.botsByCard e
        = some inst ∧ inst.token = c) ↔
      ∃ vc ∈ twoCards, vc.ID = e ∧ vc.TelegramBotToken = c) ∧
    (∀ e c, (∃ inst, mapGet (syncCycle id oneBot twoCards allAuthenticate).bm.botsByToken c
        = some inst ∧ inst.visitCardID = e) ↔
      ∃ vc ∈ twoCards, vc.ID = e ∧ vc.TelegramBotToken = c) :=
  C10_convergence id oneBot oneBot_reachable twoCards allAuthenticate (fun _ => rfl)
    (by decide) (by decide) (by decide)
    (by
      intro vc hvc inst hb
      have hcases : vc = card 1 "abcdefghij" ∨ vc = card 2 "ABCDEFGHIJ" := by
        simpa [twoCards] using hvc
      have h1 : mapGet oneBot.botsByToken "abcdefghij" = none := by decide
      have h2 : mapGet oneBot.botsByToken "ABCDEFGHIJ" = none := by decide
      rcases hcases with hv | hv
      · subst hv
        rw [show (card 1 "abcdefghij").TelegramBotToken = "abcdefghij" from rfl, h1] at hb
        exact Option.noConfusion hb
      · subst hv
        rw [show (card 2 "ABCDEFGHIJ").TelegramBotToken = "ABCDEFGHIJ" from rfl, h2] at hb
        exact Option.noConfusion hb)

/-! ## The worker loop -/

theorem processUpdate_lastUpdateID (st : WorkerStep) (u : Update) :
    (processUpdate st u).worker.lastUpdateID = max st.worker.lastUpdateID u.UpdateID := by
  unfold processUpdate
  by_cases h : u.UpdateID > st.worker.lastUpdateID
  · simp only [h, if_true]
    exact (max_eq_right (le_of_lt h)).symm
  · simp only [h, if_false]
    exact (max_eq_left (not_lt.1 h)).symm

theorem foldl_processUpdate_lastUpdateID (updates : List Update) :
    ∀ st : WorkerStep, (updates.foldl processUpdate st).worker.lastUpdateID
      = maxUpdateID st.worker.lastUpdateID updates := by
  induction updates with
  | nil => intro st; rfl
  | cons u rest ih =>
    intro st
    simp only [List.foldl_cons, maxUpdateID]
    rw [ih, processUpdate_lastUpdateID]
    rfl

theorem foldl_processUpdate_effects (updates : List Update) :
    ∀ st : WorkerStep, ∃ more, (updates.foldl processUpdate st).effects = st.effects ++ more := by
  induction updates with
  | nil => intro st; exact ⟨[], by simp⟩
  | cons u rest ih =>
    intro st
    obtain ⟨more, hmore⟩ := ih (processUpdate st u)
    simp only [List.foldl_cons]
    rw [hmore]
    have hstep : ∃ one, (processUpdate st u).effects = st.effects ++ one := ⟨_, rfl⟩
    obtain ⟨one, hone⟩ := hstep
    exact ⟨one ++ more, by rw [hone, List.append_assoc]⟩

theorem le_maxUpdateID (updates : List Update) :
    ∀ cursor : Int, cursor ≤ maxUpdateID cursor updates ∧
      (∀ u ∈ updates, u.UpdateID ≤ maxUpdateID cursor updates) ∧
      (maxUpdateID cursor updates = cursor ∨
        ∃ u ∈ updates, maxUpdateID cursor updates = u.UpdateID) := by
  induction updates with
  | nil => intro cursor; simp [maxUpdateID]
  | cons v rest ih =>
    intro cursor
    obtain ⟨h1, h2, h3⟩ := ih (max cursor v.UpdateID)
    have hstep : maxUpdateID cursor (v :: rest) = maxUpdateID (max cursor v.UpdateID) rest := rfl
    rw [hstep]
    refine ⟨le_trans (le_max_left _ _) h1, ?_, ?_⟩
    · intro u hu
      rcases List.mem_cons.1 hu with hu | hu
      · rw [hu]
        exact le_trans (le_max_right _ _) h1
      · exact h2 u hu
    · rcases h3 with h3 | ⟨u, hu, h3⟩
      · rcases max_choice cursor v.UpdateID with hm | hm
        · exact Or.inl (by rw [h3, hm])
        · exact Or.inr ⟨v, List.mem_cons_self _ _, by rw [h3, hm]⟩
      · exact Or.inr ⟨u, List.mem_cons_of_mem _ hu, h3⟩

theorem firstOffset_workerTick (table : Char → Char) (w : Worker) (rows : List VisitCard)
    (poll : Except String (List Update)) :
    firstOffset (workerTick table w rows poll).effects
      = some (wrapInt64 (w.lastUpdateID + 1)) := by
  unfold workerTick
  cases poll with
  | error e => simp only; split <;> rfl
  | ok updates =>
    simp only
    obtain ⟨more, hmore⟩ := foldl_processUpdate_effects updates
      { worker := w, rows := rows,
        effects := [WorkerEffect.getUpdates (wrapInt64 (w.lastUpdateID + 1))] }
    rw [hmore]
    rfl

/-- C19 (a failed poll is a no-op for the worker): for every cursor and every
error text of `GetUpdates`, transient or permanent, a tick of a running worker
leaves the worker (cursor included) and the visit card table unchanged, the
poll being its only effect: nothing is dispatched or sent, no store update is
issued, and the worker stays in its loop; so three failed ticks in a row
leave the cursor unchanged. -/
theorem C19_failed_poll_noop (table : Char → Char) (w : Worker) (rows : List VisitCard)
    (errStr e2 e3 : String) (hrun : w.running = true) :
    workerStep table w rows (WorkerEvent.tick (Except.error errStr)) =
      { worker := w, rows := rows,
        effects := [WorkerEffect.getUpdates (wrapInt64 (w.lastUpdateID + 1))] } ∧
    (workerStep table w rows (WorkerEvent.tick (Except.error errStr))).worker.running = true ∧
    (workerStep table w rows (WorkerEvent.tick (Except.error errStr))).worker.lastUpdateID
      = w.lastUpdateID ∧
    (workerStep table
      (workerStep table
        (workerStep table w rows (WorkerEvent.tick (Except.error errStr))).worker rows
        (WorkerEvent.tick (Except.error e2))).worker rows
      (WorkerEvent.tick (Except.error e3))).worker = w := by
  have key : ∀ e : String, workerStep table w rows (WorkerEvent.tick (Except.error e)) =
      { worker := w, rows := rows,
        effects := [WorkerEffect.getUpdates (wrapInt64 (w.lastUpdateID + 1))] } := by
    intro e
    unfold workerStep workerTick
    simp only [hrun, if_true]
    split <;> rfl
  refine ⟨key errStr, ?_, ?_, ?_⟩
  · rw [key]; exact hrun
  · rw [key]
  · rw [key errStr]
    simp only
    rw [key e2]
    simp only
    rw [key e3]

theorem C19_failed_poll_noop_witness :
    workerStep id (newWorker 1) [card 1 "1234567890"]
        (WorkerEvent.tick (Except.error "connection reset by peer")) =
      { worker := newWorker 1, rows := [card 1 "1234567890"],
        effects := [WorkerEffect.getUpdates (wrapInt64 ((newWorker 1).lastUpdateID + 1))] } ∧
    (workerStep id
      (workerStep id
        (workerStep id (newWorker 1) [card 1 "1234567890"]
          (WorkerEvent.tick (Except.error "connection reset by peer"))).worker
        [card 1 "1234567890"] (WorkerEvent.tick (Except.error "timeout"))).worker
      [card 1 "1234567890"] (WorkerEvent.tick (Except.error "Unauthorized"))).worker
      = newWorker 1 := by
  have h := C19_failed_poll_noop id (newWorker 1) [card 1 "1234567890"]
    "connection reset by peer" "timeout" "Unauthorized" rfl
  exact ⟨h.1, h.2.2.2⟩

/-- C20, as stated, fails: with cursor 5, the batch made of the one update
with id 3 leaves `lastUpdateID` at 5, which is not the largest id of the batch. -/
theorem C20_counterexample :
    (workerTick id ⟨1, 5, true⟩ [] (Except.ok [⟨3, none⟩])).worker.lastUpdateID = 5 ∧
    (∀ u ∈ [(⟨3, none⟩ : Update)], u.UpdateID ≤ 3) ∧
    (workerTick id ⟨1, 5, true⟩ [] (Except.ok [⟨3, none⟩])).worker.lastUpdateID ≠ 3 := by
  refine ⟨by decide, ?_, by decide⟩
  intro u hu
  rw [List.mem_singleton.1 hu]

/-- C20, amended (cursor advance): after a batch has been processed,
`lastUpdateID` is the largest of the previous cursor and the update ids of
the batch: it is at least the previous cursor and every id of the batch, and
it is an id of the batch whenever the batch holds an id that is not below the
previous cursor; the next poll is issued with offset `lastUpdateID + 1` in
Go's 64-bit arithmetic, which is the integer `lastUpdateID + 1` below the
largest `int`. -/
theorem C20_cursor_advance (table : Char → Char) (w : Worker) (rows rows' : List VisitCard)
    (updates : List Update) (poll' : Except String (List Update)) :
    (workerTick table w rows (Except.ok updates)).worker.lastUpdateID
      = maxUpdateID w.lastUpdateID updates ∧
    w.lastUpdateID ≤ (workerTick table w rows (Except.ok updates)).worker.lastUpdateID ∧
    (∀ u ∈ updates,
      u.UpdateID ≤ (workerTick table w rows (Except.ok updates)).worker.lastUpdateID) ∧
    ((∃ u ∈ updates, w.lastUpdateID ≤ u.UpdateID) →
      ∃ u ∈ updates,
        (workerTick table w rows (Except.ok updates)).worker.lastUpdateID = u.UpdateID) ∧
    firstOffset (workerTick table (workerTick table w rows (Except.ok updates)).worker
        rows' poll').effects
      = some (wrapInt64
          ((workerTick table w rows (Except.ok updates)).worker.lastUpdateID + 1)) ∧
    ((workerTick table w rows (Except.ok updates)).worker.lastUpdateID < 2 ^ 63 - 1 →
      -(2 ^ 63) ≤ (workerTick table w rows (Except.ok updates)).worker.lastUpdateID + 1 →
      wrapInt64 ((workerTick table w rows (Except.ok updates)).worker.lastUpdateID + 1)
        = (workerTick table w rows (Except.ok updates)).worker.lastUpdateID + 1) := by
  have hlast : (workerTick table w rows (Except.ok updates)).worker.lastUpdateID
      = maxUpdateID w.lastUpdateID updates := by
    unfold workerTick
    simp only
    rw [foldl_processUpdate_lastUpdateID]
  obtain ⟨h1, h2, h3⟩ := le_maxUpdateID updates w.lastUpdateID
  refine ⟨hlast, by rw [hlast]; exact h1, fun u hu => by rw [hlast]; exact h2 u hu, ?_,
    firstOffset_workerTick _ _ _ _, ?_⟩
  · rintro ⟨u, hu, hle⟩
    rw [hlast]
    rcases h3 with h3 | h3
    · exact ⟨u, hu, le_antisymm (by rw [h3]; exact hle) (h2 u hu)⟩
    · exact h3
  · intro hlt hge
    unfold wrapInt64
    omega

theorem C20_cursor_advance_witness :
    (workerTick id (newWorker 1) [] (Except.ok [⟨4, none⟩, ⟨9, none⟩, ⟨7, none⟩])).worker.lastUpdateID
      = 9 ∧
    firstOffset (workerTick id
        (workerTick id (newWorker 1) [] (Except.ok [⟨4, none⟩, ⟨9, none⟩, ⟨7, none⟩])).worker
        [] (Except.ok [])).effects = some 10 := by
  have h := C20_cursor_advance id (newWorker 1) [] []
    [⟨4, none⟩, ⟨9, none⟩, ⟨7, none⟩] (Except.ok [])
  refine ⟨by decide, ?_⟩
  rw [h.2.2.2.2.1, h.2.2.2.2.2 (by decide) (by decide)]
  decide

/-! ## The cycle under arbitrary gateway answers -/

theorem sliceOK_iff (s : String) : sliceOK s = true ↔ 10 ≤ s.utf8ByteSize := by
  simp [sliceOK]

/-- The second half of `StartBot` on a token of at least ten bytes: it does
not panic, touches no other token and no other card, and its own effects
are gateway and worker effects. -/
theorem startBotCreate_general (b : BotManager) (c : String) (e : Nat) (gw : Gateway)
    (pre : List Effect) (hs : sliceOK c = true) :
    (startBotCreate b c e gw pre).ret ≠ Ret.panicked ∧
    (∀ t, t ≠ c →
      mapGet (startBotCreate b c e gw pre).bm.botsByToken t = mapGet b.botsByToken t) ∧
    (∀ e', e' ≠ e →
      mapGet (startBotCreate b c e gw pre).bm.botsByCard e' = mapGet b.botsByCard e') ∧
    (∃ more, (startBotCreate b c e gw pre).trace = pre ++ more ∧
      ∀ eff ∈ more, eff.isCall = false) := by
  unfold startBotCreate
  cases hc : mapGet b.botsByToken c with
  | some i0 =>
    simp only [hs, if_true]
    exact ⟨by decide, by simp, by simp, [], by simp, by simp⟩
  | none =>
    cases h1 : gw.newBotAPI with
    | some e1 =>
      exact ⟨by simp, fun _ _ => rfl, fun _ _ => rfl, _, rfl, by simp [Effect.isCall]⟩
    | none =>
      cases h2 : gw.getMe with
      | some e2 =>
        exact ⟨by simp, fun _ _ => rfl, fun _ _ => rfl, _, rfl, by simp [Effect.isCall]⟩
      | none =>
        simp only [hs, if_true]
        refine ⟨by decide, ?_, ?_, _, rfl, by simp [Effect.isCall]⟩
        · intro t ht
          have : ¬ c = t := fun hh => ht hh.symm
          simp [mapGet_mapSet, this]
        · intro e' he'
          have : ¬ e = e' := fun hh => he' hh.symm
          simp [mapGet_mapSet, this]

/-- The method `StartBot` on a registry that satisfies the invariant and a
token of at least ten bytes, under any gateway answers. -/
theorem StartBot_general {bm : BotManager} (hI : Inv bm) (c : String) (e : Nat) (gw : Gateway)
    (hs : sliceOK c = true) :
    (StartBot bm c e gw).ret ≠ Ret.panicked ∧
    Inv (StartBot bm c e gw).bm ∧
    (∀ t inst, t ≠ c → mapGet (StartBot bm c e gw).bm.botsByToken t = some inst →
      mapGet bm.botsByToken t = some inst) ∧
    (∀ e', e' ≠ e →
      mapGet (StartBot bm c e gw).bm.botsByCard e' = mapGet bm.botsByCard e') ∧
    (∀ eff ∈ (StartBot bm c e gw).trace, eff.isCall = false) := by
  have hret : (StartBot bm c e gw).ret ≠ Ret.panicked ∧
      (∀ t inst, t ≠ c → mapGet (StartBot bm c e gw).bm.botsByToken t = some inst →
        mapGet bm.botsByToken t = some inst) ∧
      (∀ e', e' ≠ e →
        mapGet (StartBot bm c e gw).bm.botsByCard e' = mapGet bm.botsByCard e') ∧
      (∀ eff ∈ (StartBot bm c e gw).trace, eff.isCall = false) := by
    unfold StartBot
    cases he : mapGet bm.botsByCard e with
    | none =>
      obtain ⟨g1, g2, g3, more, g4, g5⟩ := startBotCreate_general bm c e gw [] hs
      refine ⟨g1, fun t inst ht h => by rw [← g2 t ht]; exact h, g3, ?_⟩
      intro eff heff
      simp only at heff
      rw [g4] at heff
      exact g5 eff (by simpa using heff)
    | some old =>
      obtain ⟨h1, h2⟩ := hI.card_token e old he
      by_cases ht : old.token = c
      · simp only [ht, ne_eq, not_true_eq_false, if_false, hs, if_true]
        exact ⟨by decide, fun _ _ _ h => h, by simp, by simp⟩
      · have hso : sliceOK old.token = true := sliceOK_of_bound hI h2
        simp only [ne_eq, ht, not_false_eq_true, if_true, hso, hs, Bool.and_self,
          stopBotUnlocked_bound hI h2]
        obtain ⟨g1, g2, g3, more, g4, g5⟩ := startBotCreate_general
          { bm with botsByCard := mapDelete bm.botsByCard old.visitCardID,
                    botsByToken := mapDelete bm.botsByToken old.token }
          c e gw ([Effect.stopWorker old.ptr] ++ [Effect.sleep 1]) hs
        refine ⟨g1, ?_, ?_, ?_⟩
        · intro t inst htc h
          rw [g2 t htc] at h
          simp only [mapGet_mapDelete] at h
          split at h
          · simp at h
          · exact h
        · intro e' he'
          rw [g3 e' he']
          have : ¬ old.visitCardID = e' := by rw [h1]; exact fun hh => he' hh.symm
          simp [mapGet_mapDelete, this]
        · intro eff heff
          rw [g4] at heff
          rcases List.mem_append.1 heff with hm | hm
          · have : eff = Effect.stopWorker old.ptr ∨ eff = Effect.sleep 1 := by
              simpa using hm
            rcases this with hh | hh <;> rw [hh] <;> rfl
          · exact g5 eff hm
  exact ⟨hret.1, StartBot_inv hI c e gw hret.1, hret.2⟩

/-- The ensure-running step on a registry that satisfies the invariant, for a
token of at least ten bytes and any gateway answers. -/
theorem ensureRunning_general {bm : BotManager} (hI : Inv bm) (vc : VisitCard) (g : Gateway)
    (pre : List Effect) (hs : sliceOK vc.TelegramBotToken = true) :
    (ensureRunning bm vc g pre).ret = Ret.ok ∧
    Inv (ensureRunning bm vc g pre).bm ∧
    (∀ t inst, t ≠ vc.TelegramBotToken →
      mapGet (ensureRunning bm vc g pre).bm.botsByToken t = some inst →
      mapGet bm.botsByToken t = some inst) ∧
    (∀ e', e' ≠ vc.ID →
      mapGet (ensureRunning bm vc g pre).bm.botsByCard e' = mapGet bm.botsByCard e') ∧
    (∀ inst, mapGet bm.botsByCard vc.ID = some inst → inst.token = vc.TelegramBotToken →
      ensureRunning bm vc g pre = ⟨bm, Ret.ok, pre⟩) ∧
    (∃ more, (ensureRunning bm vc g pre).trace = pre ++ more ∧
      ∀ eff ∈ more, eff.isCall = false ∨
        ∃ res, eff = Effect.callStartBot vc.TelegramBotToken vc.ID res) ∧
    ((∀ inst, mapGet bm.botsByCard vc.ID = some inst → inst.token ≠ vc.TelegramBotToken) →
      ∃ res, Effect.callStartBot vc.TelegramBotToken vc.ID res
        ∈ (ensureRunning bm vc g pre).trace) := by
  obtain ⟨s1, s2, s3, s4, s5⟩ := StartBot_general hI vc.TelegramBotToken vc.ID g hs
  by_cases hex : ∃ inst, mapGet bm.botsByCard vc.ID = some inst ∧
      inst.token = vc.TelegramBotToken
  · obtain ⟨inst, hi, ht⟩ := hex
    have heq : ensureRunning bm vc g pre = ⟨bm, Ret.ok, pre⟩ := by
      simp [ensureRunning, hi, ht]
    rw [heq]
    refine ⟨rfl, hI, fun _ _ _ h => h, fun _ _ => rfl, fun _ _ _ => rfl,
      ⟨[], by simp, by simp⟩, ?_⟩
    intro hno
    exact absurd ht (hno inst hi)
  · have hb : (match mapGet bm.botsByCard vc.ID with
        | some inst => decide (inst.token = vc.TelegramBotToken)
        | none => false) = false := by
      cases hc : mapGet bm.botsByCard vc.ID with
      | none => rfl
      | some inst =>
        simp only [decide_eq_false_iff_not]
        exact fun ht => hex ⟨inst, hc, ht⟩
    have heq : ensureRunning bm vc g pre =
        ⟨(StartBot bm vc.TelegramBotToken vc.ID g).bm,
          if (StartBot bm vc.TelegramBotToken vc.ID g).ret = Ret.panicked then Ret.panicked
          else Ret.ok,
          pre ++ Effect.callStartBot vc.TelegramBotToken vc.ID
            (StartBot bm vc.TelegramBotToken vc.ID g).ret
            :: (StartBot bm vc.TelegramBotToken vc.ID g).trace⟩ := by
      unfold ensureRunning
      simp only [hb, Bool.false_eq_true, if_false]
    rw [heq]
    refine ⟨by simp [s1], s2, s3, s4, ?_, ⟨_, rfl, ?_⟩, ?_⟩
    · intro inst hi ht
      exact absurd ⟨inst, hi, ht⟩ hex
    · intro eff heff
      rcases List.mem_cons.1 heff with hh | hh
      · exact Or.inr ⟨_, hh⟩
      · exact Or.inl (s5 eff hh)
    · intro _
      exact ⟨(StartBot bm vc.TelegramBotToken vc.ID g).ret,
        List.mem_append_right _ (List.mem_cons_self _ _)⟩

theorem validateBotToken_trace (table : Char → Char) (token : String) (g : Gateway) :
    ∀ eff ∈ (validateBotToken table token g).2, eff.isCall = false := by
  unfold validateBotToken
  cases g.newBotAPI with
  | some e => simp [Effect.isCall]
  | none =>
    cases g.getMe with
    | some e =>
      simp only
      split <;> simp [Effect.isCall]
    | none => simp [Effect.isCall]

/-- The loop body for a card whose validation fails permanently: the store
update, then `StopBot`, nothing else. -/
theorem processCard_permanent (table : Char → Char) (bm : BotManager) (vc : VisitCard)
    (cg : CardGateway) (hs : sliceOK vc.TelegramBotToken = true)
    (hp : permanentFailure table vc cg = true) :
    ∃ errStr, validationError table vc cg = some errStr ∧
      isNetworkError table errStr = false ∧
      processCard table bm vc cg =
        ⟨(StopBot bm vc.TelegramBotToken).bm, (StopBot bm vc.TelegramBotToken).ret,
          (validateBotToken table vc.TelegramBotToken cg.validate).2 ++
            Effect.storeUpdate vc.ID false ("Token validation failed: " ++ errStr)
              :: Effect.callStopBot vc.TelegramBotToken
              :: (StopBot bm vc.TelegramBotToken).trace⟩ := by
  unfold permanentFailure at hp
  cases hv : validationError table vc cg with
  | none => simp [hv] at hp
  | some errStr =>
    simp only [hv, Bool.not_eq_true'] at hp
    refine ⟨errStr, rfl, hp, ?_⟩
    unfold validationError at hv
    unfold processCard
    simp only [hs, if_true, hv, hp, Bool.false_eq_true, if_false]

/-- The loop body for a card whose validation does not fail permanently: the
ensure-running step, preceded at most by the update that clears an old
error message. -/
theorem processCard_not_permanent (table : Char → Char) (bm : BotManager) (vc : VisitCard)
    (cg : CardGateway) (hs : sliceOK vc.TelegramBotToken = true)
    (hp : permanentFailure table vc cg = false) :
    ∃ pre, processCard table bm vc cg = ensureRunning bm vc cg.start pre ∧
      (∀ eff ∈ pre, eff.isCall = false ∨
        (eff = Effect.storeUpdate vc.ID true "" ∧ validationError table vc cg = none)) := by
  unfold permanentFailure at hp
  cases hv : validationError table vc cg with
  | none =>
    unfold validationError at hv
    unfold processCard
    simp only [hs, if_true, hv]
    split
    · refine ⟨_, rfl, ?_⟩
      intro eff heff
      rcases List.mem_append.1 heff with hh | hh
      · exact Or.inl (validateBotToken_trace _ _ _ eff hh)
      · exact Or.inr ⟨by simpa using hh, by simp⟩
    · exact ⟨_, rfl, fun eff heff => Or.inl (validateBotToken_trace _ _ _ eff heff)⟩
  | some errStr =>
    simp only [hv, Bool.not_eq_false'] at hp
    unfold validationError at hv
    unfold processCard
    simp only [hs, if_true, hv, hp]
    exact ⟨_, rfl, fun eff heff => Or.inl (validateBotToken_trace _ _ _ eff heff)⟩

theorem StopBot_token_frame {bm : BotManager} (hI : Inv bm) (t t' : String)
    (inst : BotInstance) (h : mapGet (StopBot bm t).bm.botsByToken t' = some inst) :
    t' ≠ t ∧ mapGet bm.botsByToken t' = some inst := by
  obtain ⟨_, _, p3, _, _⟩ := StopBot_spec hI t
  have hne : t' ≠ t := by
    intro hh
    rw [hh, p3] at h
    exact Option.noConfusion h
  refine ⟨hne, ?_⟩
  unfold StopBot at h
  cases hc : mapGet bm.botsByToken t with
  | none =>
    rw [stopBotUnlocked_absent bm t hc] at h
    exact h
  | some i0 =>
    rw [stopBotUnlocked_bound hI hc] at h
    have : ¬ t = t' := fun hh => hne hh.symm
    simpa [mapGet_mapDelete, this] using h

theorem mayEmit_of_not_call (table : Char → Char) (vc : VisitCard) (cg : CardGateway)
    (eff : Effect) (h : eff.isCall = false) : MayEmit table vc cg eff := by
  cases eff <;> simp [Effect.isCall] at h <;> exact trivial

/-- The loop body on a registry that satisfies the invariant, for a token of
at least ten bytes and any gateway answers: it returns, keeps the invariant,
binds no token but the card's own (and that only if the validation did not
fail permanently), and keeps the instances of other cards with other tokens. -/
theorem processCard_general {bm : BotManager} (hI : Inv bm) (table : Char → Char)
    (vc : VisitCard) (cg : CardGateway) (hs : sliceOK vc.TelegramBotToken = true) :
    (processCard table bm vc cg).ret = Ret.ok ∧
    Inv (processCard table bm vc cg).bm ∧
    (∀ t inst, mapGet (processCard table bm vc cg).bm.botsByToken t = some inst →
      (t = vc.TelegramBotToken ∧ permanentFailure table vc cg = false) ∨
      (t ≠ vc.TelegramBotToken ∧ mapGet bm.botsByToken t = some inst)) ∧
    (∀ e' inst, e' ≠ vc.ID → inst.token ≠ vc.TelegramBotToken →
      mapGet bm.botsByCard e' = some inst →
      mapGet (processCard table bm vc cg).bm.botsByCard e' = some inst) ∧
    (permanentFailure table vc cg = false → ∀ inst, mapGet bm.botsByCard vc.ID = some inst →
      inst.token = vc.TelegramBotToken →
      mapGet (processCard table bm vc cg).bm.botsByCard vc.ID = some inst) ∧
    (permanentFailure table vc cg = true →
      mapGet (processCard table bm vc cg).bm.botsByToken vc.TelegramBotToken = none) := by
  cases hp : permanentFailure table vc cg with
  | true =>
    obtain ⟨errStr, _, _, heq⟩ := processCard_permanent table bm vc cg hs hp
    obtain ⟨p1, p2, p3, p4, p5⟩ := StopBot_spec hI vc.TelegramBotToken
    rw [heq]
    refine ⟨p1, p2, ?_, ?_, by simp, fun _ => p3⟩
    · intro t inst h
      exact Or.inr (StopBot_token_frame hI _ _ inst h)
    · intro e' inst _ hne h
      exact p5 e' inst h hne
  | false =>
    obtain ⟨pre, heq, _⟩ := processCard_not_permanent table bm vc cg hs hp
    obtain ⟨e1, e2, e3, e4, e5, _, _⟩ := ensureRunning_general hI vc cg.start pre hs
    rw [heq]
    refine ⟨e1, e2, ?_, ?_, ?_, by simp⟩
    · intro t inst h
      by_cases ht : t = vc.TelegramBotToken
      · exact Or.inl ⟨ht, rfl⟩
      · exact Or.inr ⟨ht, e3 t inst ht h⟩
    · intro e' inst hne _ h
      rw [e4 e' hne]
      exact h
    · intro _ inst hi ht
      rw [e5 inst hi ht]
      exact hi

/-- What the loop body emits, for any gateway answers. -/
theorem processCard_trace {bm : BotManager} (hI : Inv bm) (table : Char → Char)
    (vc : VisitCard) (cg : CardGateway) (hs : sliceOK vc.TelegramBotToken = true) :
    (∀ eff ∈ (processCard table bm vc cg).trace, MayEmit table vc cg eff) ∧
    (permanentFailure table vc cg = true →
      ∃ errStr, validationError table vc cg = some errStr ∧
        isNetworkError table errStr = false ∧
        Effect.storeUpdate vc.ID false ("Token validation failed: " ++ errStr)
          ∈ (processCard table bm vc cg).trace ∧
        Effect.callStopBot vc.TelegramBotToken ∈ (processCard table bm vc cg).trace) ∧
    (permanentFailure table vc cg = false →
      (∀ inst, mapGet bm.botsByCard vc.ID = some inst → inst.token ≠ vc.TelegramBotToken) →
      ∃ res, Effect.callStartBot vc.TelegramBotToken vc.ID res
        ∈ (processCard table bm vc cg).trace) := by
  cases hp : permanentFailure table vc cg with
  | true =>
    obtain ⟨errStr, hv, hn, heq⟩ := processCard_permanent table bm vc cg hs hp
    rw [heq]
    refine ⟨?_, fun _ => ⟨errStr, hv, hn, by simp, by simp⟩, by simp⟩
    intro eff heff
    rcases List.mem_append.1 heff with hh | hh
    · exact mayEmit_of_not_call _ _ _ _ (validateBotToken_trace _ _ _ eff hh)
    · rcases List.mem_cons.1 hh with hh | hh
      · rw [hh]
        exact ⟨rfl, Or.inr ⟨rfl, errStr, hv, hn, rfl⟩⟩
      · rcases List.mem_cons.1 hh with hh | hh
        · rw [hh]
          exact ⟨rfl, hp⟩
        · apply mayEmit_of_not_call
          unfold StopBot at hh
          cases hc : mapGet bm.botsByToken vc.TelegramBotToken with
          | none =>
            rw [stopBotUnlocked_absent bm _ hc] at hh
            simp at hh
          | some i0 =>
            rw [stopBotUnlocked_bound hI hc] at hh
            rw [List.mem_singleton.1 hh]
            rfl
  | false =>
    obtain ⟨pre, heq, hpre⟩ := processCard_not_permanent table bm vc cg hs hp
    obtain ⟨_, _, _, _, _, ⟨more, hmore, hcall⟩, hlive⟩ :=
      ensureRunning_general hI vc cg.start pre hs
    rw [heq]
    refine ⟨?_, by simp, fun _ hno => hlive hno⟩
    intro eff heff
    rw [hmore] at heff
    rcases List.mem_append.1 heff with hh | hh
    · rcases hpre eff hh with h1 | ⟨h1, h2⟩
      · exact mayEmit_of_not_call _ _ _ _ h1
      · rw [h1]
        exact ⟨rfl, Or.inl ⟨rfl, rfl, h2⟩⟩
    · rcases hcall eff hh with h1 | ⟨res, h1⟩
      · exact mayEmit_of_not_call _ _ _ _ h1
      · rw [h1]
        exact ⟨rfl, rfl, hp⟩

/-- The loop over visit cards with tokens of at least ten bytes, under any
gateway answers: it completes and keeps the invariant; a token bound
afterwards is the token of a processed card whose validation did not fail
permanently, or was bound before and is the token of no processed card; an
instance of a card that is not processed, with a token that no processed
card carries, is kept; and what the loop emits is emitted for its cards. -/
theorem processCards_general (table : Char → Char) (gw : Nat → CardGateway) :
    ∀ (todo : List VisitCard) (k : Nat) (bm : BotManager) (tr : List Effect),
      Inv bm → (∀ v ∈ todo, 10 ≤ v.TelegramBotToken.utf8ByteSize) →
      (processCards table gw k todo bm tr).ret = Ret.ok ∧
      Inv (processCards table gw k todo bm tr).bm ∧
      (∀ t inst, mapGet (processCards table gw k todo bm tr).bm.botsByToken t = some inst →
        (∃ j v, todo[j]? = some v ∧ v.TelegramBotToken = t ∧
          permanentFailure table v (gw (k + j)) = false) ∨
        (mapGet bm.botsByToken t = some inst ∧ ∀ v ∈ todo, v.TelegramBotToken ≠ t)) ∧
      (∀ e' inst, mapGet bm.botsByCard e' = some inst →
        (∀ v ∈ todo, v.ID ≠ e' ∧ v.TelegramBotToken ≠ inst.token) →
        mapGet (processCards table gw k todo bm tr).bm.botsByCard e' = some inst) ∧
      (∃ more, (processCards table gw k todo bm tr).trace = tr ++ more ∧
        ∀ eff ∈ more, ∃ j v, todo[j]? = some v ∧ MayEmit table v (gw (k + j)) eff) := by
  intro todo
  induction todo with
  | nil =>
    intro k bm tr hI _
    exact ⟨rfl, hI, fun t inst h => Or.inr ⟨h, fun _ hv => by simp at hv⟩,
      fun _ _ h _ => h, [], by simp [processCards], by simp⟩
  | cons v rest ih =>
    intro k bm tr hI hlen
    have hs : sliceOK v.TelegramBotToken = true :=
      (sliceOK_iff _).2 (hlen v (List.mem_cons_self _ _))
    have hrest : ∀ u ∈ rest, 10 ≤ u.TelegramBotToken.utf8ByteSize :=
      fun u hu => hlen u (List.mem_cons_of_mem _ hu)
    obtain ⟨q1, q2, q3, q4, _, _⟩ := processCard_general hI table v (gw k) hs
    obtain ⟨t1, _, _⟩ := processCard_trace hI table v (gw k) hs
    have hstep : processCards table gw k (v :: rest) bm tr =
        processCards table gw (k + 1) rest (processCard table bm v (gw k)).bm
          (tr ++ (processCard table bm v (gw k)).trace) := by
      simp only [processCards, q1]
    rw [hstep]
    obtain ⟨i1, i2, i3, i4, more, i5, i6⟩ := ih (k + 1) (processCard table bm v (gw k)).bm
      (tr ++ (processCard table bm v (gw k)).trace) q2 hrest
    refine ⟨i1, i2, ?_, ?_, (processCard table bm v (gw k)).trace ++ more, ?_, ?_⟩
    · intro t inst h
      rcases i3 t inst h with ⟨j, u, hj, hu, hp⟩ | ⟨hb, hno⟩
      · refine Or.inl ⟨j + 1, u, by simpa using hj, hu, ?_⟩
        have hidx : k + (j + 1) = k + 1 + j := by omega
        rw [hidx]
        exact hp
      · rcases q3 t inst hb with ⟨ht, hp⟩ | ⟨ht, hb0⟩
        · exact Or.inl ⟨0, v, by simp, ht.symm, hp⟩
        · refine Or.inr ⟨hb0, ?_⟩
          intro u hu
          rcases List.mem_cons.1 hu with hu | hu
          · rw [hu]
            exact fun hh => ht hh.symm
          · exact hno u hu
    · intro e' inst hb hno
      have hv := hno v (List.mem_cons_self _ _)
      have h1 := q4 e' inst (fun hh => hv.1 hh.symm) (fun hh => hv.2 hh.symm) hb
      exact i4 e' inst h1 (fun u hu => hno u (List.mem_cons_of_mem _ hu))
    · rw [i5, List.append_assoc]
    · intro eff heff
      rcases List.mem_append.1 heff with hh | hh
      · exact ⟨0, v, by simp, t1 eff hh⟩
      · obtain ⟨j, u, hj, hm⟩ := i6 eff hh
        refine ⟨j + 1, u, by simpa using hj, ?_⟩
        have hidx : k + (j + 1) = k + 1 + j := by omega
        rw [hidx]
        exact hm

/-- The loop over a list that continues another list. -/
theorem processCards_append (table : Char → Char) (gw : Nat → CardGateway) :
    ∀ (l1 l2 : List VisitCard) (k : Nat) (bm : BotManager) (tr : List Effect),
      (processCards table gw k l1 bm tr).ret = Ret.ok →
      processCards table gw k (l1 ++ l2) bm tr =
        processCards table gw (k + l1.length) l2 (processCards table gw k l1 bm tr).bm
          (processCards table gw k l1 bm tr).trace := by
  intro l1
  induction l1 with
  | nil =>
    intro l2 k bm tr _
    simp [processCards]
  | cons v rest ih =>
    intro l2 k bm tr hret
    cases hr : (processCard table bm v (gw k)).ret with
    | panicked =>
      simp [processCards, hr] at hret
    | ok =>
      have h1 : processCards table gw k (v :: rest) bm tr =
          processCards table gw (k + 1) rest (processCard table bm v (gw k)).bm
            (tr ++ (processCard table bm v (gw k)).trace) := by
        simp only [processCards, hr]
      have h2 : processCards table gw k (v :: rest ++ l2) bm tr =
          processCards table gw (k + 1) (rest ++ l2) (processCard table bm v (gw k)).bm
            (tr ++ (processCard table bm v (gw k)).trace) := by
        rw [List.cons_append]
        simp only [processCards, hr]
      rw [h1] at hret
      rw [h1, h2, ih l2 (k + 1) _ _ hret]
      have hidx : k + 1 + rest.length = k + (v :: rest).length := by
        simp only [List.length_cons]; omega
      rw [hidx]
    | err msg =>
      have h1 : processCards table gw k (v :: rest) bm tr =
          processCards table gw (k + 1) rest (processCard table bm v (gw k)).bm
            (tr ++ (processCard table bm v (gw k)).trace) := by
        simp only [processCards, hr]
      have h2 : processCards table gw k (v :: rest ++ l2) bm tr =
          processCards table gw (k + 1) (rest ++ l2) (processCard table bm v (gw k)).bm
            (tr ++ (processCard table bm v (gw k)).trace) := by
        rw [List.cons_append]
        simp only [processCards, hr]
      rw [h1] at hret
      rw [h1, h2, ih l2 (k + 1) _ _ hret]
      have hidx : k + 1 + rest.length = k + (v :: rest).length := by
        simp only [List.length_cons]; omega
      rw [hidx]

/-- What the sweep emits: worker stops, and `StopBot` calls for tokens that
no fetched card carries. -/
theorem sweep_trace (D : List VisitCard) :
    ∀ (ts : List String) (bm : BotManager) (tr : List Effect),
      (∀ t ∈ ts, 10 ≤ t.utf8ByteSize) → Inv bm →
      ∃ more, (sweep D ts bm tr).trace = tr ++ more ∧
        ∀ eff ∈ more, eff.isCall = false ∨
          ∃ t, eff = Effect.callStopBot t ∧ ∀ vc ∈ D, vc.TelegramBotToken ≠ t := by
  intro ts
  induction ts with
  | nil =>
    intro bm tr _ _
    exact ⟨[], by simp [sweep], by simp⟩
  | cons t rest ih =>
    intro bm tr hts hI
    have hrest : ∀ u ∈ rest, 10 ≤ u.utf8ByteSize := fun u hu => hts u (List.mem_cons_of_mem _ hu)
    by_cases hfound : (D.any fun vc => decide (vc.TelegramBotToken = t)) = true
    · have hstep : sweep D (t :: rest) bm tr = sweep D rest bm tr := by
        simp only [sweep, hfound, if_true]
      rw [hstep]
      exact ih bm tr hrest hI
    · have hs : sliceOK t = true := (sliceOK_iff _).2 (hts t (List.mem_cons_self _ _))
      obtain ⟨p1, p2, _, _, _⟩ := StopBot_spec hI t
      have hstep : sweep D (t :: rest) bm tr =
          sweep D rest (StopBot bm t).bm (tr ++ Effect.callStopBot t :: (StopBot bm t).trace) := by
        simp only [sweep, hfound, hs, if_true, p1]
        simp
      rw [hstep]
      obtain ⟨more, h1, h2⟩ := ih (StopBot bm t).bm
        (tr ++ Effect.callStopBot t :: (StopBot bm t).trace) hrest p2
      refine ⟨Effect.callStopBot t :: (StopBot bm t).trace ++ more, ?_, ?_⟩
      · rw [h1]
        simp
      · intro eff heff
        rcases List.mem_append.1 heff with hh | hh
        · rcases List.mem_cons.1 hh with hh | hh
          · refine Or.inr ⟨t, hh, ?_⟩
            intro vc hvc heq
            apply hfound
            rw [List.any_eq_true]
            exact ⟨vc, hvc, by simp [heq]⟩
          · left
            unfold StopBot at hh
            cases hc : mapGet bm.botsByToken t with
            | none =>
              rw [stopBotUnlocked_absent bm _ hc] at hh
              simp at hh
            | some i0 =>
              rw [stopBotUnlocked_bound hI hc] at hh
              rw [List.mem_singleton.1 hh]
              rfl
        · exact h2 eff hh

theorem getElem?_split {α : Type} (l1 l2 : List α) (d v : α) :
    ∀ j : Nat, (l1 ++ d :: l2)[j]? = some v →
      v ∈ l1 ∨ (j = l1.length ∧ v = d) ∨ v ∈ l2 := by
  induction l1 with
  | nil =>
    intro j h
    cases j with
    | zero =>
      simp only [List.nil_append, List.getElem?_cons_zero, Option.some.injEq] at h
      exact Or.inr (Or.inl ⟨rfl, h.symm⟩)
    | succ j' =>
      simp only [List.nil_append, List.getElem?_cons_succ] at h
      exact Or.inr (Or.inr (List.getElem?_mem h))
  | cons a rest ih =>
    intro j h
    cases j with
    | zero =>
      simp only [List.cons_append, List.getElem?_cons_zero, Option.some.injEq] at h
      exact Or.inl (by rw [← h]; exact List.mem_cons_self _ _)
    | succ j' =>
      simp only [List.cons_append, List.getElem?_cons_succ] at h
      rcases ih j' h with h1 | ⟨h1, h2⟩ | h1
      · exact Or.inl (List.mem_cons_of_mem _ h1)
      · exact Or.inr (Or.inl ⟨by simp [h1], h2⟩)
      · exact Or.inr (Or.inr h1)

theorem mapGet_none_eq_nil {κ ν : Type} [DecidableEq κ] (m : List (κ × ν))
    (h : ∀ k, mapGet m k = none) : m = [] := by
  cases m with
  | nil => rfl
  | cons p rest =>
    obtain ⟨a, b⟩ := p
    have := h a
    simp [mapGet] at this

/-- A loop that does not panic has sliced the token of every card. -/
theorem processCards_tokens_ok (table : Char → Char) (gw : Nat → CardGateway) :
    ∀ (todo : List VisitCard) (k : Nat) (bm : BotManager) (tr : List Effect),
      Inv bm → (processCards table gw k todo bm tr).ret ≠ Ret.panicked →
      ∀ v ∈ todo, 10 ≤ v.TelegramBotToken.utf8ByteSize := by
  intro todo
  induction todo with
  | nil =>
    intro _ _ _ _ _ v hv
    simp at hv
  | cons a rest ih =>
    intro k bm tr hI hret
    by_cases hs : sliceOK a.TelegramBotToken = true
    · obtain ⟨q1, q2, _⟩ := processCard_general hI table a (gw k) hs
      have hstep : processCards table gw k (a :: rest) bm tr =
          processCards table gw (k + 1) rest (processCard table bm a (gw k)).bm
            (tr ++ (processCard table bm a (gw k)).trace) := by
        simp only [processCards, q1]
      rw [hstep] at hret
      intro v hv
      rcases List.mem_cons.1 hv with hv | hv
      · rw [hv]
        exact (sliceOK_iff _).1 hs
      · exact ih (k + 1) _ _ q2 hret v hv
    · exfalso
      apply hret
      have hp : processCard table bm a (gw k) = ⟨bm, Ret.panicked, []⟩ := by
        unfold processCard
        simp only [hs, Bool.false_eq_true, if_false]
      simp only [processCards, hp]

/-- A cycle returns exactly when every fetched token has at least ten bytes. -/
theorem syncCycle_ret_ok {bm : BotManager} (hI : Inv bm) (table : Char → Char)
    (D : List VisitCard) (gw : Nat → CardGateway) :
    (syncCycle table bm D gw).ret = Ret.ok ↔
      ∀ vc ∈ D, 10 ≤ vc.TelegramBotToken.utf8ByteSize := by
  constructor
  · intro hret
    apply processCards_tokens_ok table gw D 0 bm [] hI
    intro hp
    unfold syncCycle at hret
    simp only [hp] at hret
    exact Ret.noConfusion hret
  · intro hlen
    obtain ⟨a1, a2, _⟩ := processCards_general table gw D 0 bm [] hI hlen
    have hts : ∀ t ∈ GetRunningBots (processCards table gw 0 D bm []).bm,
        10 ≤ t.utf8ByteSize := by
      intro t ht
      obtain ⟨v, hv⟩ := (mapGet_isSome_iff_mem _ t).2 ht
      exact a2.token_len t v hv
    obtain ⟨b1, _⟩ := sweep_spec D (GetRunningBots (processCards table gw 0 D bm []).bm)
      (processCards table gw 0 D bm []).bm (processCards table gw 0 D bm []).trace hts a2
    unfold syncCycle
    simp only [a1]
    exact b1

/-- A cycle over fetched tokens of at least ten bytes is the loop followed by
the sweep, and both keep the invariant. -/
theorem syncCycle_eq {bm : BotManager} (hI : Inv bm) (table : Char → Char)
    (D : List VisitCard) (gw : Nat → CardGateway)
    (hlen : ∀ vc ∈ D, 10 ≤ vc.TelegramBotToken.utf8ByteSize) :
    syncCycle table bm D gw =
      sweep D (GetRunningBots (processCards table gw 0 D bm []).bm)
        (processCards table gw 0 D bm []).bm (processCards table gw 0 D bm []).trace ∧
    (∀ t ∈ GetRunningBots (processCards table gw 0 D bm []).bm, 10 ≤ t.utf8ByteSize) ∧
    Inv (processCards table gw 0 D bm []).bm ∧
    Inv (syncCycle table bm D gw).bm ∧
    (∀ t inst, mapGet (syncCycle table bm D gw).bm.botsByToken t = some inst →
      mapGet (processCards table gw 0 D bm []).bm.botsByToken t = some inst) := by
  obtain ⟨a1, a2, _⟩ := processCards_general table gw D 0 bm [] hI hlen
  have hts : ∀ t ∈ GetRunningBots (processCards table gw 0 D bm []).bm,
      10 ≤ t.utf8ByteSize := by
    intro t ht
    obtain ⟨v, hv⟩ := (mapGet_isSome_iff_mem _ t).2 ht
    exact a2.token_len t v hv
  have heq : syncCycle table bm D gw =
      sweep D (GetRunningBots (processCards table gw 0 D bm []).bm)
        (processCards table gw 0 D bm []).bm (processCards table gw 0 D bm []).trace := by
    simp only [syncCycle, a1]
  obtain ⟨_, b2, b3, _, _⟩ := sweep_spec D (GetRunningBots (processCards table gw 0 D bm []).bm)
    (processCards table gw 0 D bm []).bm (processCards table gw 0 D bm []).trace hts a2
  refine ⟨heq, hts, a2, by rw [heq]; exact b2, ?_⟩
  rw [heq]
  intro t inst h
  obtain ⟨c1, c2⟩ := b2.token_card t inst h
  have h1 := b3 _ inst c2
  have h2 := (a2.card_token _ inst h1).2
  rw [c1] at h2
  exact h2

/-- At the end of a cycle over fetched tokens of at least ten bytes, every
bound token is the token of a fetched card whose validation did not fail
permanently. -/
theorem running_tokens_valid {bm : BotManager} (hI : Inv bm) (table : Char → Char)
    (D : List VisitCard) (gw : Nat → CardGateway)
    (hlen : ∀ vc ∈ D, 10 ≤ vc.TelegramBotToken.utf8ByteSize) :
    ∀ t inst, mapGet (syncCycle table bm D gw).bm.botsByToken t = some inst →
      ∃ j vc, D[j]? = some vc ∧ vc.TelegramBotToken = t ∧
        permanentFailure table vc (gw j) = false := by
  obtain ⟨heq, hts, a2, hres, hsub⟩ := syncCycle_eq hI table D gw hlen
  obtain ⟨_, _, a3, _, _⟩ := processCards_general table gw D 0 bm [] hI hlen
  obtain ⟨_, b2, b3, _, b5⟩ := sweep_spec D (GetRunningBots (processCards table gw 0 D bm []).bm)
    (processCards table gw 0 D bm []).bm (processCards table gw 0 D bm []).trace hts a2
  intro t inst hb
  have hmid := hsub t inst hb
  rcases a3 t inst hmid with ⟨j, v, hj, hv, hp⟩ | ⟨_, hno⟩
  · exact ⟨j, v, hj, hv, by simpa using hp⟩
  · exfalso
    obtain ⟨c1, c2⟩ := hres.token_card t inst hb
    rw [heq] at c2
    have hmem : inst.token ∈ GetRunningBots (processCards table gw 0 D bm []).bm := by
      rw [c1]
      exact (mapGet_isSome_iff_mem _ _).1 ⟨inst, hmid⟩
    obtain ⟨vc, hvc, hvt⟩ := b5 _ inst c2 hmem
    exact hno vc hvc (by rw [hvt, c1])

/-! ## The claims on the reconciliation cycle -/

/-- C11 at a failing input: card 1 runs "1234567890"; card 1 is then deleted
and the new card 2 carries the same token.  The cycle fetches card 2 only,
`StartBot` for card 2 returns the conflict error, the sweep finds the token
among the fetched cards, and at the end the instance of the deleted card 1
is still running. -/
theorem C11_vanished_card_still_running :
    Reachable oneBot ∧
    fetchVisitCards reassignedRows = [card 2 "1234567890"] ∧
    (∀ vc ∈ fetchVisitCards reassignedRows, vc.ID ≠ 1) ∧
    (syncCycle id oneBot (fetchVisitCards reassignedRows) allAuthenticate).ret = Ret.ok ∧
    Effect.callStartBot "1234567890" 2 (Ret.err "token already in use by another visit card")
      ∈ (syncCycle id oneBot (fetchVisitCards reassignedRows) allAuthenticate).trace ∧
    mapGet (syncCycle id oneBot (fetchVisitCards reassignedRows) allAuthenticate).bm.botsByCard 1
      = some ⟨0, 1, "1234567890"⟩ ∧
    mapGet (syncCycle id oneBot (fetchVisitCards reassignedRows) allAuthenticate).bm.botsByCard 2
      = none := by
  refine ⟨oneBot_reachable, by decide, ?_, by decide, by decide, by decide, by decide⟩
  intro vc hvc
  have h : fetchVisitCards reassignedRows = [card 2 "1234567890"] := by decide
  rw [h, List.mem_singleton] at hvc
  rw [hvc]
  decide

/-- C12 (sweep postcondition): from a reachable registry state, a cycle runs
to its end when every fetched token has at least ten bytes; and at the end
of a cycle every token returned by `GetRunningBots` is the token of a
descriptor of `D` whose validation did not fail permanently in this cycle,
so that no other token is running any more. -/
theorem C12_sweep_postcondition (table : Char → Char) (bm : BotManager) (h : Reachable bm)
    (D : List VisitCard) (gw : Nat → CardGateway) :
    ((∀ vc ∈ D, 10 ≤ vc.TelegramBotToken.utf8ByteSize) →
      (syncCycle table bm D gw).ret = Ret.ok) ∧
    ((syncCycle table bm D gw).ret = Ret.ok →
      (∀ t ∈ GetRunningBots (syncCycle table bm D gw).bm,
        ∃ j vc, D[j]? = some vc ∧ vc.TelegramBotToken = t ∧
          permanentFailure table vc (gw j) = false) ∧
      (∀ t, (¬ ∃ j vc, D[j]? = some vc ∧ vc.TelegramBotToken = t ∧
          permanentFailure table vc (gw j) = false) →
        mapGet (syncCycle table bm D gw).bm.botsByToken t = none ∧
        t ∉ GetRunningBots (syncCycle table bm D gw).bm)) := by
  have hI := h.inv
  refine ⟨(syncCycle_ret_ok hI table D gw).2, fun hret => ?_⟩
  have hlen := (syncCycle_ret_ok hI table D gw).1 hret
  have key := running_tokens_valid hI table D gw hlen
  refine ⟨?_, ?_⟩
  · intro t ht
    obtain ⟨inst, hb⟩ := (mapGet_isSome_iff_mem _ t).2 ht
    exact key t inst hb
  · intro t hno
    have hnone : mapGet (syncCycle table bm D gw).bm.botsByToken t = none := by
      cases hb : mapGet (syncCycle table bm D gw).bm.botsByToken t with
      | none => rfl
      | some inst => exact absurd (key t inst hb) hno
    refine ⟨hnone, ?_⟩
    intro ht
    obtain ⟨inst, hb⟩ := (mapGet_isSome_iff_mem _ t).2 ht
    rw [hnone] at hb
    exact Option.noConfusion hb

theorem C12_sweep_postcondition_witness :
    (syncCycle id oneBot twoCards firstRejected).ret = Ret.ok ∧
    (∀ t ∈ GetRunningBots (syncCycle id oneBot twoCards firstRejected).bm,
      ∃ j vc, twoCards[j]? = some vc ∧ vc.TelegramBotToken = t ∧
        permanentFailure id vc (firstRejected j) = false) ∧
    GetRunningBots (syncCycle id oneBot twoCards firstRejected).bm = ["ABCDEFGHIJ"] := by
  have h := C12_sweep_postcondition id oneBot oneBot_reachable twoCards firstRejected
  exact ⟨h.1 (by decide), (h.2 (h.1 (by decide))).1, by decide⟩

/-- The loop seen from the card `d` at position `l1.length`: the cards before
it are processed first, then `d`, then the cards after it; and what the
processing of `d` emits is part of the trace of the cycle. -/
theorem cycle_at {bm : BotManager} (hI : Inv bm) (table : Char → Char)
    (gw : Nat → CardGateway) (l1 l2 : List VisitCard) (d : VisitCard)
    (hlen : ∀ vc ∈ l1 ++ d :: l2, 10 ≤ vc.TelegramBotToken.utf8ByteSize) :
    Inv (processCards table gw 0 l1 bm []).bm ∧
    processCards table gw 0 (l1 ++ d :: l2) bm [] =
      processCards table gw (l1.length + 1) l2
        (processCard table (processCards table gw 0 l1 bm []).bm d (gw l1.length)).bm
        ((processCards table gw 0 l1 bm []).trace ++
          (processCard table (processCards table gw 0 l1 bm []).bm d (gw l1.length)).trace) ∧
    (∀ eff ∈ (processCard table (processCards table gw 0 l1 bm []).bm d (gw l1.length)).trace,
      eff ∈ (syncCycle table bm (l1 ++ d :: l2) gw).trace) := by
  have hl1 : ∀ vc ∈ l1, 10 ≤ vc.TelegramBotToken.utf8ByteSize :=
    fun vc hvc => hlen vc (List.mem_append_left _ hvc)
  have hd : sliceOK d.TelegramBotToken = true :=
    (sliceOK_iff _).2 (hlen d (List.mem_append_right _ (List.mem_cons_self _ _)))
  have hl2 : ∀ vc ∈ l2, 10 ≤ vc.TelegramBotToken.utf8ByteSize :=
    fun vc hvc => hlen vc (List.mem_append_right _ (List.mem_cons_of_mem _ hvc))
  obtain ⟨a1, a2, _⟩ := processCards_general table gw l1 0 bm [] hI hl1
  obtain ⟨q1, q2, _⟩ := processCard_general a2 table d (gw l1.length) hd
  have hsplit : processCards table gw 0 (l1 ++ d :: l2) bm [] =
      processCards table gw (l1.length + 1) l2
        (processCard table (processCards table gw 0 l1 bm []).bm d (gw l1.length)).bm
        ((processCards table gw 0 l1 bm []).trace ++
          (processCard table (processCards table gw 0 l1 bm []).bm d (gw l1.length)).trace) := by
    rw [processCards_append table gw l1 (d :: l2) 0 bm [] a1]
    simp only [Nat.zero_add, processCards, q1]
  refine ⟨a2, hsplit, ?_⟩
  intro eff heff
  obtain ⟨heq, hts, m2, _, _⟩ := syncCycle_eq hI table (l1 ++ d :: l2) gw hlen
  obtain ⟨more, hmore, _⟩ := sweep_trace (l1 ++ d :: l2)
    (GetRunningBots (processCards table gw 0 (l1 ++ d :: l2) bm []).bm)
    (processCards table gw 0 (l1 ++ d :: l2) bm []).bm
    (processCards table gw 0 (l1 ++ d :: l2) bm []).trace hts m2
  obtain ⟨_, _, _, _, more2, hmore2, _⟩ := processCards_general table gw l2 (l1.length + 1)
    (processCard table (processCards table gw 0 l1 bm []).bm d (gw l1.length)).bm
    ((processCards table gw 0 l1 bm []).trace ++
      (processCard table (processCards table gw 0 l1 bm []).bm d (gw l1.length)).trace) q2 hl2
  rw [heq, hmore, hsplit, hmore2]
  exact List.mem_append_left _ (List.mem_append_left _ (List.mem_append_right _ heff))

/-- What a cycle over fetched tokens of at least ten bytes emits as store
updates and registry calls. -/
theorem syncCycle_trace {bm : BotManager} (hI : Inv bm) (table : Char → Char)
    (D : List VisitCard) (gw : Nat → CardGateway)
    (hlen : ∀ vc ∈ D, 10 ≤ vc.TelegramBotToken.utf8ByteSize) :
    ∀ eff ∈ (syncCycle table bm D gw).trace,
      (∃ j v, D[j]? = some v ∧ MayEmit table v (gw j) eff) ∨ eff.isCall = false ∨
      ∃ t, eff = Effect.callStopBot t ∧ ∀ vc ∈ D, vc.TelegramBotToken ≠ t := by
  obtain ⟨heq, hts, m2, _, _⟩ := syncCycle_eq hI table D gw hlen
  obtain ⟨more, hmore, hm⟩ := sweep_trace D
    (GetRunningBots (processCards table gw 0 D bm []).bm)
    (processCards table gw 0 D bm []).bm (processCards table gw 0 D bm []).trace hts m2
  obtain ⟨_, _, _, _, more2, hmore2, hm2⟩ := processCards_general table gw D 0 bm [] hI hlen
  intro eff heff
  rw [heq, hmore, hmore2] at heff
  rcases List.mem_append.1 heff with hh | hh
  · have hh' : eff ∈ more2 := by simpa using hh
    obtain ⟨j, v, hj, hv⟩ := hm2 eff hh'
    exact Or.inl ⟨j, v, hj, by simpa using hv⟩
  · exact Or.inr (hm eff hh)

theorem split_unique {l1 l2 : List VisitCard} {d v : VisitCard} {j : Nat}
    (hj : (l1 ++ d :: l2)[j]? = some v) (hv : v ∉ l1 ++ l2) : j = l1.length ∧ v = d := by
  rcases getElem?_split l1 l2 d v j hj with h1 | h1 | h1
  · exact absurd (List.mem_append_left _ h1) hv
  · exact h1
  · exact absurd (List.mem_append_right _ h1) hv

/-- C13, as stated, fails: cards 1 and 2 carry the same token; the validation
of card 1 is answered with "Bad Gateway", which `isNetworkError` classifies
as permanent, the validation of card 2 succeeds.  Card 1 is marked invalid,
yet at the end of the cycle its token is running, for card 2. -/
theorem C13_counterexample :
    Reachable NewBotManager ∧
    fetchVisitCards duplicateRows = duplicateRows ∧
    duplicateRows[0]? = some (card 1 "1234567890") ∧
    permanentFailure id (card 1 "1234567890") (firstBadGateway 0) = true ∧
    (syncCycle id NewBotManager duplicateRows firstBadGateway).ret = Ret.ok ∧
    Effect.storeUpdate 1 false "Token validation failed: Bad Gateway"
      ∈ (syncCycle id NewBotManager duplicateRows firstBadGateway).trace ∧
    mapGet (syncCycle id NewBotManager duplicateRows firstBadGateway).bm.botsByToken
      "1234567890" = some ⟨0, 2, "1234567890"⟩ :=
  ⟨Reachable.init, by decide, by decide, by decide, by decide, by decide, by decide⟩

/-- C13, amended (permanent validation failure in a cycle): from a reachable
registry state, for fetched cards with tokens of at least ten bytes and a
card `d` among them whose token no other fetched card carries and whose
validation fails with an error text that `isNetworkError` classifies as
permanent, the cycle runs to its end, issues the store update
`(d.ID, token_valid = false, "Token validation failed: " + error text)`,
calls `StopBot(d.token)`, calls `StartBot` with `d`'s token for no card, and
at its end no instance runs `d`'s token; when `d` is the only fetched card,
nothing is running at the end. -/
theorem C13_permanent_failure (table : Char → Char) (bm : BotManager) (h : Reachable bm)
    (l1 l2 : List VisitCard) (d : VisitCard) (gw : Nat → CardGateway)
    (hlen : ∀ vc ∈ l1 ++ d :: l2, 10 ≤ vc.TelegramBotToken.utf8ByteSize)
    (huniq : ∀ vc ∈ l1 ++ l2, vc.TelegramBotToken ≠ d.TelegramBotToken)
    (hperm : permanentFailure table d (gw l1.length) = true) :
    ∃ errStr, validationError table d (gw l1.length) = some errStr ∧
      isNetworkError table errStr = false ∧
      (syncCycle table bm (l1 ++ d :: l2) gw).ret = Ret.ok ∧
      Effect.storeUpdate d.ID false ("Token validation failed: " ++ errStr)
        ∈ (syncCycle table bm (l1 ++ d :: l2) gw).trace ∧
      Effect.callStopBot d.TelegramBotToken ∈ (syncCycle table bm (l1 ++ d :: l2) gw).trace ∧
      (∀ e res, Effect.callStartBot d.TelegramBotToken e res
        ∉ (syncCycle table bm (l1 ++ d :: l2) gw).trace) ∧
      mapGet (syncCycle table bm (l1 ++ d :: l2) gw).bm.botsByToken d.TelegramBotToken = none ∧
      (l1 = [] → l2 = [] →
        (syncCycle table bm (l1 ++ d :: l2) gw).bm.botsByCard = [] ∧
        (syncCycle table bm (l1 ++ d :: l2) gw).bm.botsByToken = []) := by
  have hI := h.inv
  have hd : sliceOK d.TelegramBotToken = true :=
    (sliceOK_iff _).2 (hlen d (List.mem_append_right _ (List.mem_cons_self _ _)))
  obtain ⟨c1, _, c3⟩ := cycle_at hI table gw l1 l2 d hlen
  obtain ⟨_, t2, _⟩ := processCard_trace c1 table d (gw l1.length) hd
  obtain ⟨errStr, hv, hn, hupd, hstop⟩ := t2 hperm
  have hvalid := running_tokens_valid hI table (l1 ++ d :: l2) gw hlen
  have honly : ∀ j v, (l1 ++ d :: l2)[j]? = some v →
      v.TelegramBotToken = d.TelegramBotToken → j = l1.length ∧ v = d :=
    fun j v hj hvt => split_unique hj (fun hmem => huniq v hmem hvt)
  have hnone : ∀ t, t = d.TelegramBotToken →
      mapGet (syncCycle table bm (l1 ++ d :: l2) gw).bm.botsByToken t = none := by
    intro t ht
    cases hb : mapGet (syncCycle table bm (l1 ++ d :: l2) gw).bm.botsByToken t with
    | none => rfl
    | some inst =>
      exfalso
      obtain ⟨j, v, hj, hvt, hp⟩ := hvalid t inst hb
      obtain ⟨e1, e2⟩ := honly j v hj (by rw [hvt, ht])
      rw [e1, e2, hperm] at hp
      exact Bool.noConfusion hp
  refine ⟨errStr, hv, hn, (syncCycle_ret_ok hI table _ gw).2 hlen, c3 _ hupd, c3 _ hstop,
    ?_, hnone _ rfl, ?_⟩
  · intro e res hmem
    rcases syncCycle_trace hI table _ gw hlen _ hmem with ⟨j, v, hj, hm⟩ | hc | ⟨t, ht, _⟩
    · obtain ⟨m1, _, m3⟩ := hm
      obtain ⟨e1, e2⟩ := honly j v hj m1.symm
      rw [e1, e2, hperm] at m3
      exact Bool.noConfusion m3
    · simp [Effect.isCall] at hc
    · exact Effect.noConfusion ht
  · intro h1 h2
    have hall : ∀ t, mapGet (syncCycle table bm (l1 ++ d :: l2) gw).bm.botsByToken t = none := by
      intro t
      cases hb : mapGet (syncCycle table bm (l1 ++ d :: l2) gw).bm.botsByToken t with
      | none => rfl
      | some inst =>
        exfalso
        obtain ⟨j, v, hj, hvt, hp⟩ := hvalid t inst hb
        have hvd : v = d := by
          rcases getElem?_split l1 l2 d v j hj with g1 | g1 | g1
          · rw [h1] at g1; simp at g1
          · exact g1.2
          · rw [h2] at g1; simp at g1
        have hjl : j = l1.length := by
          rcases getElem?_split l1 l2 d v j hj with g1 | g1 | g1
          · rw [h1] at g1; simp at g1
          · exact g1.1
          · rw [h2] at g1; simp at g1
        rw [hjl, hvd, hperm] at hp
        exact Bool.noConfusion hp
    obtain ⟨_, _, _, hres, _⟩ := syncCycle_eq hI table (l1 ++ d :: l2) gw hlen
    refine ⟨mapGet_none_eq_nil _ ?_, mapGet_none_eq_nil _ hall⟩
    intro e
    cases hb : mapGet (syncCycle table bm (l1 ++ d :: l2) gw).bm.botsByCard e with
    | none => rfl
    | some inst =>
      have := (hres.card_token e inst hb).2
      rw [hall] at this
      exact Option.noConfusion this

theorem C13_permanent_failure_witness :
    ∃ errStr, validationError id (card 1 "1234567890") (firstRejected 0) = some errStr ∧
      isNetworkError id errStr = false ∧
      (syncCycle id oneBot ([] ++ card 1 "1234567890" :: []) firstRejected).ret = Ret.ok ∧
      Effect.storeUpdate 1 false ("Token validation failed: " ++ errStr)
        ∈ (syncCycle id oneBot ([] ++ card 1 "1234567890" :: []) firstRejected).trace ∧
      Effect.callStopBot "1234567890"
        ∈ (syncCycle id oneBot ([] ++ card 1 "1234567890" :: []) firstRejected).trace ∧
      mapGet (syncCycle id oneBot ([] ++ card 1 "1234567890" :: []) firstRejected).bm.botsByToken
        "1234567890" = none ∧
      (syncCycle id oneBot ([] ++ card 1 "1234567890" :: []) firstRejected).bm.botsByCard = [] ∧
      (syncCycle id oneBot ([] ++ card 1 "1234567890" :: []) firstRejected).bm.botsByToken
        = [] := by
  obtain ⟨errStr, h1, h2, h3, h4, h5, _, h7, h8⟩ :=
    C13_permanent_failure id oneBot oneBot_reachable [] [] (card 1 "1234567890") firstRejected
      (by decide) (by simp) (by decide)
  exact ⟨errStr, h1, h2, h3, h4, h5, h7, h8 rfl rfl⟩

theorem transientFailure_spec (table : Char → Char) (vc : VisitCard) (cg : CardGateway)
    (h : transientFailure table vc cg = true) :
    permanentFailure table vc cg = false ∧
    ∃ errStr, validationError table vc cg = some errStr ∧ isNetworkError table errStr = true := by
  unfold transientFailure at h
  unfold permanentFailure
  cases hv : validationError table vc cg with
  | none => simp [hv] at h
  | some e =>
    simp only [hv] at h
    exact ⟨by simp [h], e, rfl, h⟩

/-- C14, as stated, fails: card 1 runs "1234567890" and card 2 carries the
same token; the validation of card 1 times out (transient), that of card 2
is rejected as "Unauthorized" (permanent).  The `StopBot` issued for card 2
stops the instance of card 1, which is not running at the end of the cycle. -/
theorem C14_counterexample :
    Reachable oneBot ∧
    fetchVisitCards duplicateRows = duplicateRows ∧
    duplicateRows[0]? = some (card 1 "1234567890") ∧
    transientFailure id (card 1 "1234567890") (secondRejected 0) = true ∧
    mapGet oneBot.botsByCard 1 = some ⟨0, 1, "1234567890"⟩ ∧
    (syncCycle id oneBot duplicateRows secondRejected).ret = Ret.ok ∧
    Effect.stopWorker 0 ∈ (syncCycle id oneBot duplicateRows secondRejected).trace ∧
    mapGet (syncCycle id oneBot duplicateRows secondRejected).bm.botsByCard 1 = none :=
  ⟨oneBot_reachable, by decide, by decide, by decide, by decide, by decide, by decide,
    by decide⟩

/-- C14, amended (transient validation failure in a cycle): from a reachable
registry state, for fetched cards with tokens of at least ten bytes and a
card `d` among them whose id and token no other fetched card carries and
whose validation fails with an error text that `isNetworkError` classifies
as transient, the cycle runs to its end, issues no validity update for `d`,
does not call `StopBot` for `d`'s token, and performs the ensure-running
step for `d` (it calls `StartBot(d.token, d.ID)` unless that instance was
running already); an instance that was running for `(d.ID, d.token)` before
the cycle is bound in both maps, as the same instance, after it. -/
theorem C14_transient_failure (table : Char → Char) (bm : BotManager) (h : Reachable bm)
    (l1 l2 : List VisitCard) (d : VisitCard) (gw : Nat → CardGateway)
    (hlen : ∀ vc ∈ l1 ++ d :: l2, 10 ≤ vc.TelegramBotToken.utf8ByteSize)
    (huniq : ∀ vc ∈ l1 ++ l2, vc.TelegramBotToken ≠ d.TelegramBotToken)
    (hid : ∀ vc ∈ l1 ++ l2, vc.ID ≠ d.ID)
    (htrans : transientFailure table d (gw l1.length) = true) :
    (syncCycle table bm (l1 ++ d :: l2) gw).ret = Ret.ok ∧
    (∀ valid msg, Effect.storeUpdate d.ID valid msg
      ∉ (syncCycle table bm (l1 ++ d :: l2) gw).trace) ∧
    Effect.callStopBot d.TelegramBotToken ∉ (syncCycle table bm (l1 ++ d :: l2) gw).trace ∧
    ((∃ inst, mapGet bm.botsByCard d.ID = some inst ∧ inst.token = d.TelegramBotToken) ∨
      ∃ res, Effect.callStartBot d.TelegramBotToken d.ID res
        ∈ (syncCycle table bm (l1 ++ d :: l2) gw).trace) ∧
    (∀ inst, mapGet bm.botsByCard d.ID = some inst → inst.token = d.TelegramBotToken →
      mapGet (syncCycle table bm (l1 ++ d :: l2) gw).bm.botsByCard d.ID = some inst ∧
      mapGet (syncCycle table bm (l1 ++ d :: l2) gw).bm.botsByToken d.TelegramBotToken
        = some inst) := by
  have hI := h.inv
  obtain ⟨hnp, errStr, hv, hnet⟩ := transientFailure_spec table d (gw l1.length) htrans
  have hl1 : ∀ vc ∈ l1, 10 ≤ vc.TelegramBotToken.utf8ByteSize :=
    fun vc hvc => hlen vc (List.mem_append_left _ hvc)
  have hd : sliceOK d.TelegramBotToken = true :=
    (sliceOK_iff _).2 (hlen d (List.mem_append_right _ (List.mem_cons_self _ _)))
  have hl2 : ∀ vc ∈ l2, 10 ≤ vc.TelegramBotToken.utf8ByteSize :=
    fun vc hvc => hlen vc (List.mem_append_right _ (List.mem_cons_of_mem _ hvc))
  obtain ⟨c1, c2, c3⟩ := cycle_at hI table gw l1 l2 d hlen
  obtain ⟨_, _, a3, a4, _⟩ := processCards_general table gw l1 0 bm [] hI hl1
  obtain ⟨_, q2, _, _, q5, _⟩ := processCard_general c1 table d (gw l1.length) hd
  obtain ⟨_, _, t3⟩ := processCard_trace c1 table d (gw l1.length) hd
  obtain ⟨_, _, _, r4, _⟩ := processCards_general table gw l2 (l1.length + 1)
    (processCard table (processCards table gw 0 l1 bm []).bm d (gw l1.length)).bm
    ((processCards table gw 0 l1 bm []).trace ++
      (processCard table (processCards table gw 0 l1 bm []).bm d (gw l1.length)).trace) q2 hl2
  obtain ⟨heq, hts, m2, hres, _⟩ := syncCycle_eq hI table (l1 ++ d :: l2) gw hlen
  obtain ⟨_, _, _, b4, _⟩ := sweep_spec (l1 ++ d :: l2)
    (GetRunningBots (processCards table gw 0 (l1 ++ d :: l2) bm []).bm)
    (processCards table gw 0 (l1 ++ d :: l2) bm []).bm
    (processCards table gw 0 (l1 ++ d :: l2) bm []).trace hts m2
  have honlyT : ∀ j v, (l1 ++ d :: l2)[j]? = some v →
      v.TelegramBotToken = d.TelegramBotToken → j = l1.length ∧ v = d :=
    fun j v hj hvt => split_unique hj (fun hmem => huniq v hmem hvt)
  have honlyI : ∀ j v, (l1 ++ d :: l2)[j]? = some v → v.ID = d.ID → j = l1.length ∧ v = d :=
    fun j v hj hvi => split_unique hj (fun hmem => hid v hmem hvi)
  refine ⟨(syncCycle_ret_ok hI table _ gw).2 hlen, ?_, ?_, ?_, ?_⟩
  · intro valid msg hmem
    rcases syncCycle_trace hI table _ gw hlen _ hmem with ⟨j, v, hj, hm⟩ | hc | ⟨t, ht, _⟩
    · obtain ⟨m1, m2'⟩ := hm
      obtain ⟨e1, e2⟩ := honlyI j v hj m1.symm
      rw [e1, e2] at m2'
      rcases m2' with ⟨_, _, hnone⟩ | ⟨_, e, he, hne, _⟩
      · rw [hv] at hnone
        exact Option.noConfusion hnone
      · rw [hv] at he
        have : errStr = e := Option.some.inj he
        rw [← this, hnet] at hne
        exact Bool.noConfusion hne
    · simp [Effect.isCall] at hc
    · exact Effect.noConfusion ht
  · intro hmem
    rcases syncCycle_trace hI table _ gw hlen _ hmem with ⟨j, v, hj, hm⟩ | hc | ⟨t, ht, hno⟩
    · obtain ⟨m1, m2'⟩ := hm
      obtain ⟨e1, e2⟩ := honlyT j v hj m1.symm
      rw [e1, e2, hnp] at m2'
      exact Bool.noConfusion m2'
    · simp [Effect.isCall] at hc
    · have : d.TelegramBotToken = t := by
        injection ht
      exact hno d (List.mem_append_right _ (List.mem_cons_self _ _)) this
  · by_cases hex : ∃ inst, mapGet (processCards table gw 0 l1 bm []).bm.botsByCard d.ID
        = some inst ∧ inst.token = d.TelegramBotToken
    · obtain ⟨inst, hi, ht⟩ := hex
      obtain ⟨g1, g2⟩ := c1.card_token d.ID inst hi
      rw [ht] at g2
      rcases a3 _ inst g2 with ⟨j, v, hj, hvt, _⟩ | ⟨hb, _⟩
      · exact absurd hvt (huniq v (List.mem_append_left _ (List.getElem?_mem hj)))
      · left
        have := (hI.token_card _ inst hb).2
        rw [g1] at this
        exact ⟨inst, this, ht⟩
    · right
      obtain ⟨res, hres'⟩ := t3 hnp (fun inst hi ht => hex ⟨inst, hi, ht⟩)
      exact ⟨res, c3 _ hres'⟩
  · intro inst hi ht
    have h1 : mapGet (processCards table gw 0 l1 bm []).bm.botsByCard d.ID = some inst := by
      apply a4 d.ID inst hi
      intro v hv'
      exact ⟨hid v (List.mem_append_left _ hv'),
        by rw [ht]; exact huniq v (List.mem_append_left _ hv')⟩
    have h2 := q5 hnp inst h1 ht
    have h3 : mapGet (processCards table gw 0 (l1 ++ d :: l2) bm []).bm.botsByCard d.ID
        = some inst := by
      rw [c2]
      apply r4 d.ID inst h2
      intro v hv'
      exact ⟨hid v (List.mem_append_right _ hv'),
        by rw [ht]; exact huniq v (List.mem_append_right _ hv')⟩
    have h4 : mapGet (syncCycle table bm (l1 ++ d :: l2) gw).bm.botsByCard d.ID = some inst := by
      rw [heq]
      exact b4 d.ID inst h3 ⟨d, List.mem_append_right _ (List.mem_cons_self _ _), ht.symm⟩
    refine ⟨h4, ?_⟩
    have := (hres.card_token d.ID inst h4).2
    rw [ht] at this
    exact this

theorem C14_transient_failure_witness :
    (syncCycle id oneBot ([] ++ card 1 "1234567890" :: [card 2 "ABCDEFGHIJ"]) firstTimesOut).ret
      = Ret.ok ∧
    (∀ valid msg, Effect.storeUpdate 1 valid msg
      ∉ (syncCycle id oneBot ([] ++ card 1 "1234567890" :: [card 2 "ABCDEFGHIJ"])
          firstTimesOut).trace) ∧
    mapGet (syncCycle id oneBot ([] ++ card 1 "1234567890" :: [card 2 "ABCDEFGHIJ"])
        firstTimesOut).bm.botsByCard 1 = some ⟨0, 1, "1234567890"⟩ := by
  have h := C14_transient_failure id oneBot oneBot_reachable [] [card 2 "ABCDEFGHIJ"]
    (card 1 "1234567890") firstTimesOut (by decide) (by decide) (by decide) (by decide)
  exact ⟨h.1, h.2.1, (h.2.2.2.2 ⟨0, 1, "1234567890"⟩ (by decide) rfl).1⟩

/-- C15, as stated, fails: card 1 runs "1234567890"; the desired set gives
card 1 the new token "abcdefghij" (authenticating, bound to no card) and
gives the old token to card 2.  After the cycle card 1 runs the new token,
but an instance is bound to the old token, for card 2. -/
theorem C15_counterexample :
    Reachable oneBot ∧
    mapGet oneBot.botsByCard 1 = some ⟨0, 1, "1234567890"⟩ ∧
    mapGet oneBot.botsByToken "abcdefghij" = none ∧
    fetchVisitCards handedOverRows = handedOverRows ∧
    (syncCycle id oneBot handedOverRows allAuthenticate).ret = Ret.ok ∧
    mapGet (syncCycle id oneBot handedOverRows allAuthenticate).bm.botsByCard 1
      = some ⟨1, 1, "abcdefghij"⟩ ∧
    mapGet (syncCycle id oneBot handedOverRows allAuthenticate).bm.botsByToken "1234567890"
      = some ⟨2, 2, "1234567890"⟩ :=
  ⟨oneBot_reachable, by decide, by decide, by decide, by decide, by decide, by decide⟩

/-- C15, amended (credential replacement): from a reachable registry state in
which card `d.ID` runs the token `i1.token`, for fetched cards with tokens
of at least ten bytes among which `d` carries another token that
authenticates and is bound to no card, no other fetched card carrying `d`'s
id, `d`'s token or the old token, the cycle runs to its end; afterwards no
instance is bound to the old token and card `d.ID` is bound to one
instance, with `d`'s token, which is the only instance of that card. -/
theorem C15_credential_replacement (table : Char → Char) (bm : BotManager) (h : Reachable bm)
    (l1 l2 : List VisitCard) (d : VisitCard) (i1 : BotInstance) (gw : Nat → CardGateway)
    (hrun : mapGet bm.botsByCard d.ID = some i1)
    (hne : d.TelegramBotToken ≠ i1.token)
    (hfree : mapGet bm.botsByToken d.TelegramBotToken = none)
    (hgw : gw l1.length = ⟨⟨none, none⟩, ⟨none, none⟩⟩)
    (hlen : ∀ vc ∈ l1 ++ d :: l2, 10 ≤ vc.TelegramBotToken.utf8ByteSize)
    (hothers : ∀ vc ∈ l1 ++ l2, vc.ID ≠ d.ID ∧ vc.TelegramBotToken ≠ d.TelegramBotToken ∧
      vc.TelegramBotToken ≠ i1.token) :
    (syncCycle table bm (l1 ++ d :: l2) gw).ret = Ret.ok ∧
    mapGet (syncCycle table bm (l1 ++ d :: l2) gw).bm.botsByToken i1.token = none ∧
    ∃ inst, inst.token = d.TelegramBotToken ∧ inst.visitCardID = d.ID ∧
      mapGet (syncCycle table bm (l1 ++ d :: l2) gw).bm.botsByCard d.ID = some inst ∧
      mapGet (syncCycle table bm (l1 ++ d :: l2) gw).bm.botsByToken d.TelegramBotToken
        = some inst ∧
      ∀ t other, mapGet (syncCycle table bm (l1 ++ d :: l2) gw).bm.botsByToken t = some other →
        other.visitCardID = d.ID → other = inst := by
  have hI := h.inv
  have hl1 : ∀ vc ∈ l1, 10 ≤ vc.TelegramBotToken.utf8ByteSize :=
    fun vc hvc => hlen vc (List.mem_append_left _ hvc)
  have hdl : 10 ≤ d.TelegramBotToken.utf8ByteSize :=
    hlen d (List.mem_append_right _ (List.mem_cons_self _ _))
  have hl2 : ∀ vc ∈ l2, 10 ≤ vc.TelegramBotToken.utf8ByteSize :=
    fun vc hvc => hlen vc (List.mem_append_right _ (List.mem_cons_of_mem _ hvc))
  obtain ⟨c1, c2, _⟩ := cycle_at hI table gw l1 l2 d hlen
  obtain ⟨_, _, a3, a4, _⟩ := processCards_general table gw l1 0 bm [] hI hl1
  -- the registry when `d` is processed
  have hb1 : mapGet (processCards table gw 0 l1 bm []).bm.botsByCard d.ID = some i1 := by
    apply a4 d.ID i1 hrun
    intro v hv
    have := hothers v (List.mem_append_left _ hv)
    exact ⟨this.1, this.2.2⟩
  have hf1 : mapGet (processCards table gw 0 l1 bm []).bm.botsByToken d.TelegramBotToken
      = none := by
    cases hb : mapGet (processCards table gw 0 l1 bm []).bm.botsByToken d.TelegramBotToken with
    | none => rfl
    | some inst =>
      exfalso
      rcases a3 _ inst hb with ⟨j, v, hj, hvt, _⟩ | ⟨hb0, _⟩
      · exact (hothers v (List.mem_append_left _ (List.getElem?_mem hj))).2.1 hvt
      · rw [hfree] at hb0
        exact Option.noConfusion hb0
  -- the step for `d`
  obtain ⟨pre, hpc⟩ := processCard_authenticated table (processCards table gw 0 l1 bm []).bm d hdl
  rw [hgw, hpc] at c2
  obtain ⟨_, s2, ⟨j, hj, hjt⟩, _, s5⟩ := ensureRunning_spec c1 d pre hdl
    (fun inst hb => by rw [hf1] at hb; exact Option.noConfusion hb)
  have hjv : j.visitCardID = d.ID := (s2.card_token d.ID j hj).1
  have hc1 : mapGet (ensureRunning (processCards table gw 0 l1 bm []).bm d ⟨none, none⟩ pre).bm.botsByToken
      i1.token = none := by
    cases hb : mapGet (ensureRunning (processCards table gw 0 l1 bm []).bm d
        ⟨none, none⟩ pre).bm.botsByToken i1.token with
    | none => rfl
    | some inst =>
      exfalso
      have g1 := s5 i1.token inst (fun hh => hne hh.symm) hb
      have g2 := (c1.card_token d.ID i1 hb1)
      rw [g2.2] at g1
      have hii : i1 = inst := Option.some.inj g1
      have g3 := (s2.token_card _ inst hb).2
      rw [← hii, g2.1, hj] at g3
      have : j = i1 := Option.some.inj g3
      exact hne (by rw [← hjt, this])
  -- the cards after `d`
  obtain ⟨_, _, r3, r4, _⟩ := processCards_general table gw l2 (l1.length + 1)
    (ensureRunning (processCards table gw 0 l1 bm []).bm d ⟨none, none⟩ pre).bm
    ((processCards table gw 0 l1 bm []).trace ++
      (ensureRunning (processCards table gw 0 l1 bm []).bm d ⟨none, none⟩ pre).trace) s2 hl2
  obtain ⟨heq, hts, m2, hres, hsub⟩ := syncCycle_eq hI table (l1 ++ d :: l2) gw hlen
  obtain ⟨_, _, _, b4, _⟩ := sweep_spec (l1 ++ d :: l2)
    (GetRunningBots (processCards table gw 0 (l1 ++ d :: l2) bm []).bm)
    (processCards table gw 0 (l1 ++ d :: l2) bm []).bm
    (processCards table gw 0 (l1 ++ d :: l2) bm []).trace hts m2
  have hmid : mapGet (processCards table gw 0 (l1 ++ d :: l2) bm []).bm.botsByCard d.ID
      = some j := by
    rw [c2]
    apply r4 d.ID j hj
    intro v hv
    have := hothers v (List.mem_append_right _ hv)
    exact ⟨this.1, by rw [hjt]; exact this.2.1⟩
  have hend : mapGet (syncCycle table bm (l1 ++ d :: l2) gw).bm.botsByCard d.ID = some j := by
    rw [heq]
    exact b4 d.ID j hmid ⟨d, List.mem_append_right _ (List.mem_cons_self _ _), hjt.symm⟩
  refine ⟨(syncCycle_ret_ok hI table _ gw).2 hlen, ?_, j, hjt, hjv, hend, ?_, ?_⟩
  · cases hb : mapGet (syncCycle table bm (l1 ++ d :: l2) gw).bm.botsByToken i1.token with
    | none => rfl
    | some inst =>
      exfalso
      have g1 := hsub _ inst hb
      rw [c2] at g1
      rcases r3 _ inst g1 with ⟨k, v, hk, hvt, _⟩ | ⟨hb0, _⟩
      · exact (hothers v (List.mem_append_right _ (List.getElem?_mem hk))).2.2 hvt
      · rw [hc1] at hb0
        exact Option.noConfusion hb0
  · have := (hres.card_token d.ID j hend).2
    rw [hjt] at this
    exact this
  · intro t other hb hv
    have := (hres.token_card t other hb).2
    rw [hv, hend] at this
    exact (Option.some.inj this).symm

theorem C15_credential_replacement_witness :
    (syncCycle id oneBot ([] ++ card 1 "abcdefghij" :: [card 2 "ABCDEFGHIJ"]) allAuthenticate).ret
      = Ret.ok ∧
    mapGet (syncCycle id oneBot ([] ++ card 1 "abcdefghij" :: [card 2 "ABCDEFGHIJ"])
      allAuthenticate).bm.botsByToken "1234567890" = none ∧
    ∃ inst, inst.token = "abcdefghij" ∧ inst.visitCardID = 1 ∧
      mapGet (syncCycle id oneBot ([] ++ card 1 "abcdefghij" :: [card 2 "ABCDEFGHIJ"])
        allAuthenticate).bm.botsByCard 1 = some inst ∧
      mapGet (syncCycle id oneBot ([] ++ card 1 "abcdefghij" :: [card 2 "ABCDEFGHIJ"])
        allAuthenticate).bm.botsByToken "abcdefghij" = some inst ∧
      ∀ t other, mapGet (syncCycle id oneBot ([] ++ card 1 "abcdefghij" :: [card 2 "ABCDEFGHIJ"])
          allAuthenticate).bm.botsByToken t = some other →
        other.visitCardID = 1 → other = inst :=
  C15_credential_replacement id oneBot oneBot_reachable [] [card 2 "ABCDEFGHIJ"]
    (card 1 "abcdefghij") ⟨0, 1, "1234567890"⟩ allAuthenticate (by decide) (by decide)
    (by decide) rfl (by decide) (by decide)

/-- C16 at a failing input: with the desired set `{1 -> "T1", 2 -> "T1"}` and
the empty registry, the first cycle panics on `vc.TelegramBotToken[:10]`
(line 474) before any gateway or registry call: no card gets an instance
and no `StartBot` call returns the conflict error. -/
theorem C16_short_token_panics :
    fetchVisitCards shortDuplicateRows = shortDuplicateRows ∧
    (syncCycle id NewBotManager shortDuplicateRows allAuthenticate).ret = Ret.panicked ∧
    (syncCycle id NewBotManager shortDuplicateRows allAuthenticate).trace = [] ∧
    mapGet (syncCycle id NewBotManager shortDuplicateRows allAuthenticate).bm.botsByCard 1
      = none ∧
    mapGet (syncCycle id NewBotManager shortDuplicateRows allAuthenticate).bm.botsByCard 2
      = none :=
  ⟨by decide, by decide, by decide, by decide, by decide⟩

/-- C17 at a failing input: with the desired set `{1 -> "T1"}` and the empty
registry, the cycle panics on `vc.TelegramBotToken[:10]` (line 474); card 1
is not running and the count of running bots is 0, not 1. -/
theorem C17_short_token_panics :
    fetchVisitCards shortRows = shortRows ∧
    (syncCycle id NewBotManager shortRows allAuthenticate).ret = Ret.panicked ∧
    mapGet (syncCycle id NewBotManager shortRows allAuthenticate).bm.botsByCard 1 = none ∧
    GetRunningBotCount (syncCycle id NewBotManager shortRows allAuthenticate).bm = 0 ∧
    GetRunningBotCount (syncCycle id NewBotManager shortRows allAuthenticate).bm
      ≠ shortRows.length :=
  ⟨by decide, by decide, by decide, by decide, by decide⟩

/-- C18 at a failing input: the store returns the valid, non-deleted card 1
whose token "T1" is neither empty nor the sentinel; the tick of `syncBots`
panics, whatever the registry calls would have done. -/
theorem C18_cycle_panics :
    fetchVisitCards shortRows = shortRows ∧
    (∀ vc ∈ fetchVisitCards shortRows,
      vc.TelegramBotToken ≠ "" ∧ vc.TelegramBotToken ≠ "token was not valid") ∧
    Reachable NewBotManager ∧
    (syncBots id NewBotManager (Except.ok shortRows) allAuthenticate).ret = Ret.panicked := by
  refine ⟨by decide, ?_, Reachable.init, by decide⟩
  intro vc hvc
  have h : fetchVisitCards shortRows = [card 1 "T1"] := by decide
  rw [h, List.mem_singleton] at hvc
  rw [hvc]
  decide

/-- Convergence from a registry that satisfies the invariant: with pairwise
distinct ids and tokens of at least ten bytes, none running for another
card, and every gateway call authenticating, a cycle completes and the
running bindings are those of the fetched cards. -/
theorem cycle_converges {bm : BotManager} (hI : Inv bm) (table : Char → Char)
    (D : List VisitCard) (gw : Nat → CardGateway)
    (hgw : ∀ i, gw i = ⟨⟨none, none⟩, ⟨none, none⟩⟩)
    (hid : (D.map VisitCard.ID).Nodup)
    (htok : (D.map VisitCard.TelegramBotToken).Nodup)
    (hlen : ∀ vc ∈ D, 10 ≤ vc.TelegramBotToken.utf8ByteSize)
    (hfree : ∀ vc ∈ D, ∀ inst, mapGet bm.botsByToken vc.TelegramBotToken = some inst →
      inst.visitCardID = vc.ID) :
    (syncCycle table bm D gw).ret = Ret.ok ∧
    (∀ e c, (∃ inst, mapGet (syncCycle table bm D gw).bm.botsByCard e = some inst ∧
        inst.token = c) ↔ ∃ vc ∈ D, vc.ID = e ∧ vc.TelegramBotToken = c) ∧
    (∀ e c, (∃ inst, mapGet (syncCycle table bm D gw).bm.botsByToken c = some inst ∧
        inst.visitCardID = e) ↔ ∃ vc ∈ D, vc.ID = e ∧ vc.TelegramBotToken = c) := by
  obtain ⟨a1, a2, a3, a4, _⟩ :=
    processCards_spec table gw hgw D htok hlen D 0 bm [] (fun _ hv => hv) hid hI hfree
  have hts : ∀ t ∈ GetRunningBots (processCards table gw 0 D bm []).bm,
      10 ≤ t.utf8ByteSize := by
    intro t ht
    obtain ⟨v, hv⟩ := (mapGet_isSome_iff_mem _ t).2 ht
    exact a2.token_len t v hv
  obtain ⟨b1, b2, b3, b4, b5⟩ := sweep_spec D
    (GetRunningBots (processCards table gw 0 D bm []).bm)
    (processCards table gw 0 D bm []).bm (processCards table gw 0 D bm []).trace hts a2
  have hcyc : syncCycle table bm D gw =
      sweep D (GetRunningBots (processCards table gw 0 D bm []).bm)
        (processCards table gw 0 D bm []).bm (processCards table gw 0 D bm []).trace := by
    simp only [syncCycle, a1]
  rw [hcyc]
  have hcard : ∀ e c, (∃ inst, mapGet (sweep D
      (GetRunningBots (processCards table gw 0 D bm []).bm)
      (processCards table gw 0 D bm []).bm
      (processCards table gw 0 D bm []).trace).bm.botsByCard e = some inst ∧ inst.token = c) ↔
      ∃ vc ∈ D, vc.ID = e ∧ vc.TelegramBotToken = c := by
    intro e c
    constructor
    · rintro ⟨inst, hi, hc⟩
      have h1 := b3 e inst hi
      obtain ⟨c1, c2⟩ := a2.card_token e inst h1
      have hmem : inst.token ∈ GetRunningBots (processCards table gw 0 D bm []).bm :=
        (mapGet_isSome_iff_mem _ _).1 ⟨inst, c2⟩
      obtain ⟨vc, hvc, hvt⟩ := b5 e inst hi hmem
      refine ⟨vc, hvc, ?_, by rw [hvt, hc]⟩
      have := a3 vc hvc inst (by rw [hvt]; exact c2)
      rw [← this, c1]
    · rintro ⟨vc, hvc, he, hc⟩
      obtain ⟨inst, hi, ht⟩ := a4 vc hvc
      refine ⟨inst, ?_, by rw [ht, hc]⟩
      rw [← he]
      exact b4 vc.ID inst hi ⟨vc, hvc, ht.symm⟩
  refine ⟨b1, hcard, ?_⟩
  intro e c
  rw [← hcard e c]
  constructor
  · rintro ⟨inst, hi, he⟩
    obtain ⟨c1, c2⟩ := b2.token_card c inst hi
    exact ⟨inst, by rw [← he]; exact c2, c1⟩
  · rintro ⟨inst, hi, hc⟩
    obtain ⟨c1, c2⟩ := b2.card_token e inst hi
    exact ⟨inst, by rw [← hc]; exact c2, c1⟩

/-- Cold start with tokens of at least ten bytes: from the empty registry,
for fetched cards with pairwise distinct ids and tokens, every gateway call
authenticating, the cycle completes, the running bindings are those of the
fetched cards and `GetRunningBotCount` is their number. -/
theorem coldStart_ok (table : Char → Char) (D : List VisitCard) (gw : Nat → CardGateway)
    (hgw : ∀ i, gw i = ⟨⟨none, none⟩, ⟨none, none⟩⟩)
    (hid : (D.map VisitCard.ID).Nodup)
    (htok : (D.map VisitCard.TelegramBotToken).Nodup)
    (hlen : ∀ vc ∈ D, 10 ≤ vc.TelegramBotToken.utf8ByteSize) :
    (syncCycle table NewBotManager D gw).ret = Ret.ok ∧
    (∀ e c, (∃ inst, mapGet (syncCycle table NewBotManager D gw).bm.botsByCard e = some inst ∧
        inst.token = c) ↔ ∃ vc ∈ D, vc.ID = e ∧ vc.TelegramBotToken = c) ∧
    GetRunningBotCount (syncCycle table NewBotManager D gw).bm = D.length := by
  have hfree : ∀ vc ∈ D, ∀ inst,
      mapGet NewBotManager.botsByToken vc.TelegramBotToken = some inst →
      inst.visitCardID = vc.ID := by
    intro vc _ inst hb
    simp [NewBotManager, mapGet] at hb
  obtain ⟨h1, h2, h3⟩ := cycle_converges Inv.init table D gw hgw hid htok hlen hfree
  refine ⟨h1, h2, ?_⟩
  obtain ⟨_, _, _, hres, _⟩ := syncCycle_eq Inv.init table D gw hlen
  have hperm : (mapKeys (syncCycle table NewBotManager D gw).bm.botsByToken).Perm
      (D.map VisitCard.TelegramBotToken) := by
    rw [List.perm_ext_iff_of_nodup hres.nodup_token htok]
    intro t
    rw [← mapGet_isSome_iff_mem, List.mem_map]
    constructor
    · rintro ⟨inst, hb⟩
      obtain ⟨vc, hvc, _, hvt⟩ := (h3 inst.visitCardID t).1 ⟨inst, hb, rfl⟩
      exact ⟨vc, hvc, hvt⟩
    · rintro ⟨vc, hvc, hvt⟩
      obtain ⟨inst, hb, _⟩ := (h3 vc.ID t).2 ⟨vc, hvc, rfl, hvt⟩
      exact ⟨inst, hb⟩
  have := hperm.length_eq
  simpa [mapKeys, GetRunningBotCount] using this

/-- The ensure-running step for a card without instance whose token runs
for another card: `StartBot` returns the conflict error, nothing changes. -/
theorem ensureRunning_conflict {b : BotManager} (hI : Inv b) (vc : VisitCard) (g : Gateway)
    (pre : List Effect) (i : BotInstance) (h2 : mapGet b.botsByCard vc.ID = none)
    (hb : mapGet b.botsByToken vc.TelegramBotToken = some i) :
    ensureRunning b vc g pre =
      ⟨b, Ret.ok, pre ++ [Effect.callStartBot vc.TelegramBotToken vc.ID (Ret.err conflictError)]⟩ := by
  have hstart : StartBot b vc.TelegramBotToken vc.ID g = ⟨b, Ret.err conflictError, []⟩ := by
    unfold StartBot
    simp only [h2]
    exact startBotCreate_bound hI hb _ _ _
  unfold ensureRunning
  simp only [h2, Bool.false_eq_true, if_false, hstart]
  simp

/-- One cycle on two cards `v1`, `v2` that carry the same token of at least
ten bytes, every gateway call authenticating: if card `v2` has no instance
and card `v1` runs the token or both are free, then afterwards card `v1`
runs the token, card `v2` has no instance, and the `StartBot` call for `v2`
returned the conflict error. -/
theorem duplicate_step {bm : BotManager} (hI : Inv bm) (table : Char → Char)
    (v1 v2 : VisitCard) (gw : Nat → CardGateway)
    (hgw : ∀ i, gw i = ⟨⟨none, none⟩, ⟨none, none⟩⟩)
    (hsame : v2.TelegramBotToken = v1.TelegramBotToken) (hne : v1.ID ≠ v2.ID)
    (hlen : 10 ≤ v1.TelegramBotToken.utf8ByteSize)
    (h2 : mapGet bm.botsByCard v2.ID = none)
    (h1 : Running bm v1.ID v1.TelegramBotToken ∨
      (mapGet bm.botsByCard v1.ID = none ∧ mapGet bm.botsByToken v1.TelegramBotToken = none)) :
    (syncCycle table bm [v1, v2] gw).ret = Ret.ok ∧
    Inv (syncCycle table bm [v1, v2] gw).bm ∧
    Running (syncCycle table bm [v1, v2] gw).bm v1.ID v1.TelegramBotToken ∧
    mapGet (syncCycle table bm [v1, v2] gw).bm.botsByCard v2.ID = none ∧
    Effect.callStartBot v1.TelegramBotToken v2.ID
        (Ret.err "token already in use by another visit card")
      ∈ (syncCycle table bm [v1, v2] gw).trace := by
  have hD : ∀ vc ∈ [v1] ++ v2 :: [], 10 ≤ vc.TelegramBotToken.utf8ByteSize := by
    intro vc hvc
    have : vc = v1 ∨ vc = v2 := by simpa using hvc
    rcases this with hh | hh
    · rw [hh]; exact hlen
    · rw [hh, hsame]; exact hlen
  have hlen2 : 10 ≤ v2.TelegramBotToken.utf8ByteSize := by rw [hsame]; exact hlen
  obtain ⟨_, c2, c3⟩ := cycle_at hI table gw [v1] [] v2 hD
  -- the first card
  obtain ⟨pre1, hp1⟩ := processCard_authenticated table bm v1 hlen
  have hfree : ∀ inst, mapGet bm.botsByToken v1.TelegramBotToken = some inst →
      inst.visitCardID = v1.ID := by
    intro inst hb
    rcases h1 with ⟨i, hi, ht⟩ | ⟨_, hnone⟩
    · have := (hI.card_token _ i hi)
      rw [ht, hb] at this
      rw [Option.some.inj this.2, this.1]
    · rw [hnone] at hb
      exact Option.noConfusion hb
  obtain ⟨s1, s2, ⟨i, hi, hit⟩, s4, _⟩ := ensureRunning_spec hI v1 pre1 hlen hfree
  have hfirst : processCards table gw 0 [v1] bm [] =
      ⟨(ensureRunning bm v1 ⟨none, none⟩ pre1).bm, Ret.ok,
        (ensureRunning bm v1 ⟨none, none⟩ pre1).trace⟩ := by
    simp only [processCards, hgw, hp1, s1, List.nil_append]
  rw [hfirst] at c2 c3
  simp only [List.length_singleton, hgw] at c2 c3
  -- the second card
  have hv2 : mapGet (ensureRunning bm v1 ⟨none, none⟩ pre1).bm.botsByCard v2.ID = none := by
    rw [s4 v2.ID (fun hh => hne hh.symm)]
    exact h2
  have hbound : mapGet (ensureRunning bm v1 ⟨none, none⟩ pre1).bm.botsByToken
      v2.TelegramBotToken = some i := by
    rw [hsame, ← hit]
    exact (s2.card_token _ i hi).2
  obtain ⟨pre2, hp2⟩ := processCard_authenticated table
    (ensureRunning bm v1 ⟨none, none⟩ pre1).bm v2 hlen2
  have hsecond : ensureRunning (ensureRunning bm v1 ⟨none, none⟩ pre1).bm v2 ⟨none, none⟩ pre2 =
      ⟨(ensureRunning bm v1 ⟨none, none⟩ pre1).bm, Ret.ok,
        pre2 ++ [Effect.callStartBot v2.TelegramBotToken v2.ID (Ret.err conflictError)]⟩ := by
    exact ensureRunning_conflict s2 v2 ⟨none, none⟩ pre2 i hv2 hbound
  rw [hp2, hsecond] at c2 c3
  have hmid : processCards table gw 0 ([v1] ++ v2 :: []) bm [] =
      ⟨(ensureRunning bm v1 ⟨none, none⟩ pre1).bm, Ret.ok,
        (ensureRunning bm v1 ⟨none, none⟩ pre1).trace ++
          (pre2 ++ [Effect.callStartBot v2.TelegramBotToken v2.ID (Ret.err conflictError)])⟩ := by
    rw [c2]
    simp only [processCards]
  obtain ⟨heq, hts, _, hres, _⟩ := syncCycle_eq hI table ([v1] ++ v2 :: []) gw hD
  rw [hmid] at heq hts
  obtain ⟨_, _, b3, b4, _⟩ := sweep_spec ([v1] ++ v2 :: [])
    (GetRunningBots (ensureRunning bm v1 ⟨none, none⟩ pre1).bm)
    (ensureRunning bm v1 ⟨none, none⟩ pre1).bm
    ((ensureRunning bm v1 ⟨none, none⟩ pre1).trace ++
      (pre2 ++ [Effect.callStartBot v2.TelegramBotToken v2.ID (Ret.err conflictError)]))
    hts s2
  have hlist : [v1, v2] = [v1] ++ v2 :: [] := rfl
  rw [hlist]
  refine ⟨(syncCycle_ret_ok hI table _ gw).2 hD, hres, ?_, ?_, ?_⟩
  · refine ⟨i, ?_, hit⟩
    rw [heq]
    exact b4 v1.ID i hi ⟨v1, by simp, hit.symm⟩
  · cases hb : mapGet (syncCycle table bm ([v1] ++ v2 :: []) gw).bm.botsByCard v2.ID with
    | none => rfl
    | some j =>
      rw [heq] at hb
      have := b3 v2.ID j hb
      rw [hv2] at this
      exact Option.noConfusion this
  · apply c3
    rw [hsame]
    simp [conflictError]

/-- Duplicate credential with a token of at least ten bytes: starting from
the empty registry, after every number `n + 1` of cycles on two cards `v1`,
`v2` with different ids and the same authenticating token, card `v1` runs
the token and card `v2` has no instance, and in every cycle the `StartBot`
call for `v2` returns the conflict error. -/
theorem duplicate_credential_ok (table : Char → Char) (v1 v2 : VisitCard)
    (gw : Nat → CardGateway) (hgw : ∀ i, gw i = ⟨⟨none, none⟩, ⟨none, none⟩⟩)
    (hsame : v2.TelegramBotToken = v1.TelegramBotToken) (hne : v1.ID ≠ v2.ID)
    (hlen : 10 ≤ v1.TelegramBotToken.utf8ByteSize) (n : Nat) :
    Running (cyclesFrom table [v1, v2] gw NewBotManager (n + 1)) v1.ID v1.TelegramBotToken ∧
    mapGet (cyclesFrom table [v1, v2] gw NewBotManager (n + 1)).botsByCard v2.ID = none ∧
    (syncCycle table (cyclesFrom table [v1, v2] gw NewBotManager n) [v1, v2] gw).ret = Ret.ok ∧
    Effect.callStartBot v1.TelegramBotToken v2.ID
        (Ret.err "token already in use by another visit card")
      ∈ (syncCycle table (cyclesFrom table [v1, v2] gw NewBotManager n) [v1, v2] gw).trace := by
  have key : ∀ k, Inv (cyclesFrom table [v1, v2] gw NewBotManager k) ∧
      mapGet (cyclesFrom table [v1, v2] gw NewBotManager k).botsByCard v2.ID = none ∧
      (Running (cyclesFrom table [v1, v2] gw NewBotManager k) v1.ID v1.TelegramBotToken ∨
        (mapGet (cyclesFrom table [v1, v2] gw NewBotManager k).botsByCard v1.ID = none ∧
          mapGet (cyclesFrom table [v1, v2] gw NewBotManager k).botsByToken
            v1.TelegramBotToken = none)) := by
    intro k
    induction k with
    | zero => exact ⟨Inv.init, rfl, Or.inr ⟨rfl, rfl⟩⟩
    | succ k ih =>
      obtain ⟨i1, i2, i3⟩ := ih
      obtain ⟨_, d2, d3, d4, _⟩ := duplicate_step i1 table v1 v2 gw hgw hsame hne hlen i2 i3
      exact ⟨d2, d4, Or.inl d3⟩
  obtain ⟨i1, i2, i3⟩ := key n
  obtain ⟨d1, _, d3, d4, d5⟩ := duplicate_step i1 table v1 v2 gw hgw hsame hne hlen i2 i3
  exact ⟨d3, d4, d1, d5⟩

/-! ## Runs of the worker -/

/-- No iteration of the worker loop lowers the cursor. -/
theorem workerStep_cursor_le (table : Char → Char) (w : Worker) (rows : List VisitCard)
    (ev : WorkerEvent) : w.lastUpdateID ≤ (workerStep table w rows ev).worker.lastUpdateID := by
  unfold workerStep
  by_cases hrun : w.running = true
  · simp only [hrun, if_true]
    cases ev with
    | ctxDone => exact le_refl _
    | stopSignal => exact le_refl _
    | tick poll =>
      cases poll with
      | error e =>
        unfold workerTick
        simp only
        split <;> exact le_refl _
      | ok updates =>
        unfold workerTick
        simp only
        rw [foldl_processUpdate_lastUpdateID]
        exact (le_maxUpdateID updates w.lastUpdateID).1
  · simp only [hrun]
    exact le_refl _

theorem workerRun_cursor_le (table : Char → Char) (evs : List WorkerEvent) :
    ∀ (w : Worker) (rows : List VisitCard),
      w.lastUpdateID ≤ (workerRun table w rows evs).worker.lastUpdateID := by
  induction evs with
  | nil => intro w rows; exact le_refl _
  | cons ev rest ih =>
    intro w rows
    exact le_trans (workerStep_cursor_le table w rows ev) (ih _ _)

/-- A run over two sequences of events is the run over the second from where
the first ended. -/
theorem workerRun_append (table : Char → Char) (evs1 evs2 : List WorkerEvent) :
    ∀ (w : Worker) (rows : List VisitCard),
      workerRun table w rows (evs1 ++ evs2) =
        { worker := (workerRun table (workerRun table w rows evs1).worker
            (workerRun table w rows evs1).rows evs2).worker,
          rows := (workerRun table (workerRun table w rows evs1).worker
            (workerRun table w rows evs1).rows evs2).rows,
          effects := (workerRun table w rows evs1).effects ++
            (workerRun table (workerRun table w rows evs1).worker
              (workerRun table w rows evs1).rows evs2).effects } := by
  induction evs1 with
  | nil => intro w rows; simp [workerRun]
  | cons ev rest ih =>
    intro w rows
    have hstep : ∀ es : List WorkerEvent, workerRun table w rows (ev :: es) =
        { worker := (workerRun table (workerStep table w rows ev).worker
            (workerStep table w rows ev).rows es).worker,
          rows := (workerRun table (workerStep table w rows ev).worker
            (workerStep table w rows ev).rows es).rows,
          effects := (workerStep table w rows ev).effects ++
            (workerRun table (workerStep table w rows ev).worker
              (workerStep table w rows ev).rows es).effects } := fun _ => rfl
    rw [List.cons_append, hstep, hstep, ih]
    simp [List.append_assoc]

/-- C21 (cursor monotonicity): a worker starts with `lastUpdateID = 0`; over
every sequence of events of its loop (successful polls with arbitrary
batches, in any order of update ids, failed polls, stop signals), the cursor
is at least 0 and the cursor after a longer run is at least the cursor after
any of its initial parts; indeed no single iteration, from any worker state
and on any table, lowers the cursor. -/
theorem C21_cursor_monotone (table : Char → Char) (visitCardID : Nat) (rows : List VisitCard)
    (evs1 evs2 : List WorkerEvent) :
    (newWorker visitCardID).lastUpdateID = 0 ∧
    0 ≤ (workerRun table (newWorker visitCardID) rows evs1).worker.lastUpdateID ∧
    (workerRun table (newWorker visitCardID) rows evs1).worker.lastUpdateID
      ≤ (workerRun table (newWorker visitCardID) rows (evs1 ++ evs2)).worker.lastUpdateID ∧
    (∀ (w : Worker) (rows' : List VisitCard) (ev : WorkerEvent),
      w.lastUpdateID ≤ (workerStep table w rows' ev).worker.lastUpdateID) := by
  refine ⟨rfl, workerRun_cursor_le table evs1 (newWorker visitCardID) rows, ?_,
    fun w rows' ev => workerStep_cursor_le table w rows' ev⟩
  rw [workerRun_append]
  exact workerRun_cursor_le table evs2 _ _

/-- A worker that has left its loop does nothing, whatever arrives. -/
theorem workerRun_stopped (table : Char → Char) (evs : List WorkerEvent) :
    ∀ (w : Worker) (rows : List VisitCard), w.running = false →
      workerRun table w rows evs = { worker := w, rows := rows, effects := [] } := by
  induction evs with
  | nil => intro w rows _; rfl
  | cons ev rest ih =>
    intro w rows h
    have hs : workerStep table w rows ev = { worker := w, rows := rows, effects := [] } := by
      simp [workerStep, h]
    simp only [workerRun, hs]
    rw [ih w rows h]
    rfl

/-- After the stop and the wait the worker has left its loop, whatever polls
were still processed. -/
theorem stopAndWait_running (table : Char → Char) (inflight : List (Except String (List Update)))
    (viaCtx : Bool) :
    ∀ (w : Worker) (rows : List VisitCard),
      (stopAndWait table w rows inflight viaCtx).worker.running = false := by
  unfold stopAndWait
  induction inflight with
  | nil =>
    intro w rows
    simp only [List.map_nil, List.nil_append, workerRun, workerStep]
    by_cases h : w.running = true
    · simp only [h, if_true]
      cases viaCtx <;> rfl
    · simp only [h]
      simpa using h
  | cons p rest ih =>
    intro w rows
    simp only [List.map_cons, List.cons_append, workerRun]
    exact ih _ _

/-- C23 (post-stop silence): in a reachable registry state `StopBot(c)` for a
bound token `c` returns after it has stopped the worker of the instance that
held `c` and waited for it; whatever the worker state before, whatever polls
it still processed while being stopped and whichever of the two closed
channels it picked, the worker has then left its loop, and for every later
sequence of ticks and poll results, on any table, it takes no step: its
state and the table stay as they are and it has no effect (no poll, no
message sent, no counter update). -/
theorem C23_post_stop_silence (table : Char → Char) (bm : BotManager) (h : Reachable bm)
    (c : String) (inst : BotInstance) (hb : mapGet bm.botsByToken c = some inst)
    (w : Worker) (rows rows' : List VisitCard) (inflight : List (Except String (List Update)))
    (viaCtx : Bool) (later : List WorkerEvent) :
    (StopBot bm c).ret = Ret.ok ∧
    (StopBot bm c).trace = [Effect.stopWorker inst.ptr] ∧
    (stopAndWait table w rows inflight viaCtx).worker.running = false ∧
    workerRun table (stopAndWait table w rows inflight viaCtx).worker rows' later =
      { worker := (stopAndWait table w rows inflight viaCtx).worker, rows := rows',
        effects := [] } := by
  have hstop := stopBotUnlocked_bound h.inv hb
  unfold StopBot
  rw [hstop]
  exact ⟨rfl, rfl, stopAndWait_running table inflight viaCtx w rows,
    workerRun_stopped table later _ rows' (stopAndWait_running table inflight viaCtx w rows)⟩

theorem C23_post_stop_silence_witness :
    (StopBot oneBot "1234567890").ret = Ret.ok ∧
    (StopBot oneBot "1234567890").trace = [Effect.stopWorker 0] ∧
    workerRun id
      (stopAndWait id (newWorker 1) [card 1 "1234567890"]
        [Except.ok [⟨1, some ⟨5, false, ""⟩⟩]] false).worker
      [card 1 "1234567890"] [WorkerEvent.tick (Except.ok [⟨2, some ⟨5, false, ""⟩⟩])] =
      { worker := ⟨1, 1, false⟩, rows := [card 1 "1234567890"], effects := [] } := by
  have h := C23_post_stop_silence id oneBot oneBot_reachable "1234567890" ⟨0, 1, "1234567890"⟩
    (by decide) (newWorker 1) [card 1 "1234567890"] [card 1 "1234567890"]
    [Except.ok [⟨1, some ⟨5, false, ""⟩⟩]] false
    [WorkerEvent.tick (Except.ok [⟨2, some ⟨5, false, ""⟩⟩])]
  refine ⟨h.1, h.2.1, ?_⟩
  rw [h.2.2.2]
  decide

/-! ## The welcome action -/

theorem dbFirst_spec (rows : List VisitCard) (visitCardID : Nat) (vc : VisitCard)
    (h : dbFirst rows visitCardID = some vc) :
    vc.ID = visitCardID ∧ vc.Deleted = false ∧ vc ∈ rows := by
  unfold dbFirst at h
  have h1 := List.find?_some h
  have h2 := List.mem_of_find?_eq_some h
  simp only [Bool.and_eq_true, decide_eq_true_eq, Bool.not_eq_true'] at h1
  exact ⟨h1.1, h1.2, h2⟩

/-- After the column update the query finds the same card with the new count. -/
theorem dbFirst_map_count (count : Nat) (visitCardID : Nat) (vc : VisitCard) :
    ∀ (rows : List VisitCard), dbFirst rows visitCardID = some vc →
      dbFirst (rows.map (fun r =>
          if r.ID = vc.ID ∧ r.Deleted = false then { r with BotViewCount := count } else r))
        visitCardID = some { vc with BotViewCount := count } := by
  intro rows
  induction rows with
  | nil => intro h; simp [dbFirst] at h
  | cons r rest ih =>
    intro h
    have hid := (dbFirst_spec _ _ _ h).1
    unfold dbFirst at h ih ⊢
    rw [List.find?_cons] at h
    rw [List.map_cons, List.find?_cons]
    by_cases hr : (decide (r.ID = visitCardID) && !r.Deleted) = true
    · rw [hr] at h
      have hrv : r = vc := Option.some.inj h
      subst hrv
      simp only [Bool.and_eq_true, decide_eq_true_eq, Bool.not_eq_true'] at hr
      simp [hr.1, hr.2]
    · simp only [Bool.not_eq_true] at hr
      rw [hr] at h
      simp only at h
      have ih' := ih h
      by_cases hc : r.ID = vc.ID ∧ r.Deleted = false
      · exfalso
        rw [hid] at hc
        simp [hc.1, hc.2] at hr
      · simp only [hc, if_false, hr]
        exact ih'

/-- C22, as stated, fails: for a message that is not a command, sent to the
bot of card 1 when card 1 is soft-deleted, `handleMessage` sends the text
"Sorry, there was an error retrieving company information." and no counter
update is issued. -/
theorem C22_counterexample :
    (⟨5, false, ""⟩ : Message).IsCommand = false ∧
    handleMessage [{ card 1 "1234567890" with Deleted := true }] ⟨5, false, ""⟩ 1 =
      ([{ card 1 "1234567890" with Deleted := true }],
        [WorkerEffect.sendMessage 5
          "Sorry, there was an error retrieving company information."]) ∧
    (∀ n, WorkerEffect.updateBotViewCount 1 n ∉
      (handleMessage [{ card 1 "1234567890" with Deleted := true }] ⟨5, false, ""⟩ 1).2) := by
  refine ⟨rfl, by decide, ?_⟩
  intro n hn
  have h : (handleMessage [{ card 1 "1234567890" with Deleted := true }] ⟨5, false, ""⟩ 1).2 =
      [WorkerEffect.sendMessage 5
        "Sorry, there was an error retrieving company information."] := by decide
  rw [h] at hn
  simp at hn

/-- C22, amended (welcome action): an update whose message is not a command
is dispatched to `handleMessage`.  When the store finds the card (it exists
and is not soft-deleted), `handleMessage` issues one counter update and then
sends exactly one message to the chat: a photo of `LogoURL` with the caption
Title + "\n\n" + Description when `LogoURL` is non-empty, otherwise a text
message with that content; the stored `bot_view_count` of the card becomes
the old count plus one in 64-bit unsigned arithmetic (the old count plus one
below 2^64 - 1), no row is added or removed and the rows of other cards are
unchanged.  When the store does not find the card, `handleMessage` sends
only the error text and changes nothing. -/
theorem C22_welcome_action (rows : List VisitCard) (message : Message) (visitCardID : Nat)
    (st : WorkerStep) (update : Update) :
    (update.Msg = some message → message.IsCommand = false →
      (processUpdate st update).rows
        = (handleMessage st.rows message st.worker.visitCardID).1 ∧
      (processUpdate st update).effects
        = st.effects ++ (handleMessage st.rows message st.worker.visitCardID).2) ∧
    (∀ vc, dbFirst rows visitCardID = some vc →
      (handleMessage rows message visitCardID).2 =
        [WorkerEffect.updateBotViewCount visitCardID ((vc.BotViewCount + 1) % 2 ^ 64),
         if vc.LogoURL ≠ "" then
           WorkerEffect.sendPhoto message.ChatID vc.LogoURL
             (vc.Title ++ "\n\n" ++ vc.Description)
         else WorkerEffect.sendMessage message.ChatID (vc.Title ++ "\n\n" ++ vc.Description)] ∧
      dbFirst (handleMessage rows message visitCardID).1 visitCardID =
        some { vc with BotViewCount := (vc.BotViewCount + 1) % 2 ^ 64 } ∧
      (vc.BotViewCount + 1 < 2 ^ 64 →
        (vc.BotViewCount + 1) % 2 ^ 64 = vc.BotViewCount + 1) ∧
      (handleMessage rows message visitCardID).1.length = rows.length ∧
      (∀ r ∈ rows, r.ID ≠ visitCardID → r ∈ (handleMessage rows message visitCardID).1)) ∧
    (dbFirst rows visitCardID = none →
      handleMessage rows message visitCardID =
        (rows, [WorkerEffect.sendMessage message.ChatID
          "Sorry, there was an error retrieving company information."])) := by
  refine ⟨?_, ?_, ?_⟩
  · intro hm hc
    unfold processUpdate
    simp [hm, hc]
  · intro vc hvc
    obtain ⟨hid, hdel, hmem⟩ := dbFirst_spec rows visitCardID vc hvc
    have hrows : (handleMessage rows message visitCardID).1 =
        rows.map (fun r =>
          if r.ID = vc.ID ∧ r.Deleted = false then
            { r with BotViewCount := (vc.BotViewCount + 1) % 2 ^ 64 } else r) := by
      unfold handleMessage sendWelcomeMessage incrementBotView
      simp only [hvc]
      split <;> rfl
    have heff : (handleMessage rows message visitCardID).2 =
        [WorkerEffect.updateBotViewCount visitCardID ((vc.BotViewCount + 1) % 2 ^ 64),
         if vc.LogoURL ≠ "" then
           WorkerEffect.sendPhoto message.ChatID vc.LogoURL
             (vc.Title ++ "\n\n" ++ vc.Description)
         else WorkerEffect.sendMessage message.ChatID
           (vc.Title ++ "\n\n" ++ vc.Description)] := by
      unfold handleMessage sendWelcomeMessage incrementBotView
      simp only [hvc, hid]
      split <;> rfl
    refine ⟨heff, ?_, fun hlt => Nat.mod_eq_of_lt hlt, ?_, ?_⟩
    · rw [hrows]
      exact dbFirst_map_count _ visitCardID vc rows hvc
    · rw [hrows, List.length_map]
    · intro r hr hne
      rw [hrows, List.mem_map]
      refine ⟨r, hr, ?_⟩
      have : ¬ (r.ID = vc.ID ∧ r.Deleted = false) := fun hh => hne (hh.1.trans hid)
      simp only [this, if_false]
  · intro hnone
    unfold handleMessage sendWelcomeMessage
    simp only [hnone]

theorem C22_welcome_action_witness :
    (handleMessage [{ card 1 "1234567890" with Title := "Acme", Description := "Tools" }]
        ⟨5, false, ""⟩ 1).2 =
      [WorkerEffect.updateBotViewCount 1 1, WorkerEffect.sendMessage 5 "Acme\n\nTools"] ∧
    dbFirst (handleMessage [{ card 1 "1234567890" with Title := "Acme", Description := "Tools" }]
        ⟨5, false, ""⟩ 1).1 1 =
      some { card 1 "1234567890" with
        Title := "Acme", Description := "Tools", BotViewCount := 1 } := by
  have h := (C22_welcome_action
    [{ card 1 "1234567890" with Title := "Acme", Description := "Tools" }] ⟨5, false, ""⟩ 1
    ⟨newWorker 1, [], []⟩ ⟨1, none⟩).2.1
    { card 1 "1234567890" with Title := "Acme", Description := "Tools" } (by decide)
  exact ⟨h.1.trans (by decide), h.2.1.trans (by decide)⟩

/-! ## The profile handler -/

/-- C24 fails in the code: the only user is an ordinary user with id 1;
`UpdateProfile`, called by that user with the role "admin" in the body,
answers 200 and stores the user with the admin role. -/
theorem C24_role_escalation :
    userFirst [plainUser] 1 = some plainUser ∧
    plainUser.Role = UserRole ∧ plainUser.Role ≠ AdminRole ∧
    UpdateProfile [plainUser] 1 (some ⟨"U", "", "admin"⟩) none =
      ([{ plainUser with Role := AdminRole }], 200) ∧
    (userFirst (UpdateProfile [plainUser] 1 (some ⟨"U", "", "admin"⟩) none).1 1).map User.Role
      = some AdminRole := by
  decide

/-! ## The token format check -/

/-- A class matches exactly the one-character words of its characters. -/
theorem mem_anyOf (l : List Char) (x : List Char) :
    x ∈ (anyOf l).matches' ↔ ∃ c, c ∈ l ∧ x = [c] := by
  induction l with
  | nil =>
    simp only [anyOf, RegularExpression.matches'_zero, List.not_mem_nil, false_and, exists_false,
      iff_false]
    exact fun h => h
  | cons a rest ih =>
    simp only [anyOf, RegularExpression.matches'_add, RegularExpression.matches'_char,
      Language.mem_add, ih, List.mem_cons]
    constructor
    · rintro (h | ⟨c, hc, hx⟩)
      · exact ⟨a, Or.inl rfl, h⟩
      · exact ⟨c, Or.inr hc, hx⟩
    · rintro ⟨c, hc | hc, hx⟩
      · exact Or.inl (by rw [hx, hc]; rfl)
      · exact Or.inr ⟨c, hc, hx⟩

theorem mem_charRange (lo hi c : Char) (h1 : lo.toNat ≤ c.toNat) (h2 : c.toNat ≤ hi.toNat) :
    c ∈ charRange lo hi := by
  unfold charRange
  rw [List.mem_map]
  refine ⟨c.toNat - lo.toNat, List.mem_range.2 (by omega), ?_⟩
  rw [Nat.add_sub_cancel' h1]
  exact Char.ofNat_toNat c

theorem char_le_iff (a b : Char) : a ≤ b ↔ a.toNat ≤ b.toNat := Iff.rfl

theorem mem_digitClass (c : Char) : c ∈ digitClass ↔ '0' ≤ c ∧ c ≤ '9' := by
  constructor
  · have h : ∀ d ∈ digitClass, '0' ≤ d ∧ d ≤ '9' := by decide
    exact h c
  · rintro ⟨h1, h2⟩
    exact mem_charRange _ _ _ h1 h2

theorem mem_tokenClass (c : Char) :
    c ∈ tokenClass ↔
      ('a' ≤ c ∧ c ≤ 'z') ∨ ('A' ≤ c ∧ c ≤ 'Z') ∨ ('0' ≤ c ∧ c ≤ '9') ∨ c = '_' ∨ c = '-' := by
  constructor
  · have h : ∀ d ∈ tokenClass,
        ('a' ≤ d ∧ d ≤ 'z') ∨ ('A' ≤ d ∧ d ≤ 'Z') ∨ ('0' ≤ d ∧ d ≤ '9') ∨ d = '_' ∨ d = '-' := by
      decide
    exact h c
  · unfold tokenClass
    simp only [List.mem_append, List.mem_cons, List.mem_singleton, List.not_mem_nil, or_false]
    rintro (⟨h1, h2⟩ | ⟨h1, h2⟩ | ⟨h1, h2⟩ | h | h)
    · exact Or.inl (Or.inl (Or.inl (mem_charRange _ _ _ h1 h2)))
    · exact Or.inl (Or.inl (Or.inr (mem_charRange _ _ _ h1 h2)))
    · exact Or.inl (Or.inr (mem_charRange _ _ _ h1 h2))
    · exact Or.inr (Or.inl h)
    · exact Or.inr (Or.inr h)

theorem flatten_singletons (l : List Char) (S : List (List Char))
    (h : ∀ y ∈ S, y ∈ (anyOf l).matches') :
    S.flatten.length = S.length ∧ ∀ c ∈ S.flatten, c ∈ l := by
  induction S with
  | nil => simp
  | cons y rest ih =>
    obtain ⟨c, hc, hy⟩ := (mem_anyOf l y).1 (h y (List.mem_cons_self _ _))
    obtain ⟨h1, h2⟩ := ih (fun z hz => h z (List.mem_cons_of_mem _ hz))
    subst hy
    refine ⟨by simp [h1], ?_⟩
    intro d hd
    simp only [List.flatten_cons, List.singleton_append, List.mem_cons] at hd
    rcases hd with hd | hd
    · rw [hd]; exact hc
    · exact h2 d hd

theorem flatten_map_singleton (x : List Char) : (x.map (fun c => [c])).flatten = x := by
  induction x with
  | nil => rfl
  | cons a rest ih => simp [ih]

theorem mem_class_pow (l : List Char) (n : Nat) (x : List Char) :
    x ∈ (anyOf l ^ n).matches' ↔ x.length = n ∧ ∀ c ∈ x, c ∈ l := by
  rw [RegularExpression.matches'_pow, Language.mem_pow]
  constructor
  · rintro ⟨S, hx, hn, hS⟩
    obtain ⟨h1, h2⟩ := flatten_singletons l S hS
    rw [hx]
    exact ⟨h1.trans hn, h2⟩
  · rintro ⟨hn, hx⟩
    refine ⟨x.map (fun c => [c]), (flatten_map_singleton x).symm, by simp [hn], ?_⟩
    intro y hy
    obtain ⟨c, hc, hcy⟩ := List.mem_map.1 hy
    exact (mem_anyOf l y).2 ⟨c, hx c hc, hcy.symm⟩

theorem mem_class_star (l : List Char) (x : List Char) :
    x ∈ (anyOf l).star.matches' ↔ ∀ c ∈ x, c ∈ l := by
  rw [RegularExpression.matches'_star, Language.mem_kstar]
  constructor
  · rintro ⟨S, hx, hS⟩
    rw [hx]
    exact (flatten_singletons l S hS).2
  · intro hx
    refine ⟨x.map (fun c => [c]), (flatten_map_singleton x).symm, ?_⟩
    intro y hy
    obtain ⟨c, hc, hcy⟩ := List.mem_map.1 hy
    exact (mem_anyOf l y).2 ⟨c, hx c hc, hcy.symm⟩

/-- The words of the pattern: digits, not none, then a colon, then 35
characters of the class. -/
theorem isValidBotTokenFormat_iff (t : String) :
    isValidBotTokenFormat t = true ↔
      ∃ ds cs : List Char, t.data = ds ++ ':' :: cs ∧ ds ≠ [] ∧ (∀ c ∈ ds, c ∈ digitClass) ∧
        cs.length = 35 ∧ ∀ c ∈ cs, c ∈ tokenClass := by
  unfold isValidBotTokenFormat tokenPattern
  rw [RegularExpression.rmatch_iff_matches']
  simp only [RegularExpression.matches'_mul, Language.mem_mul, RegularExpression.matches'_char]
  constructor
  · rintro ⟨x3, ⟨x2, ⟨a, ha, b, hb, hab⟩, s, hs, h2⟩, cs, hcs, h3⟩
    obtain ⟨d, hd, had⟩ := (mem_anyOf _ _).1 ha
    have hb' := (mem_class_star _ _).1 hb
    obtain ⟨hlen, hcs'⟩ := (mem_class_pow _ _ _).1 hcs
    have hs' : s = [':'] := hs
    refine ⟨a ++ b, cs, ?_, ?_, ?_, hlen, hcs'⟩
    · rw [← h3, ← h2, hab, hs']
      simp
    · rw [had]; simp
    · intro c hc
      rcases List.mem_append.1 hc with h | h
      · rw [had] at h
        rw [List.mem_singleton.1 h]
        exact hd
      · exact hb' c h
  · rintro ⟨ds, cs, ht, hne, hds, hlen, hcs⟩
    cases ds with
    | nil => exact absurd rfl hne
    | cons d rest =>
      refine ⟨(d :: rest) ++ [':'], ⟨d :: rest, ⟨[d], ?_, rest, ?_, rfl⟩, [':'], rfl, rfl⟩,
        cs, ?_, ?_⟩
      · exact (mem_anyOf _ _).2 ⟨d, hds d (List.mem_cons_self _ _), rfl⟩
      · exact (mem_class_star _ _).2 (fun c hc => hds c (List.mem_cons_of_mem _ hc))
      · exact (mem_class_pow _ _ _).2 ⟨hlen, hcs⟩
      · rw [ht]; simp

theorem length_le_utf8ByteSize (t : String) : t.data.length ≤ t.utf8ByteSize := by
  have h : ∀ l : List Char, l.length ≤ String.utf8ByteSize.go l := by
    intro l
    induction l with
    | nil => simp [String.utf8ByteSize.go]
    | cons c rest ih =>
      have := Char.utf8Size_pos c
      simp only [String.utf8ByteSize.go, List.length_cons]
      omega
  exact h t.data

/-- Every character of an accepted token is a digit, the colon or a
character of the class. -/
theorem isValidBotTokenFormat_chars (t : String) (h : isValidBotTokenFormat t = true) :
    ∀ c ∈ t.data, c ∈ digitClass ∨ c = ':' ∨ c ∈ tokenClass := by
  obtain ⟨ds, cs, ht, _, hds, _, hcs⟩ := (isValidBotTokenFormat_iff t).1 h
  intro c hc
  rw [ht] at hc
  rcases List.mem_append.1 hc with h1 | h1
  · exact Or.inl (hds c h1)
  · rcases List.mem_cons.1 h1 with h2 | h2
    · exact Or.inr (Or.inl h2)
    · exact Or.inr (Or.inr (hcs c h2))

theorem newline_not_allowed : ¬ ('\n' ∈ digitClass ∨ '\n' = ':' ∨ '\n' ∈ tokenClass) := by
  decide

/-- C25 (token format validator): `isValidBotTokenFormat(t)` is true exactly
when `t` is one or more ASCII digits, then one ':', then exactly 35
characters each in `a`-`z`, `A`-`Z`, `0`-`9`, `_` or `-`, with nothing before
or after; hence an accepted token has at least 37 bytes, and a text with a
newline added at its end or put in front is never accepted. -/
theorem C25_token_format (t : String) :
    (isValidBotTokenFormat t = true ↔
      ∃ ds cs : List Char, t.data = ds ++ ':' :: cs ∧ ds ≠ [] ∧
        (∀ c ∈ ds, '0' ≤ c ∧ c ≤ '9') ∧ cs.length = 35 ∧
        (∀ c ∈ cs, ('a' ≤ c ∧ c ≤ 'z') ∨ ('A' ≤ c ∧ c ≤ 'Z') ∨ ('0' ≤ c ∧ c ≤ '9') ∨
          c = '_' ∨ c = '-')) ∧
    (isValidBotTokenFormat t = true → 37 ≤ t.utf8ByteSize) ∧
    isValidBotTokenFormat (t ++ "\n") = false ∧
    isValidBotTokenFormat ("\n" ++ t) = false := by
  refine ⟨?_, ?_, ?_, ?_⟩
  · rw [isValidBotTokenFormat_iff]
    constructor
    · rintro ⟨ds, cs, ht, hne, hds, hlen, hcs⟩
      exact ⟨ds, cs, ht, hne, fun c hc => (mem_digitClass c).1 (hds c hc), hlen,
        fun c hc => (mem_tokenClass c).1 (hcs c hc)⟩
    · rintro ⟨ds, cs, ht, hne, hds, hlen, hcs⟩
      exact ⟨ds, cs, ht, hne, fun c hc => (mem_digitClass c).2 (hds c hc), hlen,
        fun c hc => (mem_tokenClass c).2 (hcs c hc)⟩
  · intro h
    obtain ⟨ds, cs, ht, hne, _, hlen, _⟩ := (isValidBotTokenFormat_iff t).1 h
    have hl := length_le_utf8ByteSize t
    rw [ht, List.length_append, List.length_cons, hlen] at hl
    have hpos : 0 < ds.length := List.length_pos.2 hne
    omega
  · cases hv : isValidBotTokenFormat (t ++ "\n") with
    | false => rfl
    | true =>
      exact absurd (isValidBotTokenFormat_chars _ hv '\n' (by simp [String.data_append]))
        newline_not_allowed
  · cases hv : isValidBotTokenFormat ("\n" ++ t) with
    | false => rfl
    | true =>
      exact absurd (isValidBotTokenFormat_chars _ hv '\n' (by simp [String.data_append]))
        newline_not_allowed

theorem C25_token_format_witness :
    isValidBotTokenFormat "123456789:ABCdefGhIJKlmNoPQRsTUVwxyz_12345-78" = true ∧
    37 ≤ "123456789:ABCdefGhIJKlmNoPQRsTUVwxyz_12345-78".utf8ByteSize := by
  have h := C25_token_format "123456789:ABCdefGhIJKlmNoPQRsTUVwxyz_12345-78"
  have hv : isValidBotTokenFormat "123456789:ABCdefGhIJKlmNoPQRsTUVwxyz_12345-78" = true :=
    h.1.2 ⟨"123456789".data, "ABCdefGhIJKlmNoPQRsTUVwxyz_12345-78".data, by decide, by decide,
      by decide, by decide, by decide⟩
  exact ⟨hv, h.2.1 hv⟩

/-! ## The conflict after a replacement -/

/-- C26 (conflict after replacement still stops the old worker): in a
reachable registry state where card `e1` runs token `c1` and another token
`c2` is bound to another card `e2`, `StartBot(c2, e1)` returns the conflict
error after it has stopped the worker of `e1` and slept a second; afterwards
`e1` has no instance, `c1` is not running, `c2` and `e2` hold the same
instance as before, and every binding of another card and of another token
is as before. -/
theorem C26_conflict_after_replacement (bm : BotManager) (h : Reachable bm) (c1 c2 : String)
    (e1 e2 : Nat) (i1 i2 : BotInstance) (gw : Gateway)
    (h1 : mapGet bm.botsByCard e1 = some i1) (ht1 : i1.token = c1)
    (h2 : mapGet bm.botsByToken c2 = some i2) (he2 : i2.visitCardID = e2)
    (hc : c2 ≠ c1) (he : e2 ≠ e1) :
    (StartBot bm c2 e1 gw).ret = Ret.err "token already in use by another visit card" ∧
    (StartBot bm c2 e1 gw).trace = [Effect.stopWorker i1.ptr, Effect.sleep 1] ∧
    mapGet (StartBot bm c2 e1 gw).bm.botsByCard e1 = none ∧
    mapGet (StartBot bm c2 e1 gw).bm.botsByToken c1 = none ∧
    mapGet (StartBot bm c2 e1 gw).bm.botsByToken c2 = some i2 ∧
    mapGet (StartBot bm c2 e1 gw).bm.botsByCard e2 = some i2 ∧
    (∀ e, e ≠ e1 →
      mapGet (StartBot bm c2 e1 gw).bm.botsByCard e = mapGet bm.botsByCard e) ∧
    (∀ c, c ≠ c1 →
      mapGet (StartBot bm c2 e1 gw).bm.botsByToken c = mapGet bm.botsByToken c) := by
  have hI := h.inv
  obtain ⟨hv1, hb1⟩ := hI.card_token e1 i1 h1
  obtain ⟨_, hcard2⟩ := hI.token_card c2 i2 h2
  rw [he2] at hcard2
  have hne : i1.token ≠ c2 := by rw [ht1]; exact fun hh => hc hh.symm
  have hs : (sliceOK i1.token && sliceOK c2) = true := by
    simp [sliceOK_of_bound hI hb1, sliceOK_of_bound hI h2]
  have hb' : mapGet (mapDelete bm.botsByToken i1.token) c2 = some i2 := by
    simp [mapGet_mapDelete, hne, h2]
  have hex : StartBot bm c2 e1 gw =
      ⟨{ bm with botsByCard := mapDelete bm.botsByCard i1.visitCardID,
                 botsByToken := mapDelete bm.botsByToken i1.token },
        Ret.err conflictError, [Effect.stopWorker i1.ptr, Effect.sleep 1]⟩ := by
    unfold StartBot
    simp only [h1, ne_eq, hne, not_false_eq_true, if_true, hs, stopBotUnlocked_bound hI hb1]
    rw [startBotCreate_bound (hI.remove hb1) hb']
    rfl
  rw [hex, hv1, ht1]
  rw [ht1] at hb'
  refine ⟨rfl, rfl, by simp [mapGet_mapDelete], by simp [mapGet_mapDelete], hb', ?_, ?_, ?_⟩
  · simp [mapGet_mapDelete, Ne.symm he, hcard2]
  · intro e hne'
    simp [mapGet_mapDelete, Ne.symm hne']
  · intro c hne'
    simp [mapGet_mapDelete, Ne.symm hne']

theorem C26_conflict_after_replacement_witness :
    Reachable twoBots ∧
    (StartBot twoBots "abcdefghij" 1 ⟨none, none⟩).ret
      = Ret.err "token already in use by another visit card" ∧
    (StartBot twoBots "abcdefghij" 1 ⟨none, none⟩).trace
      = [Effect.stopWorker 0, Effect.sleep 1] ∧
    mapGet (StartBot twoBots "abcdefghij" 1 ⟨none, none⟩).bm.botsByCard 1 = none ∧
    mapGet (StartBot twoBots "abcdefghij" 1 ⟨none, none⟩).bm.botsByToken "1234567890" = none ∧
    mapGet (StartBot twoBots "abcdefghij" 1 ⟨none, none⟩).bm.botsByToken "abcdefghij"
      = some ⟨1, 2, "abcdefghij"⟩ ∧
    mapGet (StartBot twoBots "abcdefghij" 1 ⟨none, none⟩).bm.botsByCard 2
      = some ⟨1, 2, "abcdefghij"⟩ := by
  have hr : Reachable twoBots :=
    Reachable.startBot oneBot "abcdefghij" 2 ⟨none, none⟩ oneBot_reachable (by decide)
  have h := C26_conflict_after_replacement twoBots hr "1234567890" "abcdefghij" 1 2
    ⟨0, 1, "1234567890"⟩ ⟨1, 2, "abcdefghij"⟩ ⟨none, none⟩ (by decide) rfl (by decide) rfl
    (by decide) (by decide)
  exact ⟨hr, h.1, h.2.1, h.2.2.1, h.2.2.2.1, h.2.2.2.2.1, h.2.2.2.2.2.1⟩

/-! ## The classifier under wrapping -/

theorem ToLower_append (table : Char → Char) (a b : String) :
    (ToLower table (a ++ b)).data = (ToLower table a).data ++ (ToLower table b).data := by
  simp [ToLower, String.data_append]

/-- A text that contains a transient text is transient. -/
theorem isNetworkError_wrap (table : Char → Char) (s p q : String)
    (hs : isNetworkError table s = true) : isNetworkError table (p ++ s ++ q) = true := by
  unfold isNetworkError at hs ⊢
  rw [List.any_eq_true] at hs ⊢
  obtain ⟨pat, hpat, hc⟩ := hs
  refine ⟨pat, hpat, ?_⟩
  obtain ⟨pre, post, hpp⟩ := (Contains_iff _ _).1 hc
  refine (Contains_iff _ _).2 ⟨(ToLower table p).data ++ pre, post ++ (ToLower table q).data, ?_⟩
  rw [ToLower_append, ToLower_append, ← hpp]
  simp [List.append_assoc]

/-- C27 (classification is stable under wrapping): if `isNetworkError(s)` is
true then `isNetworkError(p + s + q)` is true for all `p` and `q`; when
`GetMe` fails with such an `s` during the validation of a visit card,
`validateBotToken` returns "network error during token validation: " + s,
which `syncBots` classifies as transient again, and the processing of the
card on a reachable registry neither marks the token invalid nor calls
`StopBot` for it. -/
theorem C27_classification_stable (table : Char → Char) (s p q : String) (bm : BotManager)
    (vc : VisitCard) (cg : CardGateway)
    (hs : isNetworkError table s = true) (hr : Reachable bm)
    (hnew : cg.validate.newBotAPI = none) (hget : cg.validate.getMe = some s) :
    isNetworkError table (p ++ s ++ q) = true ∧
    isNetworkError table ("network error during token validation: " ++ s) = true ∧
    validationError table vc cg = some ("network error during token validation: " ++ s) ∧
    transientFailure table vc cg = true ∧
    permanentFailure table vc cg = false ∧
    (∀ msg, Effect.storeUpdate vc.ID false msg ∉ (processCard table bm vc cg).trace) ∧
    Effect.callStopBot vc.TelegramBotToken ∉ (processCard table bm vc cg).trace := by
  have hw : isNetworkError table ("network error during token validation: " ++ s) = true := by
    have := isNetworkError_wrap table s "network error during token validation: " "" hs
    simpa using this
  have hv : validationError table vc cg
      = some ("network error during token validation: " ++ s) := by
    simp [validationError, validateBotToken, hnew, hget, hs]
  have ht : transientFailure table vc cg = true := by
    simp [transientFailure, hv, hw]
  have hp : permanentFailure table vc cg = false := by
    simp [permanentFailure, hv, hw]
  refine ⟨isNetworkError_wrap table s p q hs, hw, hv, ht, hp, ?_, ?_⟩
  · intro msg hmem
    by_cases hsl : sliceOK vc.TelegramBotToken = true
    · have hm := (processCard_trace hr.inv table vc cg hsl).1 _ hmem
      obtain ⟨_, hh | ⟨_, errStr, he, hn, _⟩⟩ := hm
      · simp at hh
      · rw [hv] at he
        rw [← Option.some.inj he, hw] at hn
        exact Bool.noConfusion hn
    · simp [processCard, hsl] at hmem
  · intro hmem
    by_cases hsl : sliceOK vc.TelegramBotToken = true
    · have hm := (processCard_trace hr.inv table vc cg hsl).1 _ hmem
      have h2 : permanentFailure table vc cg = true := hm.2
      rw [hp] at h2
      exact Bool.noConfusion h2
    · simp [processCard, hsl] at hmem

theorem C27_classification_stable_witness :
    isNetworkError (fun c => c) "dial tcp: i/o timeout" = true ∧
    isNetworkError (fun c => c) ("Post: " ++ "dial tcp: i/o timeout" ++ " (retry)") = true ∧
    isNetworkError (fun c => c)
      ("network error during token validation: " ++ "dial tcp: i/o timeout") = true ∧
    (∀ msg, Effect.storeUpdate 1 false msg ∉
      (processCard (fun c => c) oneBot (card 1 "1234567890")
        ⟨⟨none, some "dial tcp: i/o timeout"⟩, ⟨none, none⟩⟩).trace) := by
  have h := C27_classification_stable (fun c => c) "dial tcp: i/o timeout" "Post: " " (retry)"
    oneBot (card 1 "1234567890") ⟨⟨none, some "dial tcp: i/o timeout"⟩, ⟨none, none⟩⟩
    (by decide) oneBot_reachable rfl rfl
  exact ⟨by decide, h.1, h.2.1, h.2.2.2.2.2.1⟩

end VisitPlatform
